import Mathlib

set_option synthInstance.maxHeartbeats 1000000
set_option maxHeartbeats 1600000

/-!
Shallow embedding of the privilege-reconciliation core of the
`terraform-provider-postgresql` repository: the schema-policy diff engine
(`schemaChangedPolicies`), the policy-to-ACL conversion
(`schemaPolicyToACL`), the schema/extension/grant resource operations with
their catalog-lock and role-elevation behaviour, and the external
identifier generators (`generateSchemaID`, `generateGrantID`,
`readTableGrantID`).

Go strings are embedded as `List Char` (named `Str`), so that Go's
`strings.Join` / `strings.Split` become `List.intercalate` /
`List.splitOn`.  Go maps built by repeated assignment are embedded as
association lists with overwrite-on-insert, which preserves both the
key-set semantics and the overwrite (last-write-wins) behaviour of
`m[k] = v`.
-/

/-- Go `string`, embedded as a list of characters. -/
abbrev Str := List Char

/-- Convenience conversion from a Lean string literal to `Str`. -/
def str (s : String) : Str := s.data

/-- Go `strings.ToLower` (restricted to the ASCII case mapping). -/
def strToLower (s : Str) : Str := s.map Char.toLower

/-- Go `sort.Strings` comparison: lexicographic `≤` on strings
(byte order and code-point order agree for UTF-8). -/
def strLe : Str → Str → Bool
  | [], _ => true
  | _ :: _, [] => false
  | a :: as, b :: bs =>
    if a < b then true else if a = b then strLe as bs else false

/-- The three outcomes of a Go `QueryRow(...).Scan(...)` call:
`sql.ErrNoRows`, a successful row, or a real database error. -/
inductive RowResult
  | noRows
  | found
  | dbError
deriving DecidableEq, Repr

/- ===================== ACL values (external codec) ===================== -/

/-- Privilege bit for `CREATE` in the ACL bitset
(`acl.Create` of the `postgresql-acl` library). -/
def aclCreate : Nat := 1

/-- Privilege bit for `USAGE` in the ACL bitset (`acl.Usage`). -/
def aclUsage : Nat := 2

/-- Modelled from the spec: the ACL Value of the external
`postgresql-acl` library (`acl.Schema`), which is not under the
repository sources: a role identity plus bitsets of privileges and of
grant options. -/
structure ACLSchema where
  role : Str
  privileges : Nat
  grantOptions : Nat
deriving DecidableEq, Repr

/-- Modelled from the spec: `acl.Schema.Merge`, the union-merge of two ACL
values for the same role — bitwise union of the privilege and grant-option
bitsets, keeping the receiver's role identity. -/
def ACLSchema.merge (a b : ACLSchema) : ACLSchema :=
  { role := a.role
    privileges := a.privileges ||| b.privileges
    grantOptions := a.grantOptions ||| b.grantOptions }

/- ===================== statements and events ===================== -/

/-- SQL statements issued by the embedded operations.  DDL and catalog
statements keep their text; the GRANT/REVOKE fragments produced by the ACL
codec are kept structured so that the role they target is visible. -/
inductive Stmt
  | raw (sql : Str)
  | grantPriv (role : Str) (objectName : Str) (privileges grantOptions : Nat)
  | revokePriv (role : Str) (objectName : Str) (privileges grantOptions : Nat)
deriving DecidableEq, Repr

/-- Modelled from the spec: `acl.Schema.Grants` of the external ACL codec —
the batched `GRANT ... ON SCHEMA <object> TO <role>` fragments for one ACL
value, one fragment per role, empty when the value carries no privilege. -/
def aclSchemaGrants (a : ACLSchema) (objectName : Str) : List Stmt :=
  if a.privileges = 0 then []
  else [Stmt.grantPriv a.role objectName a.privileges a.grantOptions]

/-- Modelled from the spec: `acl.Schema.Revokes` — the symmetric
`REVOKE ... ON SCHEMA <object> FROM <role>` fragments. -/
def aclSchemaRevokes (a : ACLSchema) (objectName : Str) : List Stmt :=
  if a.privileges = 0 then []
  else [Stmt.revokePriv a.role objectName a.privileges a.grantOptions]

/-- Observable events of one resource operation: catalog-lock transitions
(`lock write?` / `unlock write?`), transaction begin, catalog reads
(`query`), the role-membership elevation calls (`grantMember` /
`revokeMember`, i.e. `grantRoleMembership` / `revokeRoleMembership`),
statement execution, commit, and the deferred-rollback call. -/
inductive Ev
  | lock (write : Bool)
  | unlock (write : Bool)
  | beginTxn
  | query (sql : Str)
  | grantMember (target actor : Str)
  | revokeMember (target actor : Str)
  | exec (s : Stmt)
  | commit
  | rollbackCall
deriving DecidableEq, Repr

/-- Errors returned by the embedded operations. -/
inductive OpErr
  | txnFailed
  | grantMembershipFailed
  | execFailed (s : Stmt)
  | revokeMembershipFailed
  | commitFailed
  | emptyName
  | readFailed
  | featureUnsupported
  | validateFailed
  | ownersFailed
deriving DecidableEq, Repr

/- ===================== schema policy declarations ===================== -/

/-- One element of the `policy` set of the `postgresql_schema` resource:
the flat HCL map with its five attributes
(`create`, `create_with_grant`, `role`, `usage`, `usage_with_grant`). -/
structure SchemaPolicyMap where
  create : Bool
  createWithGrant : Bool
  role : Str
  usage : Bool
  usageWithGrant : Bool
deriving DecidableEq, Repr

/-- `schemaPolicyToACL`: converts one policy map into an ACL value
(source `part_000`, lines 608-634). -/
def schemaPolicyToACL (policyMap : SchemaPolicyMap) : ACLSchema :=
  let p0 : Nat := 0
  let g0 : Nat := 0
  let p1 := if policyMap.create then p0 ||| aclCreate else p0
  let p2 := if policyMap.createWithGrant then p1 ||| aclCreate else p1
  let g2 := if policyMap.createWithGrant then g0 ||| aclCreate else g0
  let p3 := if policyMap.usage then p2 ||| aclUsage else p2
  let p4 := if policyMap.usageWithGrant then p3 ||| aclUsage else p3
  let g4 := if policyMap.usageWithGrant then g2 ||| aclUsage else g2
  { role := policyMap.role, privileges := p4, grantOptions := g4 }

/- ===================== association-list maps ===================== -/

/-- Embedding of a Go `map[string]V`: an association list with unique keys. -/
abbrev Keyed (V : Type) := List (Str × V)

/-- Go map assignment `m[k] = v`: replace the binding of `k` if present,
otherwise append a new binding. -/
def insertOW {V : Type} : Keyed V → Str → V → Keyed V
  | [], k, v => [(k, v)]
  | (k', v') :: rest, k, v =>
    if k' = k then (k, v) :: rest else (k', v') :: insertOW rest k v

/-- The keys of an embedded Go map. -/
def mapKeys {V : Type} (m : Keyed V) : List Str := m.map Prod.fst

/-- The `oldLookupMap` / `newLookupMap` builder of `schemaChangedPolicies`
(source `part_000`, lines 547-567): key each policy by its lowercased role
name; a later policy with the same key overwrites the earlier one. -/
def buildLookupMap (l : List SchemaPolicyMap) : Keyed SchemaPolicyMap :=
  l.foldl (fun m p => insertOW m (strToLower p.role) p) []

/-- One iteration of the policy loop of `resourcePostgreSQLSchemaCreate`
(source `part_000`, lines 175-185): convert the policy map to an ACL value
(`rolePolicy`), key it by its lowercased role, and on collision union-merge
with the existing entry (`existingRolePolicy.Merge(rolePolicy)`). -/
def policyACLInsert (m : Keyed ACLSchema) (p : SchemaPolicyMap) :
    Keyed ACLSchema :=
  match m.lookup (strToLower (schemaPolicyToACL p).role) with
  | some existing =>
    insertOW m (strToLower (schemaPolicyToACL p).role)
      (existing.merge (schemaPolicyToACL p))
  | none =>
    insertOW m (strToLower (schemaPolicyToACL p).role) (schemaPolicyToACL p)

/-- The role-keyed ACL container of `resourcePostgreSQLSchemaCreate`
(source `part_000`, lines 173-185). -/
def buildPolicyACLMap (l : List SchemaPolicyMap) : Keyed ACLSchema :=
  l.foldl policyACLInsert []

/- ===================== the diff engine ===================== -/

/-- `schemaChangedPolicies` (source `part_000`, lines 545-596): partition
the role keys of the old and new policy lists into dropped / added /
updated / unchanged.  The four Go result maps are embedded as association
lists derived from the two lookup maps; Go's unspecified map iteration
order is fixed to insertion order, which no claim depends on. -/
def schemaChangedPolicies (old new : List SchemaPolicyMap) :
    Keyed SchemaPolicyMap × Keyed SchemaPolicyMap ×
    Keyed (SchemaPolicyMap × SchemaPolicyMap) × Keyed SchemaPolicyMap :=
  let oldLookupMap := buildLookupMap old
  let newLookupMap := buildLookupMap new
  let droppedRoles :=
    oldLookupMap.filter fun kv => (newLookupMap.lookup kv.1).isNone
  let addedRoles :=
    newLookupMap.filter fun kv => (oldLookupMap.lookup kv.1).isNone
  let updatedRoles : Keyed (SchemaPolicyMap × SchemaPolicyMap) :=
    oldLookupMap.filterMap fun kv =>
      match newLookupMap.lookup kv.1 with
      | some vNew => if kv.2 = vNew then none else some (kv.1, (kv.2, vNew))
      | none => none
  let unchangedRoles :=
    oldLookupMap.filterMap fun kv =>
      match newLookupMap.lookup kv.1 with
      | some vNew => if kv.2 = vNew then some kv else none
      | none => none
  (droppedRoles, addedRoles, updatedRoles, unchangedRoles)

/-- The lowercased role keys of a policy list. -/
def roleKeys (l : List SchemaPolicyMap) : List Str :=
  l.map fun p => strToLower p.role

/-- How many of the four diff buckets contain the key `k`. -/
def bucketCount (old new : List SchemaPolicyMap) (k : Str) : Nat :=
  (if k ∈ mapKeys (schemaChangedPolicies old new).1 then 1 else 0) +
    (if k ∈ mapKeys (schemaChangedPolicies old new).2.1 then 1 else 0) +
    (if k ∈ mapKeys (schemaChangedPolicies old new).2.2.1 then 1 else 0) +
    (if k ∈ mapKeys (schemaChangedPolicies old new).2.2.2 then 1 else 0)

/- ===================== basic map lemmas ===================== -/

theorem lookup_pair_cons_self {V : Type} (k : Str) (v : V) (rest : Keyed V) :
    List.lookup k ((k, v) :: rest) = some v := by
  simp [List.lookup]

theorem lookup_pair_cons_ne {V : Type} (k k₀ : Str) (v₀ : V) (rest : Keyed V)
    (h : ¬ k = k₀) : List.lookup k ((k₀, v₀) :: rest) = List.lookup k rest := by
  have hb : (k == k₀) = false := beq_eq_false_iff_ne.mpr h
  simp [List.lookup, hb]

theorem lookup_insertOW {V : Type} (m : Keyed V) (k k' : Str) (v : V) :
    (insertOW m k v).lookup k' = if k' = k then some v else m.lookup k' := by
  induction m with
  | nil =>
    by_cases h : k' = k
    · subst h; simp [insertOW, lookup_pair_cons_self]
    · rw [show insertOW [] k v = [(k, v)] from rfl,
        lookup_pair_cons_ne _ _ _ _ h, if_neg h]
  | cons kv rest ih =>
    obtain ⟨k₀, v₀⟩ := kv
    simp only [insertOW]
    by_cases h0 : k₀ = k
    · subst h0
      rw [if_pos rfl]
      by_cases h : k' = k₀
      · subst h
        rw [lookup_pair_cons_self, if_pos rfl]
      · rw [lookup_pair_cons_ne _ _ _ _ h, if_neg h,
          lookup_pair_cons_ne _ _ _ _ h]
    · rw [if_neg h0]
      by_cases h : k' = k₀
      · subst h
        rw [lookup_pair_cons_self, if_neg h0, lookup_pair_cons_self]
      · rw [lookup_pair_cons_ne _ _ _ _ h, ih,
          lookup_pair_cons_ne _ _ _ _ h]

theorem mem_keys_insertOW {V : Type} (m : Keyed V) (k k' : Str) (v : V) :
    k' ∈ mapKeys (insertOW m k v) ↔ k' = k ∨ k' ∈ mapKeys m := by
  induction m with
  | nil => simp [insertOW, mapKeys]
  | cons kv rest ih =>
    obtain ⟨k₀, v₀⟩ := kv
    simp only [insertOW]
    by_cases h0 : k₀ = k
    · subst h0
      rw [if_pos rfl]
      simp only [mapKeys, List.map_cons, List.mem_cons]
      constructor
      · rintro (h | h)
        · exact Or.inl h
        · exact Or.inr (Or.inr h)
      · rintro (h | h | h)
        · exact Or.inl h
        · exact Or.inl h
        · exact Or.inr h
    · rw [if_neg h0]
      simp only [mapKeys, List.map_cons, List.mem_cons]
      rw [show (List.map Prod.fst (insertOW rest k v)) =
            mapKeys (insertOW rest k v) from rfl,
        show (List.map Prod.fst rest) = mapKeys rest from rfl, ih]
      tauto

theorem keys_nodup_insertOW {V : Type} (m : Keyed V) (k : Str) (v : V)
    (h : (mapKeys m).Nodup) : (mapKeys (insertOW m k v)).Nodup := by
  induction m with
  | nil => simp [insertOW, mapKeys]
  | cons kv rest ih =>
    obtain ⟨k₀, v₀⟩ := kv
    simp only [mapKeys, List.map_cons, List.nodup_cons] at h
    simp only [insertOW]
    by_cases h0 : k₀ = k
    · subst h0
      rw [if_pos rfl]
      simp only [mapKeys, List.map_cons, List.nodup_cons]
      exact ⟨h.1, h.2⟩
    · rw [if_neg h0]
      simp only [mapKeys, List.map_cons, List.nodup_cons]
      refine ⟨fun hmem => ?_, ih h.2⟩
      rcases (mem_keys_insertOW rest k k₀ v).mp hmem with h' | h'
      · exact h0 h'
      · exact h.1 h'

theorem mem_keys_iff_lookup_isSome {V : Type} (m : Keyed V) (k : Str) :
    k ∈ mapKeys m ↔ (m.lookup k).isSome := by
  induction m with
  | nil => simp [mapKeys, List.lookup]
  | cons kv rest ih =>
    obtain ⟨k₀, v₀⟩ := kv
    by_cases h : k = k₀
    · subst h; simp [mapKeys, lookup_pair_cons_self]
    · simp [mapKeys, lookup_pair_cons_ne _ _ _ _ h, h, ih]

theorem lookup_eq_some_of_mem {V : Type} (m : Keyed V) (k : Str) (v : V)
    (hnd : (mapKeys m).Nodup) (hmem : (k, v) ∈ m) : m.lookup k = some v := by
  induction m with
  | nil => simp at hmem
  | cons kv rest ih =>
    obtain ⟨k₀, v₀⟩ := kv
    simp only [mapKeys, List.map_cons, List.nodup_cons] at hnd
    rcases List.mem_cons.mp hmem with h | h
    · rw [Prod.mk.injEq] at h
      obtain ⟨h1, h2⟩ := h
      subst h1; subst h2
      exact lookup_pair_cons_self _ _ _
    · by_cases hk : k = k₀
      · subst hk
        exact absurd (List.mem_map_of_mem Prod.fst h) hnd.1
      · rw [lookup_pair_cons_ne _ _ _ _ hk]
        exact ih hnd.2 h

theorem mem_of_lookup_eq_some {V : Type} (m : Keyed V) (k : Str) (v : V)
    (h : m.lookup k = some v) : (k, v) ∈ m := by
  induction m with
  | nil => simp [List.lookup] at h
  | cons kv rest ih =>
    obtain ⟨k₀, v₀⟩ := kv
    by_cases hk : k = k₀
    · subst hk
      rw [lookup_pair_cons_self] at h
      obtain rfl := Option.some.injEq .. ▸ h
      exact List.mem_cons_self _ _
    · rw [lookup_pair_cons_ne _ _ _ _ hk] at h
      exact List.mem_cons_of_mem _ (ih h)

/- ===================== lookup-map lemmas ===================== -/

theorem buildLookupMap_keys_nodup (l : List SchemaPolicyMap) :
    (mapKeys (buildLookupMap l)).Nodup := by
  suffices h : ∀ (m : Keyed SchemaPolicyMap), (mapKeys m).Nodup →
      (mapKeys (l.foldl (fun m p => insertOW m (strToLower p.role) p) m)).Nodup by
    exact h [] (by simp [mapKeys])
  induction l with
  | nil => intro m hm; simpa using hm
  | cons p rest ih =>
    intro m hm
    exact ih _ (keys_nodup_insertOW m _ p hm)

theorem buildLookupMap_lookup_isSome (l : List SchemaPolicyMap) (k : Str) :
    ((buildLookupMap l).lookup k).isSome ↔ k ∈ roleKeys l := by
  suffices h : ∀ (m : Keyed SchemaPolicyMap),
      ((l.foldl (fun m p => insertOW m (strToLower p.role) p) m).lookup k).isSome ↔
        (m.lookup k).isSome ∨ k ∈ roleKeys l by
    simpa [List.lookup] using h []
  induction l with
  | nil => intro m; simp [roleKeys]
  | cons p rest ih =>
    intro m
    rw [List.foldl_cons, ih]
    by_cases hk : k = strToLower p.role
    · simp [lookup_insertOW, hk, roleKeys]
    · simp [lookup_insertOW, hk, roleKeys]

theorem mem_insertOW {V : Type} (m : Keyed V) (k k' : Str) (v v' : V)
    (h : (k', v') ∈ insertOW m k v) :
    (k' = k ∧ v' = v) ∨ (k', v') ∈ m := by
  induction m with
  | nil =>
    simp only [insertOW, List.mem_singleton, Prod.mk.injEq] at h
    exact Or.inl h
  | cons kv rest ih =>
    obtain ⟨k₀, v₀⟩ := kv
    simp only [insertOW] at h
    by_cases h0 : k₀ = k
    · subst h0
      rw [if_pos rfl] at h
      rcases List.mem_cons.mp h with h' | h'
      · rw [Prod.mk.injEq] at h'
        exact Or.inl h'
      · exact Or.inr (List.mem_cons_of_mem _ h')
    · rw [if_neg h0] at h
      rcases List.mem_cons.mp h with h' | h'
      · exact Or.inr (List.mem_cons.mpr (Or.inl h'))
      · rcases ih h' with h'' | h''
        · exact Or.inl h''
        · exact Or.inr (List.mem_cons_of_mem _ h'')

/-- Every binding of a lookup map has the lowercased role of its value as
its key. -/
theorem buildLookupMap_key_eq (l : List SchemaPolicyMap) (k : Str)
    (p : SchemaPolicyMap) (h : (k, p) ∈ buildLookupMap l) :
    strToLower p.role = k := by
  suffices hgen : ∀ (m : Keyed SchemaPolicyMap),
      (∀ k' p', (k', p') ∈ m → strToLower p'.role = k') →
      ∀ k' p',
        (k', p') ∈ l.foldl (fun m q => insertOW m (strToLower q.role) q) m →
        strToLower p'.role = k' by
    exact hgen [] (by simp) k p h
  clear h
  induction l with
  | nil => intro m hm k' p' h'; exact hm k' p' h'
  | cons q rest ih =>
    intro m hm k' p' h'
    rw [List.foldl_cons] at h'
    refine ih (insertOW m (strToLower q.role) q) (fun k'' p'' h'' => ?_) k' p' h'
    rcases mem_insertOW m _ k'' q p'' h'' with ⟨h1, h2⟩ | h''
    · subst h1; subst h2; rfl
    · exact hm k'' p'' h''

/- ===================== diff bucket characterizations ===================== -/

theorem mem_keys_filter {V : Type} (m : Keyed V) (f : Str × V → Bool) (k : Str) :
    k ∈ mapKeys (m.filter f) ↔ ∃ v, (k, v) ∈ m ∧ f (k, v) := by
  simp only [mapKeys, List.mem_map]
  constructor
  · rintro ⟨⟨k₁, v⟩, hx, rfl⟩
    obtain ⟨hm, hf⟩ := List.mem_filter.mp hx
    exact ⟨v, hm, hf⟩
  · rintro ⟨v, hm, hf⟩
    exact ⟨(k, v), List.mem_filter.mpr ⟨hm, hf⟩, rfl⟩

theorem mem_keys_dropped (old new : List SchemaPolicyMap) (k : Str) :
    k ∈ mapKeys (schemaChangedPolicies old new).1 ↔
      ((buildLookupMap old).lookup k).isSome ∧
        ((buildLookupMap new).lookup k).isNone := by
  rw [show (schemaChangedPolicies old new).1 =
      (buildLookupMap old).filter
        (fun kv => ((buildLookupMap new).lookup kv.1).isNone) from rfl]
  rw [mem_keys_filter]
  constructor
  · rintro ⟨v, hm, hf⟩
    refine ⟨?_, by simpa using hf⟩
    rw [← mem_keys_iff_lookup_isSome]
    exact List.mem_map_of_mem Prod.fst hm
  · rintro ⟨hs, hn⟩
    obtain ⟨v, hv⟩ := Option.isSome_iff_exists.mp hs
    exact ⟨v, mem_of_lookup_eq_some _ _ _ hv, by simpa using hn⟩

theorem mem_keys_added (old new : List SchemaPolicyMap) (k : Str) :
    k ∈ mapKeys (schemaChangedPolicies old new).2.1 ↔
      ((buildLookupMap new).lookup k).isSome ∧
        ((buildLookupMap old).lookup k).isNone := by
  rw [show (schemaChangedPolicies old new).2.1 =
      (buildLookupMap new).filter
        (fun kv => ((buildLookupMap old).lookup kv.1).isNone) from rfl]
  rw [mem_keys_filter]
  constructor
  · rintro ⟨v, hm, hf⟩
    refine ⟨?_, by simpa using hf⟩
    rw [← mem_keys_iff_lookup_isSome]
    exact List.mem_map_of_mem Prod.fst hm
  · rintro ⟨hs, hn⟩
    obtain ⟨v, hv⟩ := Option.isSome_iff_exists.mp hs
    exact ⟨v, mem_of_lookup_eq_some _ _ _ hv, by simpa using hn⟩

theorem mem_keys_updated (old new : List SchemaPolicyMap) (k : Str) :
    k ∈ mapKeys (schemaChangedPolicies old new).2.2.1 ↔
      ∃ vO vN, (buildLookupMap old).lookup k = some vO ∧
        (buildLookupMap new).lookup k = some vN ∧ vO ≠ vN := by
  rw [show (schemaChangedPolicies old new).2.2.1 =
      (buildLookupMap old).filterMap (fun kv =>
        match (buildLookupMap new).lookup kv.1 with
        | some vNew => if kv.2 = vNew then none else some (kv.1, (kv.2, vNew))
        | none => none) from rfl]
  simp only [mapKeys, List.mem_map, List.mem_filterMap]
  constructor
  · rintro ⟨⟨k₁, vv⟩, ⟨⟨ka, va⟩, hmem, hf⟩, rfl⟩
    rw [show ((ka, va) : Str × SchemaPolicyMap).1 = ka from rfl] at hf
    rcases hn' : (buildLookupMap new).lookup ka with _ | vN'
    · rw [hn'] at hf
      have hf' : (none : Option (Str × (SchemaPolicyMap × SchemaPolicyMap))) =
          some (k₁, vv) := hf
      simp at hf'
    · rw [hn'] at hf
      have hf' : (if va = vN' then none else some (ka, (va, vN'))) =
          some (k₁, vv) := hf
      by_cases he : va = vN'
      · rw [if_pos he] at hf'; simp at hf'
      · rw [if_neg he] at hf'
        rw [Option.some.injEq, Prod.mk.injEq] at hf'
        obtain ⟨h1, h2⟩ := hf'
        have hva := lookup_eq_some_of_mem _ _ _
          (buildLookupMap_keys_nodup old) hmem
        subst h1
        exact ⟨va, vN', hva, hn', he⟩
  · rintro ⟨vO, vN, hO, hN, hne⟩
    refine ⟨(k, (vO, vN)), ⟨(k, vO), mem_of_lookup_eq_some _ _ _ hO, ?_⟩, rfl⟩
    show (match (buildLookupMap new).lookup k with
      | some vNew => if vO = vNew then none else some (k, (vO, vNew))
      | none => none) = some (k, (vO, vN))
    rw [hN]
    show (if vO = vN then none else some (k, (vO, vN))) = some (k, (vO, vN))
    rw [if_neg hne]

theorem mem_keys_unchanged (old new : List SchemaPolicyMap) (k : Str) :
    k ∈ mapKeys (schemaChangedPolicies old new).2.2.2 ↔
      ∃ v, (buildLookupMap old).lookup k = some v ∧
        (buildLookupMap new).lookup k = some v := by
  rw [show (schemaChangedPolicies old new).2.2.2 =
      (buildLookupMap old).filterMap (fun kv =>
        match (buildLookupMap new).lookup kv.1 with
        | some vNew => if kv.2 = vNew then some kv else none
        | none => none) from rfl]
  simp only [mapKeys, List.mem_map, List.mem_filterMap]
  constructor
  · rintro ⟨⟨k₁, vv⟩, ⟨⟨ka, va⟩, hmem, hf⟩, rfl⟩
    rw [show ((ka, va) : Str × SchemaPolicyMap).1 = ka from rfl] at hf
    rcases hn' : (buildLookupMap new).lookup ka with _ | vN'
    · rw [hn'] at hf
      have hf' : (none : Option (Str × SchemaPolicyMap)) = some (k₁, vv) := hf
      simp at hf'
    · rw [hn'] at hf
      have hf' : (if va = vN' then some (ka, va) else none) = some (k₁, vv) := hf
      by_cases he : va = vN'
      · rw [if_pos he] at hf'
        rw [Option.some.injEq, Prod.mk.injEq] at hf'
        obtain ⟨h1, h2⟩ := hf'
        subst h1; subst h2
        have hva := lookup_eq_some_of_mem _ _ _
          (buildLookupMap_keys_nodup old) hmem
        refine ⟨_, hva, ?_⟩
        rw [he]
        exact hn'
      · rw [if_neg he] at hf'; simp at hf'
  · rintro ⟨v, hO, hN⟩
    refine ⟨(k, v), ⟨(k, v), mem_of_lookup_eq_some _ _ _ hO, ?_⟩, rfl⟩
    show (match (buildLookupMap new).lookup k with
      | some vNew => if v = vNew then some (k, v) else none
      | none => none) = some (k, v)
    rw [hN]
    show (if v = v then some (k, v) else none) = some (k, v)
    rw [if_pos rfl]

/-- C1: for every pair of policy declaration lists, the four maps returned
by `schemaChangedPolicies` (dropped, added, updated, unchanged) partition
the union of the lowercased role keys of `old` and of `new` exactly: every
key of the union lies in exactly one bucket, and keys outside the union lie
in none. -/
theorem schemaChangedPolicies_partition (old new : List SchemaPolicyMap)
    (k : Str) :
    bucketCount old new k =
      if k ∈ roleKeys old ∨ k ∈ roleKeys new then 1 else 0 := by
  have hD := mem_keys_dropped old new k
  have hA := mem_keys_added old new k
  have hU := mem_keys_updated old new k
  have hC := mem_keys_unchanged old new k
  have hOW := buildLookupMap_lookup_isSome old k
  have hNW := buildLookupMap_lookup_isSome new k
  unfold bucketCount
  rcases hO : (buildLookupMap old).lookup k with _ | vO <;>
    rcases hN : (buildLookupMap new).lookup k with _ | vN
  · have h1 := (not_congr hD).mpr (by rw [hO]; simp)
    have h2 := (not_congr hA).mpr (by rw [hN]; simp)
    have h3 := (not_congr hU).mpr (by rw [hO]; simp)
    have h4 := (not_congr hC).mpr (by rw [hO]; simp)
    have h5 := (not_congr hOW).mp (by rw [hO]; simp)
    have h6 := (not_congr hNW).mp (by rw [hN]; simp)
    rw [if_neg h1, if_neg h2, if_neg h3, if_neg h4,
      if_neg (by rw [not_or]; exact ⟨h5, h6⟩)]
  · have h1 := (not_congr hD).mpr (by rw [hN]; simp)
    have h2 := hA.mpr ⟨by rw [hN]; simp, by rw [hO]; simp⟩
    have h3 := (not_congr hU).mpr (by rw [hO]; simp)
    have h4 := (not_congr hC).mpr (by rw [hO]; simp)
    have h6 := hNW.mp (by rw [hN]; simp)
    rw [if_neg h1, if_pos h2, if_neg h3, if_neg h4,
      if_pos (Or.inr h6)]
  · have h1 := hD.mpr ⟨by rw [hO]; simp, by rw [hN]; simp⟩
    have h2 := (not_congr hA).mpr (by rw [hN]; simp)
    have h3 := (not_congr hU).mpr (by rw [hN]; simp)
    have h4 := (not_congr hC).mpr (by rw [hN]; simp)
    have h5 := hOW.mp (by rw [hO]; simp)
    rw [if_pos h1, if_neg h2, if_neg h3, if_neg h4,
      if_pos (Or.inl h5)]
  · have h1 := (not_congr hD).mpr (by rw [hN]; simp)
    have h2 := (not_congr hA).mpr (by rw [hO]; simp)
    have h5 := hOW.mp (by simp [hO])
    by_cases hv : vO = vN
    · have h3 := (not_congr hU).mpr (by
        rintro ⟨vO', vN', hO', hN', hne⟩
        rw [hO] at hO'
        rw [hN] at hN'
        obtain rfl := Option.some.injEq .. ▸ hO'
        obtain rfl := Option.some.injEq .. ▸ hN'
        exact hne hv)
      have h4 := hC.mpr ⟨vO, hO, by rw [hN, hv]⟩
      rw [if_neg h1, if_neg h2, if_neg h3, if_pos h4,
        if_pos (Or.inl h5)]
    · have h3 := hU.mpr ⟨vO, vN, hO, hN, hv⟩
      have h4 := (not_congr hC).mpr (by
        rintro ⟨v, hO', hN'⟩
        rw [hO] at hO'
        rw [hN] at hN'
        obtain rfl := Option.some.injEq .. ▸ hO'
        obtain rfl := Option.some.injEq .. ▸ hN'
        exact hv rfl)
      rw [if_neg h1, if_neg h2, if_pos h3, if_neg h4,
        if_pos (Or.inl h5)]


/- ===================== container collision behaviour ===================== -/

theorem schemaPolicyToACL_role (p : SchemaPolicyMap) :
    (schemaPolicyToACL p).role = p.role := rfl

/-- The policy fragments of `l` whose lowercased role is `k`, as ACL values. -/
def matchingACLs (l : List SchemaPolicyMap) (k : Str) : List ACLSchema :=
  (l.filter fun p => strToLower p.role = k).map schemaPolicyToACL

/-- Left fold of `ACLSchema.merge` over a fragment list, `none` when empty. -/
def mergeFold : List ACLSchema → Option ACLSchema
  | [] => none
  | a :: rest => some (rest.foldl ACLSchema.merge a)

theorem buildPolicyACLMap_lookup (l : List SchemaPolicyMap) (k : Str) :
    (buildPolicyACLMap l).lookup k = mergeFold (matchingACLs l k) := by
  suffices hgen : ∀ (m : Keyed ACLSchema),
      (l.foldl policyACLInsert m).lookup k =
        match m.lookup k with
        | some x => some ((matchingACLs l k).foldl ACLSchema.merge x)
        | none => mergeFold (matchingACLs l k) by
    have h := hgen []
    simpa [List.lookup] using h
  induction l with
  | nil =>
    intro m
    rcases hm : m.lookup k with _ | x <;> simp [matchingACLs, mergeFold, hm]
  | cons p rest ih =>
    intro m
    rw [List.foldl_cons, ih]
    by_cases hk : k = strToLower p.role
    · have hmatch : matchingACLs (p :: rest) k =
          schemaPolicyToACL p :: matchingACLs rest k := by
        simp [matchingACLs, List.filter_cons, hk]
      rcases hm : m.lookup (strToLower p.role) with _ | x
      · have hstep : policyACLInsert m p =
            insertOW m (strToLower p.role) (schemaPolicyToACL p) := by
          simp only [policyACLInsert, schemaPolicyToACL_role, hm]
        rw [hstep, lookup_insertOW, if_pos hk]
        have hmk : m.lookup k = none := by rw [hk]; exact hm
        rw [hmk, hmatch]
        rcases hrest : matchingACLs rest k with _ | ⟨a, t⟩ <;>
          simp [mergeFold]
      · have hstep : policyACLInsert m p =
            insertOW m (strToLower p.role)
              (x.merge (schemaPolicyToACL p)) := by
          simp only [policyACLInsert, schemaPolicyToACL_role, hm]
        rw [hstep, lookup_insertOW, if_pos hk]
        have hmk : m.lookup k = some x := by rw [hk]; exact hm
        rw [hmk, hmatch]
        simp [List.foldl_cons]
    · have hne' : ¬ strToLower p.role = k := fun hc => hk hc.symm
      have hmatch : matchingACLs (p :: rest) k = matchingACLs rest k := by
        simp [matchingACLs, List.filter_cons, hne']
      have hne : ¬ k = strToLower p.role := hk
      rcases hm : m.lookup (strToLower p.role) with _ | x
      · have hstep : policyACLInsert m p =
            insertOW m (strToLower p.role) (schemaPolicyToACL p) := by
          simp only [policyACLInsert, schemaPolicyToACL_role, hm]
        rw [hstep, lookup_insertOW, if_neg hne, hmatch]
      · have hstep : policyACLInsert m p =
            insertOW m (strToLower p.role)
              (x.merge (schemaPolicyToACL p)) := by
          simp only [policyACLInsert, schemaPolicyToACL_role, hm]
        rw [hstep, lookup_insertOW, if_neg hne, hmatch]

/-- The policy fragments of `l` whose lowercased role is `k` (raw maps). -/
def matchingPolicies (l : List SchemaPolicyMap) (k : Str) :
    List SchemaPolicyMap :=
  l.filter fun p => strToLower p.role = k

theorem getLast?_cons_eq_getD {α : Type} (a : α) (t : List α) :
    (a :: t).getLast? = some (t.getLast?.getD a) := by
  induction t generalizing a with
  | nil => rfl
  | cons b bs ih =>
    rw [List.getLast?_cons_cons, ih b]
    rfl

theorem buildLookupMap_lookup_eq_getLast (l : List SchemaPolicyMap) (k : Str) :
    (buildLookupMap l).lookup k = (matchingPolicies l k).getLast? := by
  suffices hgen : ∀ (m : Keyed SchemaPolicyMap),
      (l.foldl (fun m p => insertOW m (strToLower p.role) p) m).lookup k =
        match (matchingPolicies l k).getLast? with
        | some p => some p
        | none => m.lookup k by
    have h := hgen []
    rcases hl : (matchingPolicies l k).getLast? with _ | p
    · rw [hl] at h
      simpa [List.lookup] using h
    · rw [hl] at h
      simpa using h
  induction l with
  | nil =>
    intro m
    simp [matchingPolicies]
  | cons p rest ih =>
    intro m
    rw [List.foldl_cons, ih]
    by_cases hk : k = strToLower p.role
    · have hmatch : matchingPolicies (p :: rest) k = p :: matchingPolicies rest k := by
        simp [matchingPolicies, List.filter_cons, hk]
      rw [hmatch, getLast?_cons_eq_getD]
      rcases hrest : (matchingPolicies rest k).getLast? with _ | q
      · rw [lookup_insertOW, if_pos hk]
        rfl
      · rfl
    · have hne' : ¬ strToLower p.role = k := fun hc => hk hc.symm
      have hmatch : matchingPolicies (p :: rest) k = matchingPolicies rest k := by
        simp [matchingPolicies, List.filter_cons, hne']
      rw [hmatch]
      rcases hrest : (matchingPolicies rest k).getLast? with _ | q
      · rw [lookup_insertOW, if_neg hk]
      · rfl

/- ===================== setSchemaPolicy (source lines 473-539) ===================== -/

/-- The role-existence pre-check issued for each dropped role. -/
def roleExistsSql : Str := str "SELECT TRUE FROM pg_catalog.pg_roles WHERE rolname = $1"

/-- The dropped-roles loop of `setSchemaPolicy` (source `part_000`, lines
486-505): for each dropped policy, skip the empty (PUBLIC) role; otherwise
query the catalog for the role — `ErrNoRows` skips the role's REVOKEs, a
real error aborts, and a found role appends its REVOKE fragments. -/
def droppedStep (roleCheck : Str → RowResult) (schemaName : Str) :
    Keyed SchemaPolicyMap → List Ev × Except OpErr (List Stmt)
  | [] => ([], Except.ok [])
  | (_, p) :: rest =>
    let rolePolicy := schemaPolicyToACL p
    if rolePolicy.role = [] then droppedStep roleCheck schemaName rest
    else
      match roleCheck rolePolicy.role with
      | RowResult.noRows =>
        let r := droppedStep roleCheck schemaName rest
        (Ev.query roleExistsSql :: r.1, r.2)
      | RowResult.dbError => ([Ev.query roleExistsSql], Except.error OpErr.readFailed)
      | RowResult.found =>
        let r := droppedStep roleCheck schemaName rest
        (Ev.query roleExistsSql :: r.1,
          match r.2 with
          | Except.ok qs => Except.ok (aclSchemaRevokes rolePolicy schemaName ++ qs)
          | Except.error e => Except.error e)

/-- The added-roles loop of `setSchemaPolicy` (source lines 507-511). -/
def addedQueries (schemaName : Str) : Keyed SchemaPolicyMap → List Stmt
  | [] => []
  | (_, p) :: rest =>
    aclSchemaGrants (schemaPolicyToACL p) schemaName ++ addedQueries schemaName rest

/-- The updated-roles loop of `setSchemaPolicy` (source lines 513-530):
revoke the old policy, grant the new one. -/
def updatedQueries (schemaName : Str) :
    Keyed (SchemaPolicyMap × SchemaPolicyMap) → List Stmt
  | [] => []
  | (_, pq) :: rest =>
    aclSchemaRevokes (schemaPolicyToACL pq.1) schemaName ++
      aclSchemaGrants (schemaPolicyToACL pq.2) schemaName ++
      updatedQueries schemaName rest

/-- The query-building phase of `setSchemaPolicy`: diff the two policy
lists and accumulate dropped REVOKEs (with role-existence checks), added
GRANTs and updated REVOKE+GRANT pairs, in that order. -/
def schemaPolicyQueriesBuild (roleCheck : Str → RowResult) (schemaName : Str)
    (oldL newL : List SchemaPolicyMap) : List Ev × Except OpErr (List Stmt) :=
  match droppedStep roleCheck schemaName (schemaChangedPolicies oldL newL).1 with
  | (evs, Except.error e) => (evs, Except.error e)
  | (evs, Except.ok qd) =>
    (evs, Except.ok (qd ++
      addedQueries schemaName (schemaChangedPolicies oldL newL).2.1 ++
      updatedQueries schemaName (schemaChangedPolicies oldL newL).2.2.1))

/-- The statement-execution loop shared by the schema operations
(`for _, query := range queries { txn.Exec(query) }`). -/
def execLoop (execOk : Stmt → Bool) : List Stmt → List Ev × Except OpErr Unit
  | [] => ([], Except.ok ())
  | s :: rest =>
    if execOk s then
      let r := execLoop execOk rest
      (Ev.exec s :: r.1, r.2)
    else ([Ev.exec s], Except.error (OpErr.execFailed s))

/-- `setSchemaPolicy` (source lines 473-539): no-op without a policy
change, otherwise build the diff queries and execute them in order. -/
def setSchemaPolicyStep (roleCheck : Str → RowResult) (execOk : Stmt → Bool)
    (hasChangePolicy : Bool) (schemaName : Str)
    (oldL newL : List SchemaPolicyMap) : List Ev × Except OpErr Unit :=
  if !hasChangePolicy then ([], Except.ok ())
  else
    match schemaPolicyQueriesBuild roleCheck schemaName oldL newL with
    | (evs, Except.error e) => (evs, Except.error e)
    | (evs, Except.ok qs) =>
      let r := execLoop execOk qs
      (evs ++ r.1, r.2)

/-- Is `s` a REVOKE fragment addressed to role `r`? -/
def isRevokeFor (r : Str) : Stmt → Bool
  | Stmt.revokePriv role _ _ _ => role = r
  | _ => false

/-- How many REVOKE fragments for role `r` a statement list contains. -/
def countRevokesFor (r : Str) (qs : List Stmt) : Nat :=
  (qs.filter (isRevokeFor r)).length

/- ===================== C8: idempotence of the diff ===================== -/

theorem filterMap_id_of {α : Type} (l : List α) (f : α → Option α)
    (h : ∀ a ∈ l, f a = some a) : l.filterMap f = l := by
  induction l with
  | nil => rfl
  | cons a rest ih =>
    rw [List.filterMap_cons, h a (List.mem_cons_self a rest)]
    rw [ih (fun b hb => h b (List.mem_cons_of_mem a hb))]

/-- C8: diffing a policy list against itself classifies every role as
unchanged — the dropped, added and updated buckets are all empty, the
unchanged bucket is the whole lookup map — and consequently the
`setSchemaPolicy` update path built from that diff emits no event and no
GRANT or REVOKE statement and succeeds. -/
theorem schemaChangedPolicies_self_idempotent
    (l : List SchemaPolicyMap) (roleCheck : Str → RowResult)
    (execOk : Stmt → Bool) (hasChange : Bool) (schemaName : Str) :
    (schemaChangedPolicies l l).1 = [] ∧
      (schemaChangedPolicies l l).2.1 = [] ∧
      (schemaChangedPolicies l l).2.2.1 = [] ∧
      (schemaChangedPolicies l l).2.2.2 = buildLookupMap l ∧
      setSchemaPolicyStep roleCheck execOk hasChange schemaName l l =
        ([], Except.ok ()) := by
  have hmem : ∀ kv ∈ buildLookupMap l,
      (buildLookupMap l).lookup kv.1 = some kv.2 := by
    rintro ⟨k, v⟩ hkv
    exact lookup_eq_some_of_mem _ _ _ (buildLookupMap_keys_nodup l) hkv
  have h1 : (schemaChangedPolicies l l).1 = [] := by
    rw [show (schemaChangedPolicies l l).1 =
        (buildLookupMap l).filter
          (fun kv => ((buildLookupMap l).lookup kv.1).isNone) from rfl]
    refine List.filter_eq_nil_iff.mpr ?_
    intro kv hkv
    rw [hmem kv hkv]
    simp
  have h2 : (schemaChangedPolicies l l).2.1 = [] := by
    rw [show (schemaChangedPolicies l l).2.1 =
        (buildLookupMap l).filter
          (fun kv => ((buildLookupMap l).lookup kv.1).isNone) from rfl]
    refine List.filter_eq_nil_iff.mpr ?_
    intro kv hkv
    rw [hmem kv hkv]
    simp
  have h3 : (schemaChangedPolicies l l).2.2.1 = [] := by
    rw [show (schemaChangedPolicies l l).2.2.1 =
        (buildLookupMap l).filterMap (fun kv =>
          match (buildLookupMap l).lookup kv.1 with
          | some vNew => if kv.2 = vNew then none else some (kv.1, (kv.2, vNew))
          | none => none) from rfl]
    refine List.filterMap_eq_nil_iff.mpr ?_
    intro kv hkv
    rw [hmem kv hkv]
    show (if kv.2 = kv.2 then none else some (kv.1, (kv.2, kv.2))) = none
    rw [if_pos rfl]
  have h4 : (schemaChangedPolicies l l).2.2.2 = buildLookupMap l := by
    rw [show (schemaChangedPolicies l l).2.2.2 =
        (buildLookupMap l).filterMap (fun kv =>
          match (buildLookupMap l).lookup kv.1 with
          | some vNew => if kv.2 = vNew then some kv else none
          | none => none) from rfl]
    refine filterMap_id_of _ _ ?_
    intro kv hkv
    rw [hmem kv hkv]
    show (if kv.2 = kv.2 then some kv else none) = some kv
    rw [if_pos rfl]
  have hbuild : schemaPolicyQueriesBuild roleCheck schemaName l l =
      ([], Except.ok []) := by
    unfold schemaPolicyQueriesBuild
    rw [h1, h2, h3]
    rfl
  refine ⟨h1, h2, h3, h4, ?_⟩
  unfold setSchemaPolicyStep
  cases hasChange with
  | false => rfl
  | true =>
    rw [hbuild]
    rfl

/- ===================== C7: merge-on-collision vs last-write-wins ===================== -/

/-- C7 counterexample: two policy fragments declaring the same role key
`"alice"` (as `"Alice"` with CREATE and `"alice"` with USAGE).  The diff
engine's lookup map holds the last-inserted fragment alone, whose ACL
privileges (USAGE only) are not the union-merge of the two fragments'
privileges — refuting the claim that every role-keyed container the engine
builds merges on collision. -/
theorem diff_lookupMap_lastWriteWins :
    (buildLookupMap
        [⟨true, false, str "Alice", false, false⟩,
          ⟨false, false, str "alice", true, false⟩]).lookup (str "alice") =
      some ⟨false, false, str "alice", true, false⟩ ∧
      (schemaPolicyToACL
          (⟨false, false, str "alice", true, false⟩ : SchemaPolicyMap)).privileges ≠
        ((schemaPolicyToACL ⟨true, false, str "Alice", false, false⟩).merge
          (schemaPolicyToACL
            ⟨false, false, str "alice", true, false⟩)).privileges := by
  constructor
  · rfl
  · decide

/-- C7 (amended): the role-keyed ACL container built by the create/read
paths union-merges all fragments declaring the same lowercased role key
(it holds the `Merge`-fold of the matching fragments, never the
last-inserted fragment alone when several collide); the diff engine's
`oldLookupMap`/`newLookupMap`, by contrast, keep only the last-inserted
fragment for a colliding key. -/
theorem roleKeyed_container_merge_behaviour (l : List SchemaPolicyMap)
    (k : Str) :
    (buildPolicyACLMap l).lookup k = mergeFold (matchingACLs l k) ∧
      (buildLookupMap l).lookup k = (matchingPolicies l k).getLast? :=
  ⟨buildPolicyACLMap_lookup l k, buildLookupMap_lookup_eq_getLast l k⟩

/- ===================== C6: dropped roles that no longer exist ===================== -/

theorem mem_aclSchemaRevokes (a : ACLSchema) (objectName : Str) (s : Stmt)
    (h : s ∈ aclSchemaRevokes a objectName) :
    s = Stmt.revokePriv a.role objectName a.privileges a.grantOptions := by
  unfold aclSchemaRevokes at h
  by_cases h0 : a.privileges = 0
  · rw [if_pos h0] at h
    simp at h
  · rw [if_neg h0] at h
    simpa using h

theorem mem_aclSchemaGrants (a : ACLSchema) (objectName : Str) (s : Stmt)
    (h : s ∈ aclSchemaGrants a objectName) :
    s = Stmt.grantPriv a.role objectName a.privileges a.grantOptions := by
  unfold aclSchemaGrants at h
  by_cases h0 : a.privileges = 0
  · rw [if_pos h0] at h
    simp at h
  · rw [if_neg h0] at h
    simpa using h

theorem isRevokeFor_grantPriv (r role objectName : Str) (pr go : Nat) :
    isRevokeFor r (Stmt.grantPriv role objectName pr go) = false := rfl

theorem isRevokeFor_revokePriv_iff (r role objectName : Str) (pr go : Nat) :
    isRevokeFor r (Stmt.revokePriv role objectName pr go) = true ↔ role = r := by
  unfold isRevokeFor
  exact decide_eq_true_iff

theorem droppedStep_singleton_noRows (roleCheck : Str → RowResult)
    (schemaName k : Str) (p : SchemaPolicyMap)
    (hr : ¬ (schemaPolicyToACL p).role = [])
    (hn : roleCheck (schemaPolicyToACL p).role = RowResult.noRows) :
    droppedStep roleCheck schemaName [(k, p)] =
      ([Ev.query roleExistsSql], Except.ok []) := by
  simp only [droppedStep, if_neg hr, hn]

theorem droppedStep_ok_mem (roleCheck : Str → RowResult) (schemaName : Str) :
    ∀ (d : Keyed SchemaPolicyMap) (evs : List Ev) (qd : List Stmt),
      droppedStep roleCheck schemaName d = (evs, Except.ok qd) →
      ∀ s ∈ qd, ∃ kp ∈ d,
        s ∈ aclSchemaRevokes (schemaPolicyToACL kp.2) schemaName ∧
        roleCheck (schemaPolicyToACL kp.2).role = RowResult.found := by
  intro d
  induction d with
  | nil =>
    intro evs qd h s hs
    simp only [droppedStep, Prod.mk.injEq] at h
    obtain ⟨h1, h2⟩ := h
    injection h2 with h2
    rw [← h2] at hs
    simp at hs
  | cons kp rest ih =>
    obtain ⟨k₀, p₀⟩ := kp
    intro evs qd h s hs
    simp only [droppedStep] at h
    by_cases hr : (schemaPolicyToACL p₀).role = []
    · rw [if_pos hr] at h
      obtain ⟨kp', hmem, hrest⟩ := ih _ _ h s hs
      exact ⟨kp', List.mem_cons_of_mem _ hmem, hrest⟩
    · rw [if_neg hr] at h
      rcases hc : roleCheck (schemaPolicyToACL p₀).role with _ | _ | _ <;>
        rw [hc] at h
      · -- noRows: this entry contributes no queries
        rcases hd : droppedStep roleCheck schemaName rest with ⟨evs', r'⟩
        rw [hd] at h
        rw [Prod.mk.injEq] at h
        obtain ⟨h1, h2⟩ := h
        rcases r' with e' | qs'
        · simp at h2
        · injection h2 with h2
          obtain ⟨kp', hmem, hrest⟩ := ih evs' qs' (by rw [hd]) s (h2 ▸ hs)
          exact ⟨kp', List.mem_cons_of_mem _ hmem, hrest⟩
      · -- found: this entry contributes its REVOKEs
        rcases hd : droppedStep roleCheck schemaName rest with ⟨evs', r'⟩
        rw [hd] at h
        rw [Prod.mk.injEq] at h
        obtain ⟨h1, h2⟩ := h
        rcases r' with e' | qs'
        · simp at h2
        · injection h2 with h2
          rw [← h2] at hs
          rcases List.mem_append.mp hs with hs' | hs'
          · exact ⟨(k₀, p₀), List.mem_cons_self _ _, hs', hc⟩
          · obtain ⟨kp', hmem, hrest⟩ := ih evs' qs' (by rw [hd]) s hs'
            exact ⟨kp', List.mem_cons_of_mem _ hmem, hrest⟩
      · -- dbError: the result is an error, contradiction
        rw [Prod.mk.injEq] at h
        obtain ⟨h1, h2⟩ := h
        simp at h2

theorem droppedStep_error_of_dbError (roleCheck : Str → RowResult)
    (schemaName : Str) :
    ∀ (d : Keyed SchemaPolicyMap) (k : Str) (p : SchemaPolicyMap),
      (k, p) ∈ d → ¬ (schemaPolicyToACL p).role = [] →
      roleCheck (schemaPolicyToACL p).role = RowResult.dbError →
      ∃ evs e, droppedStep roleCheck schemaName d = (evs, Except.error e) := by
  intro d
  induction d with
  | nil =>
    intro k p hmem
    simp at hmem
  | cons kp rest ih =>
    obtain ⟨k₀, p₀⟩ := kp
    intro k p hmem hr hc
    rcases List.mem_cons.mp hmem with h | h
    · rw [Prod.mk.injEq] at h
      obtain ⟨h1, h2⟩ := h
      subst h1; subst h2
      refine ⟨[Ev.query roleExistsSql], OpErr.readFailed, ?_⟩
      simp only [droppedStep, if_neg hr, hc]
    · obtain ⟨evs', e', hrest⟩ := ih k p h hr hc
      by_cases hr₀ : (schemaPolicyToACL p₀).role = []
      · exact ⟨evs', e', by simp only [droppedStep, if_pos hr₀]; exact hrest⟩
      · rcases hc₀ : roleCheck (schemaPolicyToACL p₀).role with _ | _ | _
        · refine ⟨Ev.query roleExistsSql :: evs', e', ?_⟩
          simp only [droppedStep, if_neg hr₀, hc₀, hrest]
        · refine ⟨Ev.query roleExistsSql :: evs', e', ?_⟩
          simp only [droppedStep, if_neg hr₀, hc₀, hrest]
        · exact ⟨[Ev.query roleExistsSql], OpErr.readFailed, by
            simp only [droppedStep, if_neg hr₀, hc₀]⟩

theorem mem_addedQueries (schemaName : Str) :
    ∀ (a : Keyed SchemaPolicyMap) (s : Stmt), s ∈ addedQueries schemaName a →
      ∃ kp ∈ a, s ∈ aclSchemaGrants (schemaPolicyToACL kp.2) schemaName := by
  intro a
  induction a with
  | nil => intro s hs; simp [addedQueries] at hs
  | cons kp rest ih =>
    intro s hs
    rw [show addedQueries schemaName (kp :: rest) =
        aclSchemaGrants (schemaPolicyToACL kp.2) schemaName ++
          addedQueries schemaName rest from rfl] at hs
    rcases List.mem_append.mp hs with h | h
    · exact ⟨kp, List.mem_cons_self _ _, h⟩
    · obtain ⟨kp', hmem, h'⟩ := ih s h
      exact ⟨kp', List.mem_cons_of_mem _ hmem, h'⟩

theorem mem_updatedQueries (schemaName : Str) :
    ∀ (u : Keyed (SchemaPolicyMap × SchemaPolicyMap)) (s : Stmt),
      s ∈ updatedQueries schemaName u →
      ∃ kp ∈ u,
        s ∈ aclSchemaRevokes (schemaPolicyToACL kp.2.1) schemaName ∨
        s ∈ aclSchemaGrants (schemaPolicyToACL kp.2.2) schemaName := by
  intro u
  induction u with
  | nil => intro s hs; simp [updatedQueries] at hs
  | cons kp rest ih =>
    intro s hs
    rw [show updatedQueries schemaName (kp :: rest) =
        aclSchemaRevokes (schemaPolicyToACL kp.2.1) schemaName ++
          aclSchemaGrants (schemaPolicyToACL kp.2.2) schemaName ++
          updatedQueries schemaName rest from rfl, List.append_assoc] at hs
    rcases List.mem_append.mp hs with h | h
    · exact ⟨kp, List.mem_cons_self _ _, Or.inl h⟩
    · rcases List.mem_append.mp h with h' | h'
      · exact ⟨kp, List.mem_cons_self _ _, Or.inr h'⟩
      · obtain ⟨kp', hmem, h''⟩ := ih s h'
        exact ⟨kp', List.mem_cons_of_mem _ hmem, h''⟩

theorem mem_dropped_entries (old new : List SchemaPolicyMap) (k : Str)
    (p : SchemaPolicyMap) (h : (k, p) ∈ (schemaChangedPolicies old new).1) :
    (k, p) ∈ buildLookupMap old ∧
      ((buildLookupMap new).lookup k).isNone := by
  rw [show (schemaChangedPolicies old new).1 =
      (buildLookupMap old).filter
        (fun kv => ((buildLookupMap new).lookup kv.1).isNone) from rfl] at h
  obtain ⟨hm, hf⟩ := List.mem_filter.mp h
  exact ⟨hm, hf⟩

theorem mem_updated_entries (old new : List SchemaPolicyMap) (k : Str)
    (pq : SchemaPolicyMap × SchemaPolicyMap)
    (h : (k, pq) ∈ (schemaChangedPolicies old new).2.2.1) :
    (k, pq.1) ∈ buildLookupMap old ∧
      (buildLookupMap new).lookup k = some pq.2 := by
  rw [show (schemaChangedPolicies old new).2.2.1 =
      (buildLookupMap old).filterMap (fun kv =>
        match (buildLookupMap new).lookup kv.1 with
        | some vNew => if kv.2 = vNew then none else some (kv.1, (kv.2, vNew))
        | none => none) from rfl] at h
  obtain ⟨⟨ka, va⟩, hmem, hf⟩ := List.mem_filterMap.mp h
  rw [show ((ka, va) : Str × SchemaPolicyMap).1 = ka from rfl] at hf
  rcases hn : (buildLookupMap new).lookup ka with _ | vN
  · rw [hn] at hf
    have hf' : (none : Option (Str × (SchemaPolicyMap × SchemaPolicyMap))) =
        some (k, pq) := hf
    simp at hf'
  · rw [hn] at hf
    have hf' : (if va = vN then none else some (ka, (va, vN))) =
        some (k, pq) := hf
    by_cases he : va = vN
    · rw [if_pos he] at hf'; simp at hf'
    · rw [if_neg he] at hf'
      rw [Option.some.injEq, Prod.mk.injEq] at hf'
      obtain ⟨h1, h2⟩ := hf'
      subst h1
      rw [← h2]
      exact ⟨hmem, hn⟩

/-- C6: in a policy update, a role classified as dropped whose (non-empty)
name no longer exists in the catalog (`ErrNoRows` on the existence check)
contributes no event beyond its existence check and no REVOKE statement —
the built statement list contains zero REVOKEs for that role and the build
does not fail on its account — while a real error of the existence check
itself aborts the whole build with an error. -/
theorem setSchemaPolicy_dropped_missing_role (oldL newL : List SchemaPolicyMap)
    (roleCheck : Str → RowResult) (schemaName k : Str) (p : SchemaPolicyMap)
    (hlk : ((schemaChangedPolicies oldL newL).1).lookup k = some p)
    (hr : ¬ (schemaPolicyToACL p).role = []) :
    (roleCheck (schemaPolicyToACL p).role = RowResult.noRows →
      droppedStep roleCheck schemaName [(k, p)] =
        ([Ev.query roleExistsSql], Except.ok []) ∧
      ∀ evs qs, schemaPolicyQueriesBuild roleCheck schemaName oldL newL =
          (evs, Except.ok qs) →
        countRevokesFor (schemaPolicyToACL p).role qs = 0) ∧
    (roleCheck (schemaPolicyToACL p).role = RowResult.dbError →
      ∃ evs e, schemaPolicyQueriesBuild roleCheck schemaName oldL newL =
        (evs, Except.error e)) := by
  have hdmem : (k, p) ∈ (schemaChangedPolicies oldL newL).1 :=
    mem_of_lookup_eq_some _ _ _ hlk
  obtain ⟨holdm, hnewnone⟩ := mem_dropped_entries oldL newL k p hdmem
  have hkey : strToLower p.role = k := buildLookupMap_key_eq oldL k p holdm
  constructor
  · intro hn
    refine ⟨droppedStep_singleton_noRows roleCheck schemaName k p hr hn, ?_⟩
    intro evs qs hb
    unfold schemaPolicyQueriesBuild at hb
    rcases hd : droppedStep roleCheck schemaName
        (schemaChangedPolicies oldL newL).1 with ⟨evs0, r0⟩
    rw [hd] at hb
    rcases r0 with e0 | qd
    · rw [Prod.mk.injEq] at hb
      obtain ⟨_, hb2⟩ := hb
      simp at hb2
    · rw [Prod.mk.injEq] at hb
      obtain ⟨_, hb2⟩ := hb
      injection hb2 with hb2
      unfold countRevokesFor
      rw [List.length_eq_zero]
      refine List.filter_eq_nil_iff.mpr ?_
      intro s hs
      rw [← hb2] at hs
      intro hrev
      rcases List.mem_append.mp hs with hs' | hs'
      · rcases List.mem_append.mp hs' with hs'' | hs''
        · -- s comes from the dropped loop: its role's check returned found
          obtain ⟨kp', hmem', hsrev, hfound⟩ :=
            droppedStep_ok_mem roleCheck schemaName _ _ _ hd s hs''
          have hshape := mem_aclSchemaRevokes _ _ _ hsrev
          rw [hshape] at hrev
          have hrole := (isRevokeFor_revokePriv_iff _ _ _ _ _).mp hrev
          rw [hrole] at hfound
          rw [hn] at hfound
          exact absurd hfound (by simp)
        · -- s comes from the added loop: it is a GRANT
          obtain ⟨kp', hmem', hsg⟩ := mem_addedQueries schemaName _ s hs''
          have hshape := mem_aclSchemaGrants _ _ _ hsg
          rw [hshape] at hrev
          rw [isRevokeFor_grantPriv] at hrev
          exact absurd hrev (by simp)
      · -- s comes from the updated loop
        obtain ⟨kp', hmem', hcase⟩ := mem_updatedQueries schemaName _ s hs'
        rcases hcase with hsrev | hsg
        · have hshape := mem_aclSchemaRevokes _ _ _ hsrev
          rw [hshape] at hrev
          have hrole := (isRevokeFor_revokePriv_iff _ _ _ _ _).mp hrev
          -- the updated role's key equals the dropped role's key
          obtain ⟨holdm', hnew'⟩ :=
            mem_updated_entries oldL newL kp'.1 kp'.2 (by
              rw [show (kp'.1, kp'.2) = kp' from rfl]
              exact hmem')
          have hkey' : strToLower kp'.2.1.role = kp'.1 :=
            buildLookupMap_key_eq oldL kp'.1 kp'.2.1 holdm'
          rw [schemaPolicyToACL_role] at hrole
          rw [schemaPolicyToACL_role] at hr
          have : kp'.1 = k := by
            rw [← hkey', ← hkey, hrole]
            rfl
          rw [this] at hnew'
          rw [hnew'] at hnewnone
          simp at hnewnone
        · have hshape := mem_aclSchemaGrants _ _ _ hsg
          rw [hshape] at hrev
          rw [isRevokeFor_grantPriv] at hrev
          exact absurd hrev (by simp)
  · intro hderr
    obtain ⟨evs0, e0, heq⟩ :=
      droppedStep_error_of_dbError roleCheck schemaName
        (schemaChangedPolicies oldL newL).1 k p hdmem hr hderr
    refine ⟨evs0, e0, ?_⟩
    unfold schemaPolicyQueriesBuild
    rw [heq]

/-- Witness for C6: dropping role `"bob"` (CREATE policy) when the catalog
check returns no rows — zero REVOKE statements and a successful build. -/
theorem setSchemaPolicy_dropped_missing_role_witness :
    droppedStep (fun _ => RowResult.noRows) (str "s")
        [(str "bob", ⟨true, false, str "bob", false, false⟩)] =
      ([Ev.query roleExistsSql], Except.ok []) ∧
    countRevokesFor
      (schemaPolicyToACL ⟨true, false, str "bob", false, false⟩).role [] = 0 := by
  obtain ⟨h1, h2⟩ :=
    (setSchemaPolicy_dropped_missing_role
      [⟨true, false, str "bob", false, false⟩] []
      (fun _ => RowResult.noRows) (str "s") (str "bob")
      ⟨true, false, str "bob", false, false⟩
      (by decide) (by decide)).1 rfl
  exact ⟨h1, h2 [Ev.query roleExistsSql] [] rfl⟩

/- ===================== identifier generation (C9, C10) ===================== -/

theorem strLe_total : ∀ a b : Str, strLe a b = true ∨ strLe b a = true := by
  intro a
  induction a with
  | nil => intro b; left; rfl
  | cons c cs ih =>
    intro b
    cases b with
    | nil => right; rfl
    | cons d ds =>
      rcases lt_trichotomy c d with h | h | h
      · left; simp [strLe, h]
      · subst h
        rcases ih ds with h' | h'
        · left; simp [strLe, lt_irrefl, h']
        · right; simp [strLe, lt_irrefl, h']
      · right; simp [strLe, h]

theorem strLe_trans : ∀ a b c : Str, strLe a b = true → strLe b c = true →
    strLe a c = true := by
  intro a
  induction a with
  | nil => intro b c _ _; rfl
  | cons x xs ih =>
    intro b c hab hbc
    cases b with
    | nil => simp [strLe] at hab
    | cons y ys =>
      cases c with
      | nil => simp [strLe] at hbc
      | cons z zs =>
        simp only [strLe] at hab hbc ⊢
        by_cases hxy : x < y
        · by_cases hyz : y < z
          · rw [if_pos (lt_trans hxy hyz)]
          · by_cases hyz' : y = z
            · subst hyz'
              rw [if_pos hxy]
            · rw [if_neg hyz, if_neg hyz'] at hbc
              simp at hbc
        · by_cases hxy' : x = y
          · subst hxy'
            rw [if_neg hxy, if_pos rfl] at hab
            by_cases hxz : x < z
            · rw [if_pos hxz]
            · by_cases hxz' : x = z
              · subst hxz'
                rw [if_neg hxz, if_pos rfl]
                rw [if_neg hxz, if_pos rfl] at hbc
                exact ih ys zs hab hbc
              · rw [if_neg hxz, if_neg hxz'] at hbc
                simp at hbc
          · rw [if_neg hxy, if_neg hxy'] at hab
            simp at hab

instance : IsTotal Str (fun a b => strLe a b = true) := ⟨strLe_total⟩

instance : IsTrans Str (fun a b => strLe a b = true) :=
  ⟨fun a b c => strLe_trans a b c⟩

/-- Go `sort.Strings` (ascending lexicographic byte order), modelled as a
sort by `strLe`; any correct sort produces the same sorted list. -/
def sortStrings (l : List Str) : List Str :=
  l.insertionSort (fun a b => strLe a b = true)

theorem sortStrings_perm (l : List Str) : (sortStrings l).Perm l :=
  List.perm_insertionSort _ l

theorem sortStrings_mem (l : List Str) (t : Str) :
    t ∈ sortStrings l ↔ t ∈ l :=
  (sortStrings_perm l).mem_iff

theorem sortStrings_sorted (l : List Str) :
    (sortStrings l).Pairwise (fun a b => strLe a b = true) :=
  List.sorted_insertionSort _ l

theorem sortStrings_ne_nil (l : List Str) (h : l ≠ []) : sortStrings l ≠ [] := by
  intro hc
  exact h (List.eq_nil_of_length_eq_zero
    (by rw [← (sortStrings_perm l).length_eq, hc]; rfl))

theorem intercalate_cons_cons {α : Type} (sep a b : List α)
    (rest : List (List α)) :
    List.intercalate sep (a :: b :: rest) =
      a ++ sep ++ List.intercalate sep (b :: rest) := by
  simp [List.intercalate, List.intersperse]

theorem intercalate_singleton {α : Type} (sep a : List α) :
    List.intercalate sep [a] = a := by
  simp [List.intercalate, List.intersperse]

theorem mem_intercalate_sep {α : Type} (c : α) (a b : List α)
    (rest : List (List α)) :
    c ∈ List.intercalate [c] (a :: b :: rest) := by
  rw [intercalate_cons_cons]
  exact List.mem_append.mpr
    (Or.inl (List.mem_append.mpr (Or.inr (List.mem_singleton.mpr rfl))))

theorem not_mem_intercalate {α : Type} (c' : α) (sep : List α)
    (hsep : c' ∉ sep) :
    ∀ parts : List (List α), (∀ p ∈ parts, c' ∉ p) →
      c' ∉ List.intercalate sep parts := by
  intro parts
  induction parts with
  | nil =>
    intro _
    simp [List.intercalate, List.intersperse]
  | cons a rest ih =>
    intro h
    cases rest with
    | nil =>
      rw [intercalate_singleton]
      exact h a (List.mem_singleton.mpr rfl)
    | cons b rest' =>
      rw [intercalate_cons_cons]
      intro hc
      rcases List.mem_append.mp hc with hc' | hc'
      · rcases List.mem_append.mp hc' with hc'' | hc''
        · exact h a (List.mem_cons_self _ _) hc''
        · exact hsep hc''
      · exact ih (fun p hp => h p (List.mem_cons_of_mem _ hp)) hc'

/-- The state of one `postgresql_grant` resource instance: the attribute
values read through `d.Get` (sets are carried as lists of their elements,
as `getStringsFromSet` produces them). -/
structure GrantInput where
  role : Str
  database : Str
  schemaName : Str
  objectType : Str
  tables : List Str
  privileges : List Str
  withGrantOption : Bool
deriving DecidableEq, Repr

/-- `const tableGrantIdDelimiter = ":"` (resource_postgresql_grant.go:31). -/
def tableGrantIdDelimiter : Str := [':']

/-- `generateGrantID` (resource_postgresql_grant.go, lines 587-610):
`role` and `database`, then `schema` unless the object type is
`"database"`, then the object type; joined with `"_"` when the table set
is empty, otherwise extended with the sorted comma-joined tables and
privileges and joined entirely with `":"`. -/
def generateGrantID (d : GrantInput) : Str :=
  let parts0 := [d.role, d.database]
  let parts1 :=
    if d.objectType ≠ str "database" then parts0 ++ [d.schemaName] else parts0
  let parts2 := parts1 ++ [d.objectType]
  if d.tables = [] then List.intercalate ['_'] parts2
  else
    let tables := sortStrings d.tables
    let privileges := sortStrings d.privileges
    let parts3 := parts2 ++
      [List.intercalate [','] tables, List.intercalate [','] privileges]
    List.intercalate tableGrantIdDelimiter parts3

/-- `readTableGrantID` (resource_postgresql_grant.go, lines 612-623):
split the identifier on `":"` and read role, database, schema, object
type, the `","`-joined tables and the `","`-joined privileges.  The Go
code indexes `parts[0]`..`parts[5]` and would panic on a shorter split;
that panic is modelled as `none`. -/
def readTableGrantID (idStr : Str) :
    Option (Str × Str × Str × Str × List Str × List Str) :=
  match List.splitOn ':' idStr with
  | role :: database :: schemaName :: objectType :: tables :: privileges :: _ =>
    some (role, database, schemaName, objectType,
      List.splitOn ',' tables, List.splitOn ',' privileges)
  | _ => none

/-- `generateSchemaID` (source `part_000`, lines 636-643): join the
database and schema names with `"."`. -/
def generateSchemaID (database schemaName : Str) : Str :=
  List.intercalate ['.'] [database, schemaName]

/-- C9 counterexample: a concrete table grant with an empty table list.
Its identifier is `"user1_db1_public_table"` — joined with `"_"`, with the
role first — so it does not contain `'.'` at all and does not start with
`{targetDatabase}.`, refuting the claimed `{targetDatabase}.{resourceName}`
dot-joined format. -/
theorem grantID_not_dot_joined :
    generateGrantID
        ⟨str "user1", str "db1", str "public", str "table", [],
          [str "SELECT"], false⟩ = str "user1_db1_public_table" ∧
      '.' ∉ generateGrantID
        ⟨str "user1", str "db1", str "public", str "table", [],
          [str "SELECT"], false⟩ ∧
      List.isPrefixOf (str "db1.")
        (generateGrantID
          ⟨str "user1", str "db1", str "public", str "table", [],
            [str "SELECT"], false⟩) = false := by
  refine ⟨by decide, by decide, by decide⟩

/-- C9 (amended): the schema identifier joins `{database}.{name}` with
`'.'`; the grant identifier joins role, database, (schema unless the
object type is `"database"`) and object type with `'_'` when the table
list is empty, and joins everything (including sorted tables and
privileges) with `':'` when it is not; provided the `'_'`-joined fields
contain no `':'`, the two grant-identifier schemes can never produce the
same string. -/
theorem identifier_join_schemes (database schemaName : Str)
    (g g' : GrantInput) :
    generateSchemaID database schemaName = database ++ '.' :: schemaName ∧
      (g.tables = [] →
        generateGrantID g = List.intercalate ['_']
          ((if g.objectType ≠ str "database"
            then [g.role, g.database, g.schemaName]
            else [g.role, g.database]) ++ [g.objectType])) ∧
      (g.tables = [] → ':' ∉ g.role → ':' ∉ g.database →
        ':' ∉ g.schemaName → ':' ∉ g.objectType →
        ':' ∉ generateGrantID g) ∧
      (g'.tables ≠ [] → ':' ∈ generateGrantID g') ∧
      (g.tables = [] → g'.tables ≠ [] → ':' ∉ g.role → ':' ∉ g.database →
        ':' ∉ g.schemaName → ':' ∉ g.objectType →
        generateGrantID g ≠ generateGrantID g') := by
  have hempty : ∀ (h : GrantInput), h.tables = [] →
      generateGrantID h = List.intercalate ['_']
        ((if h.objectType ≠ str "database"
          then [h.role, h.database, h.schemaName]
          else [h.role, h.database]) ++ [h.objectType]) := by
    intro h ht
    simp only [generateGrantID, if_pos ht]
    rfl
  have hnocolon : ∀ (h : GrantInput), h.tables = [] → ':' ∉ h.role →
      ':' ∉ h.database → ':' ∉ h.schemaName → ':' ∉ h.objectType →
      ':' ∉ generateGrantID h := by
    intro h ht h1 h2 h3 h4
    rw [hempty h ht]
    refine not_mem_intercalate ':' ['_'] (by decide) _ ?_
    intro p hp
    by_cases hobj : h.objectType ≠ str "database"
    · rw [if_pos hobj] at hp
      rcases List.mem_append.mp hp with hp' | hp'
      · rcases List.mem_cons.mp hp' with rfl | hp''
        · exact h1
        · rcases List.mem_cons.mp hp'' with rfl | hp'''
          · exact h2
          · rcases List.mem_singleton.mp hp''' with rfl
            exact h3
      · rcases List.mem_singleton.mp hp' with rfl
        exact h4
    · rw [if_neg hobj] at hp
      rcases List.mem_append.mp hp with hp' | hp'
      · rcases List.mem_cons.mp hp' with rfl | hp''
        · exact h1
        · rcases List.mem_singleton.mp hp'' with rfl
          exact h2
      · rcases List.mem_singleton.mp hp' with rfl
        exact h4
  have hcolon : ∀ (h : GrantInput), h.tables ≠ [] →
      ':' ∈ generateGrantID h := by
    intro h ht
    simp only [generateGrantID, if_neg ht]
    by_cases hobj : h.objectType ≠ str "database"
    · rw [if_pos hobj]
      exact mem_intercalate_sep ':' h.role h.database _
    · rw [if_neg hobj]
      exact mem_intercalate_sep ':' h.role h.database _
  refine ⟨?_, hempty g, hnocolon g, hcolon g', ?_⟩
  · rw [show generateSchemaID database schemaName =
        List.intercalate ['.'] [database, schemaName] from rfl]
    rw [intercalate_cons_cons, intercalate_singleton]
    simp
  · intro ht ht' h1 h2 h3 h4 heq
    have hmem := hcolon g' ht'
    rw [← heq] at hmem
    exact hnocolon g ht h1 h2 h3 h4 hmem

/-- Witness for C9: concrete schema and grant identifiers exercising the
three join schemes. -/
theorem identifier_join_schemes_witness :
    generateSchemaID (str "db1") (str "sch") = str "db1.sch" ∧
      ':' ∈ generateGrantID
        ⟨str "r", str "d", str "s", str "table", [str "t"], [str "p"], false⟩ ∧
      ':' ∉ generateGrantID
        ⟨str "r", str "d", str "s", str "table", [], [str "p"], false⟩ := by
  obtain ⟨h1, h2, h3, h4, h5⟩ := identifier_join_schemes (str "db1") (str "sch")
    ⟨str "r", str "d", str "s", str "table", [], [str "p"], false⟩
    ⟨str "r", str "d", str "s", str "table", [str "t"], [str "p"], false⟩
  refine ⟨by rw [h1]; decide, h4 (by decide),
    h3 rfl (by decide) (by decide) (by decide) (by decide)⟩

/-- C10 counterexample: a grant state with object type `"database"` and a
non-empty table list.  `generateGrantID` omits the schema part, the
`":"`-split yields only five fields, and `readTableGrantID` (which would
panic in Go, modelled as `none`) does not return the state's fields. -/
theorem readTableGrantID_database_mismatch :
    readTableGrantID (generateGrantID
        ⟨str "r", str "d", str "s", str "database", [str "t"], [str "p"],
          false⟩) = none ∧
      readTableGrantID (generateGrantID
        ⟨str "r", str "d", str "s", str "database", [str "t"], [str "p"],
          false⟩) ≠
        some (str "r", str "d", str "s", str "database",
          [str "t"], [str "p"]) := by
  constructor
  · rfl
  · intro hc
    rw [show readTableGrantID (generateGrantID
        ⟨str "r", str "d", str "s", str "database", [str "t"], [str "p"],
          false⟩) = none from rfl] at hc
    exact Option.noConfusion hc

/-- C10 (amended): for every grant state with a non-empty table list, an
object type other than `"database"`, a non-empty privilege set, and no
`':'` or `','` in any field, parsing the generated identifier returns the
same role, database, schema and object type, and returns the tables and
privileges as their lexicographically sorted lists — permutations of the
input lists (equal as sets) that are `strLe`-sorted. -/
theorem readTableGrantID_roundtrip (g : GrantInput)
    (htab : g.tables ≠ []) (hobj : g.objectType ≠ str "database")
    (hpriv : g.privileges ≠ [])
    (hfields : ∀ f ∈ [g.role, g.database, g.schemaName, g.objectType],
      ':' ∉ f ∧ ',' ∉ f)
    (htables : ∀ t ∈ g.tables, ':' ∉ t ∧ ',' ∉ t)
    (hprivs : ∀ p ∈ g.privileges, ':' ∉ p ∧ ',' ∉ p) :
    readTableGrantID (generateGrantID g) =
      some (g.role, g.database, g.schemaName, g.objectType,
        sortStrings g.tables, sortStrings g.privileges) ∧
      (∀ t, t ∈ sortStrings g.tables ↔ t ∈ g.tables) ∧
      (∀ p, p ∈ sortStrings g.privileges ↔ p ∈ g.privileges) ∧
      (sortStrings g.tables).Pairwise (fun a b => strLe a b = true) ∧
      (sortStrings g.privileges).Pairwise (fun a b => strLe a b = true) := by
  have hgen : generateGrantID g = List.intercalate [':']
      [g.role, g.database, g.schemaName, g.objectType,
        List.intercalate [','] (sortStrings g.tables),
        List.intercalate [','] (sortStrings g.privileges)] := by
    simp only [generateGrantID, tableGrantIdDelimiter, if_neg htab,
      if_pos hobj]
    rfl
  have hsplit : List.splitOn ':' (generateGrantID g) =
      [g.role, g.database, g.schemaName, g.objectType,
        List.intercalate [','] (sortStrings g.tables),
        List.intercalate [','] (sortStrings g.privileges)] := by
    rw [hgen]
    refine List.splitOn_intercalate _ ':' ?_ (by simp)
    intro l hl
    rcases List.mem_cons.mp hl with rfl | hl
    · exact (hfields _ (by simp)).1
    rcases List.mem_cons.mp hl with rfl | hl
    · exact (hfields _ (by simp)).1
    rcases List.mem_cons.mp hl with rfl | hl
    · exact (hfields _ (by simp)).1
    rcases List.mem_cons.mp hl with rfl | hl
    · exact (hfields _ (by simp)).1
    rcases List.mem_cons.mp hl with rfl | hl
    · exact not_mem_intercalate ':' [','] (by decide) _
        (fun t ht => (htables t ((sortStrings_mem _ t).mp ht)).1)
    rcases List.mem_cons.mp hl with rfl | hl
    · exact not_mem_intercalate ':' [','] (by decide) _
        (fun p hp => (hprivs p ((sortStrings_mem _ p).mp hp)).1)
    · simp at hl
  have htj : List.splitOn ',' (List.intercalate [',']
      (sortStrings g.tables)) = sortStrings g.tables :=
    List.splitOn_intercalate _ ','
      (fun t ht => (htables t ((sortStrings_mem _ t).mp ht)).2)
      (sortStrings_ne_nil _ htab)
  have hpj : List.splitOn ',' (List.intercalate [',']
      (sortStrings g.privileges)) = sortStrings g.privileges :=
    List.splitOn_intercalate _ ','
      (fun p hp => (hprivs p ((sortStrings_mem _ p).mp hp)).2)
      (sortStrings_ne_nil _ hpriv)
  have hread : readTableGrantID (generateGrantID g) =
      some (g.role, g.database, g.schemaName, g.objectType,
        List.splitOn ',' (List.intercalate [','] (sortStrings g.tables)),
        List.splitOn ',' (List.intercalate [','] (sortStrings g.privileges))) := by
    unfold readTableGrantID
    rw [hsplit]
  rw [hread, htj, hpj]
  exact ⟨rfl, fun t => sortStrings_mem _ t, fun p => sortStrings_mem _ p,
    sortStrings_sorted _, sortStrings_sorted _⟩

/-- Witness for C10: a concrete table grant whose identifier round-trips,
with the tables and privileges coming back sorted. -/
theorem readTableGrantID_roundtrip_witness :
    readTableGrantID (generateGrantID
        ⟨str "r1", str "d1", str "s1", str "table",
          [str "t2", str "t1"], [str "SELECT", str "INSERT"], false⟩) =
      some (str "r1", str "d1", str "s1", str "table",
        [str "t1", str "t2"], [str "INSERT", str "SELECT"]) := by
  have h := (readTableGrantID_roundtrip
    ⟨str "r1", str "d1", str "s1", str "table",
      [str "t2", str "t1"], [str "SELECT", str "INSERT"], false⟩
    (by decide) (by decide) (by decide) (by decide) (by decide)
    (by decide)).1
  rw [h]
  rfl

/- ===================== schema resource operations (traces) ===================== -/

/-- `pq.QuoteIdentifier` of the lib/pq driver (external): wrap in double
quotes, doubling embedded double quotes. -/
def quoteIdentifier (s : Str) : Str :=
  '"' :: ((s.map fun c => if c = '"' then ['"', '"'] else [c]).flatten ++ ['"'])

/-- The attribute values one `postgresql_schema` operation reads through
`d.Get` / `d.GetChange`. -/
structure SchemaInput where
  schemaName : Str
  schemaOwner : Str
  ifNotExists : Bool
  dropCascade : Bool
  hasChangeName : Bool
  oldName : Str
  hasChangeOwner : Bool
  hasChangePolicy : Bool
  policies : List SchemaPolicyMap
  oldPolicies : List SchemaPolicyMap
  newPolicies : List SchemaPolicyMap
  currentUser : Str
  featureIfNotExists : Bool

/-- Database responses consumed by one schema operation.  The
`grantRoleMembership` / `revokeRoleMembership` helpers are not under the
repository sources; only their outcomes are oracles here — `grantResult`
is `ok granted?` (`granted? = false` when the actor was already a member)
or an error, matching the spec's elevation protocol. -/
structure SchemaOracle where
  txnOk : Bool
  schemaPreFound : RowResult
  grantResult : Except Unit Bool
  revokeOk : Bool
  execOk : Stmt → Bool
  commitOk : Bool
  roleCheck : Str → RowResult
  readOk : Bool

/-- The pre-check of `resourcePostgreSQLSchemaCreate` (lines 141-162). -/
def schemaPreCheckSql : Str :=
  str "SELECT TRUE FROM pg_catalog.pg_namespace WHERE nspname = $1"

/-- The `CREATE SCHEMA` statement built by the create path (lines 146-157). -/
def createSchemaSql (inp : SchemaInput) : Stmt :=
  Stmt.raw (str "CREATE SCHEMA " ++
    (if inp.featureIfNotExists && inp.ifNotExists then str "IF NOT EXISTS "
     else []) ++
    quoteIdentifier inp.schemaName ++
    (if inp.schemaOwner ≠ [] then
      str " AUTHORIZATION " ++ quoteIdentifier inp.schemaOwner else []))

/-- `setSchemaOwner` (lines 453-471). -/
def setSchemaOwnerStep (execOk : Stmt → Bool) (hasChangeOwner : Bool)
    (schemaName schemaOwner : Str) : List Ev × Except OpErr Unit :=
  if !hasChangeOwner then ([], Except.ok ())
  else if schemaOwner = [] then ([], Except.error OpErr.emptyName)
  else
    let s := Stmt.raw (str "ALTER SCHEMA " ++ quoteIdentifier schemaName ++
      str " OWNER TO " ++ quoteIdentifier schemaOwner)
    if execOk s then ([Ev.exec s], Except.ok ())
    else ([Ev.exec s], Except.error (OpErr.execFailed s))

/-- `setSchemaName` (lines 432-451). -/
def setSchemaNameStep (execOk : Stmt → Bool) (hasChangeName : Bool)
    (oldName newName : Str) : List Ev × Except OpErr Unit :=
  if !hasChangeName then ([], Except.ok ())
  else if newName = [] then ([], Except.error OpErr.emptyName)
  else
    let s := Stmt.raw (str "ALTER SCHEMA " ++ quoteIdentifier oldName ++
      str " RENAME TO " ++ quoteIdentifier newName)
    if execOk s then ([Ev.exec s], Except.ok ())
    else ([Ev.exec s], Except.error (OpErr.execFailed s))

/-- The per-role GRANT queries of the create path (lines 188-190),
iterating the role-keyed ACL container. -/
def policyGrantQueries (schemaName : Str) : Keyed ACLSchema → List Stmt
  | [] => []
  | (_, a) :: rest => aclSchemaGrants a schemaName ++
      policyGrantQueries schemaName rest

/-- The caller-side elevation pattern shared by the schema operations
(create lines 194-215, update lines 396-423, delete lines 250-270):
grant owner membership to the acting user when an owner is set (recording
whether this call granted it), run the wrapped statements, and issue the
matching revoke only when the grant was made by this call AND the wrapped
statements succeeded — on a wrapped-statement failure the functions
return early without revoking (the deferred rollback discards the grant). -/
def withOwnerElevation (o : SchemaOracle) (owner user : Str)
    (mid : List Ev × Except OpErr Unit) : List Ev × Except OpErr Unit :=
  if owner = [] then mid
  else
    match o.grantResult with
    | Except.error _ =>
      ([Ev.grantMember owner user], Except.error OpErr.grantMembershipFailed)
    | Except.ok granted =>
      match mid with
      | (evs, Except.error e) =>
        (Ev.grantMember owner user :: evs, Except.error e)
      | (evs, Except.ok ()) =>
        if granted then
          if o.revokeOk then
            (Ev.grantMember owner user :: evs ++ [Ev.revokeMember owner user],
              Except.ok ())
          else
            (Ev.grantMember owner user :: evs ++ [Ev.revokeMember owner user],
              Except.error OpErr.revokeMembershipFailed)
        else (Ev.grantMember owner user :: evs, Except.ok ())

/-- `resourcePostgreSQLSchemaReadImpl` (lines 323-376), compressed to its
transaction, catalog query and outcome; it issues no DDL and no membership
statement. -/
def schemaReadImplBody (o : SchemaOracle) : List Ev × Except OpErr Unit :=
  ([Ev.beginTxn,
    Ev.query (str "SELECT pg_catalog.pg_get_userbyid(n.nspowner), COALESCE(n.nspacl, ...) FROM pg_catalog.pg_namespace n WHERE n.nspname=$1"),
    Ev.rollbackCall],
   if o.readOk then Except.ok () else Except.error OpErr.readFailed)

/-- The pre-phase of the create path: the pg_namespace pre-check; on
`ErrNoRows` the `CREATE SCHEMA` statement is queued, otherwise
`setSchemaOwner` runs immediately (a non-ErrNoRows error is ignored by the
source and also falls into this branch). -/
def schemaCreatePre (inp : SchemaInput) (o : SchemaOracle) :
    List Ev × Except OpErr (List Stmt) :=
  match o.schemaPreFound with
  | RowResult.noRows =>
    ([Ev.query schemaPreCheckSql], Except.ok [createSchemaSql inp])
  | _ =>
    match setSchemaOwnerStep o.execOk inp.hasChangeOwner inp.schemaName
        inp.schemaOwner with
    | (evs, Except.ok _) => (Ev.query schemaPreCheckSql :: evs, Except.ok [])
    | (evs, Except.error e) =>
      (Ev.query schemaPreCheckSql :: evs, Except.error e)

/-- Body of `resourcePostgreSQLSchemaCreate` (lines 122-224), after the
transaction has been opened. -/
def schemaCreateBody (inp : SchemaInput) (o : SchemaOracle) :
    List Ev × Except OpErr Unit :=
  match schemaCreatePre inp o with
  | (evs₀, Except.error e) => (evs₀, Except.error e)
  | (evs₀, Except.ok qs₀) =>
    let queries := qs₀ ++
      policyGrantQueries inp.schemaName (buildPolicyACLMap inp.policies)
    match withOwnerElevation o inp.schemaOwner inp.currentUser
        (execLoop o.execOk queries) with
    | (evs₁, Except.error e) => (evs₀ ++ evs₁, Except.error e)
    | (evs₁, Except.ok ()) =>
      if o.commitOk then
        let rd := schemaReadImplBody o
        (evs₀ ++ evs₁ ++ [Ev.commit] ++ rd.1, rd.2)
      else (evs₀ ++ evs₁ ++ [Ev.commit], Except.error OpErr.commitFailed)

/-- `resourcePostgreSQLSchemaCreate` (lines 122-224): write lock, open
transaction (deferred rollback and unlock on every return). -/
def schemaCreate (inp : SchemaInput) (o : SchemaOracle) :
    List Ev × Except OpErr Unit :=
  if !o.txnOk then
    ([Ev.lock true, Ev.beginTxn, Ev.unlock true], Except.error OpErr.txnFailed)
  else
    let b := schemaCreateBody inp o
    ([Ev.lock true, Ev.beginTxn] ++ b.1 ++ [Ev.rollbackCall, Ev.unlock true],
      b.2)

/-- The `DROP SCHEMA` statement of the delete path (lines 243-259). -/
def dropSchemaSql (inp : SchemaInput) : Stmt :=
  Stmt.raw (str "DROP SCHEMA " ++ quoteIdentifier inp.schemaName ++
    str " " ++ (if inp.dropCascade then str "CASCADE" else str "RESTRICT"))

/-- Body of `resourcePostgreSQLSchemaDelete` (lines 226-279). -/
def schemaDeleteBody (inp : SchemaInput) (o : SchemaOracle) :
    List Ev × Except OpErr Unit :=
  match withOwnerElevation o inp.schemaOwner inp.currentUser
      (execLoop o.execOk [dropSchemaSql inp]) with
  | (evs₁, Except.error e) => (evs₁, Except.error e)
  | (evs₁, Except.ok ()) =>
    if o.commitOk then (evs₁ ++ [Ev.commit], Except.ok ())
    else (evs₁ ++ [Ev.commit], Except.error OpErr.commitFailed)

/-- `resourcePostgreSQLSchemaDelete` (lines 226-279). -/
def schemaDelete (inp : SchemaInput) (o : SchemaOracle) :
    List Ev × Except OpErr Unit :=
  if !o.txnOk then
    ([Ev.lock true, Ev.beginTxn, Ev.unlock true], Except.error OpErr.txnFailed)
  else
    let b := schemaDeleteBody inp o
    ([Ev.lock true, Ev.beginTxn] ++ b.1 ++ [Ev.rollbackCall, Ev.unlock true],
      b.2)

/-- The statements wrapped by the update path's elevation (lines 405-415):
`setSchemaName`, then `setSchemaOwner`, then `setSchemaPolicy`, each
aborting the sequence on error. -/
def schemaUpdateMid (inp : SchemaInput) (o : SchemaOracle) :
    List Ev × Except OpErr Unit :=
  match setSchemaNameStep o.execOk inp.hasChangeName inp.oldName
      inp.schemaName with
  | (evs, Except.error e) => (evs, Except.error e)
  | (evs, Except.ok ()) =>
    match setSchemaOwnerStep o.execOk inp.hasChangeOwner inp.schemaName
        inp.schemaOwner with
    | (evs', Except.error e) => (evs ++ evs', Except.error e)
    | (evs', Except.ok ()) =>
      match setSchemaPolicyStep o.roleCheck o.execOk inp.hasChangePolicy
          inp.schemaName inp.oldPolicies inp.newPolicies with
      | (evs'', r) => (evs ++ evs' ++ evs'', r)

/-- Body of `resourcePostgreSQLSchemaUpdate` (lines 378-430): elevation is
acquired first, the three set-steps run inside it, then commit and
re-read. -/
def schemaUpdateBody (inp : SchemaInput) (o : SchemaOracle) :
    List Ev × Except OpErr Unit :=
  match withOwnerElevation o inp.schemaOwner inp.currentUser
      (schemaUpdateMid inp o) with
  | (evs₁, Except.error e) => (evs₁, Except.error e)
  | (evs₁, Except.ok ()) =>
    if o.commitOk then
      let rd := schemaReadImplBody o
      (evs₁ ++ [Ev.commit] ++ rd.1, rd.2)
    else (evs₁ ++ [Ev.commit], Except.error OpErr.commitFailed)

/-- `resourcePostgreSQLSchemaUpdate` (lines 378-430). -/
def schemaUpdate (inp : SchemaInput) (o : SchemaOracle) :
    List Ev × Except OpErr Unit :=
  if !o.txnOk then
    ([Ev.lock true, Ev.beginTxn, Ev.unlock true], Except.error OpErr.txnFailed)
  else
    let b := schemaUpdateBody inp o
    ([Ev.lock true, Ev.beginTxn] ++ b.1 ++ [Ev.rollbackCall, Ev.unlock true],
      b.2)

/-- `resourcePostgreSQLSchemaRead` (lines 315-321): read lock around the
read implementation. -/
def schemaRead (o : SchemaOracle) : List Ev × Except OpErr Unit :=
  let b := schemaReadImplBody o
  ([Ev.lock false] ++ b.1 ++ [Ev.unlock false], b.2)

/-- `resourcePostgreSQLSchemaExists` (lines 281-313): read lock, database
existence check, transaction and catalog query. -/
def schemaExists (_inp : SchemaInput) (o : SchemaOracle) :
    List Ev × Except OpErr Bool :=
  ([Ev.lock false, Ev.query (str "SELECT 1 FROM pg_database WHERE datname=$1"),
    Ev.beginTxn,
    Ev.query (str "SELECT n.nspname FROM pg_catalog.pg_namespace n WHERE n.nspname=$1"),
    Ev.rollbackCall, Ev.unlock false],
   match o.schemaPreFound with
   | RowResult.noRows => Except.ok false
   | RowResult.found => Except.ok true
   | RowResult.dbError => Except.error OpErr.readFailed)

/-- Is an event a role-membership call (grant or revoke)? -/
def evIsMember : Ev → Bool
  | Ev.grantMember _ _ => true
  | Ev.revokeMember _ _ => true
  | _ => false

theorem execLoop_no_member (execOk : Stmt → Bool) :
    ∀ (qs : List Stmt) (ev : Ev), ev ∈ (execLoop execOk qs).1 →
      evIsMember ev = false := by
  intro qs
  induction qs with
  | nil => intro ev hev; simp [execLoop] at hev
  | cons s rest ih =>
    intro ev hev
    simp only [execLoop] at hev
    by_cases hx : execOk s
    · rw [if_pos hx] at hev
      rcases List.mem_cons.mp hev with rfl | hev'
      · rfl
      · exact ih ev hev'
    · rw [if_neg hx] at hev
      rcases List.mem_singleton.mp hev with rfl
      rfl

theorem droppedStep_no_member (roleCheck : Str → RowResult)
    (schemaName : Str) :
    ∀ (d : Keyed SchemaPolicyMap) (ev : Ev),
      ev ∈ (droppedStep roleCheck schemaName d).1 → evIsMember ev = false := by
  intro d
  induction d with
  | nil => intro ev hev; simp [droppedStep] at hev
  | cons kp rest ih =>
    obtain ⟨k₀, p₀⟩ := kp
    intro ev hev
    simp only [droppedStep] at hev
    by_cases hr : (schemaPolicyToACL p₀).role = []
    · rw [if_pos hr] at hev
      exact ih ev hev
    · rw [if_neg hr] at hev
      rcases hc : roleCheck (schemaPolicyToACL p₀).role with _ | _ | _ <;>
        rw [hc] at hev
      · rcases List.mem_cons.mp hev with rfl | hev'
        · rfl
        · exact ih ev hev'
      · rcases List.mem_cons.mp hev with rfl | hev'
        · rfl
        · exact ih ev hev'
      · rcases List.mem_singleton.mp hev with rfl
        rfl

theorem setSchemaPolicyStep_no_member (roleCheck : Str → RowResult)
    (execOk : Stmt → Bool) (hasChange : Bool) (schemaName : Str)
    (oldL newL : List SchemaPolicyMap) (ev : Ev)
    (hev : ev ∈ (setSchemaPolicyStep roleCheck execOk hasChange schemaName
      oldL newL).1) : evIsMember ev = false := by
  unfold setSchemaPolicyStep at hev
  by_cases hc : hasChange
  · rw [if_neg (by simp [hc])] at hev
    unfold schemaPolicyQueriesBuild at hev
    rcases hd : droppedStep roleCheck schemaName
        (schemaChangedPolicies oldL newL).1 with ⟨evs, r⟩
    rw [hd] at hev
    rcases r with e | qd
    · exact droppedStep_no_member roleCheck schemaName _ ev (by rw [hd]; exact hev)
    · rcases List.mem_append.mp hev with h | h
      · exact droppedStep_no_member roleCheck schemaName _ ev (by rw [hd]; exact h)
      · exact execLoop_no_member execOk _ ev h
  · rw [if_pos (by simp [hc])] at hev
    simp at hev

theorem setSchemaOwnerStep_no_member (execOk : Stmt → Bool)
    (hasChange : Bool) (schemaName schemaOwner : Str) (ev : Ev)
    (hev : ev ∈ (setSchemaOwnerStep execOk hasChange schemaName
      schemaOwner).1) : evIsMember ev = false := by
  unfold setSchemaOwnerStep at hev
  by_cases hc : hasChange
  · rw [if_neg (by simp [hc])] at hev
    by_cases ho : schemaOwner = []
    · rw [if_pos ho] at hev; simp at hev
    · rw [if_neg ho] at hev
      by_cases hx : execOk (Stmt.raw (str "ALTER SCHEMA " ++
          quoteIdentifier schemaName ++ str " OWNER TO " ++
          quoteIdentifier schemaOwner))
      · rw [if_pos hx] at hev
        rcases List.mem_singleton.mp hev with rfl
        rfl
      · rw [if_neg hx] at hev
        rcases List.mem_singleton.mp hev with rfl
        rfl
  · rw [if_pos (by simp [hc])] at hev
    simp at hev

theorem setSchemaNameStep_no_member (execOk : Stmt → Bool)
    (hasChange : Bool) (oldName newName : Str) (ev : Ev)
    (hev : ev ∈ (setSchemaNameStep execOk hasChange oldName newName).1) :
    evIsMember ev = false := by
  unfold setSchemaNameStep at hev
  by_cases hc : hasChange
  · rw [if_neg (by simp [hc])] at hev
    by_cases ho : newName = []
    · rw [if_pos ho] at hev; simp at hev
    · rw [if_neg ho] at hev
      by_cases hx : execOk (Stmt.raw (str "ALTER SCHEMA " ++
          quoteIdentifier oldName ++ str " RENAME TO " ++
          quoteIdentifier newName))
      · rw [if_pos hx] at hev
        rcases List.mem_singleton.mp hev with rfl
        rfl
      · rw [if_neg hx] at hev
        rcases List.mem_singleton.mp hev with rfl
        rfl
  · rw [if_pos (by simp [hc])] at hev
    simp at hev

theorem schemaReadImplBody_no_member (o : SchemaOracle) (ev : Ev)
    (hev : ev ∈ (schemaReadImplBody o).1) : evIsMember ev = false := by
  unfold schemaReadImplBody at hev
  rcases List.mem_cons.mp hev with rfl | hev'
  · rfl
  rcases List.mem_cons.mp hev' with rfl | hev''
  · rfl
  rcases List.mem_singleton.mp hev'' with rfl
  rfl

theorem schemaCreatePre_no_member (inp : SchemaInput) (o : SchemaOracle)
    (ev : Ev) (hev : ev ∈ (schemaCreatePre inp o).1) :
    evIsMember ev = false := by
  unfold schemaCreatePre at hev
  rcases hp : o.schemaPreFound with _ | _ | _ <;> rw [hp] at hev
  · rcases List.mem_singleton.mp hev with rfl
    rfl
  all_goals {
    rcases hs : setSchemaOwnerStep o.execOk inp.hasChangeOwner inp.schemaName
        inp.schemaOwner with ⟨evs, r⟩
    rw [hs] at hev
    rcases r with e | u
    · rcases List.mem_cons.mp hev with rfl | hev'
      · rfl
      · exact setSchemaOwnerStep_no_member _ _ _ _ ev (by rw [hs]; exact hev')
    · rcases List.mem_cons.mp hev with rfl | hev'
      · rfl
      · exact setSchemaOwnerStep_no_member _ _ _ _ ev (by rw [hs]; exact hev') }

theorem withOwnerElevation_no_owner (o : SchemaOracle) (user : Str)
    (mid : List Ev × Except OpErr Unit) :
    withOwnerElevation o [] user mid = mid := by
  simp [withOwnerElevation]

theorem withOwnerElevation_granted_ok (o : SchemaOracle) (owner user : Str)
    (mevs : List Ev) (how : ¬ owner = [])
    (hg : o.grantResult = Except.ok true) (hrv : o.revokeOk = true) :
    withOwnerElevation o owner user (mevs, Except.ok ()) =
      (Ev.grantMember owner user :: mevs ++ [Ev.revokeMember owner user],
        Except.ok ()) := by
  simp only [withOwnerElevation, if_neg how, hg, hrv, if_pos rfl, if_true]

theorem withOwnerElevation_revoke_fail (o : SchemaOracle) (owner user : Str)
    (mevs : List Ev) (how : ¬ owner = [])
    (hg : o.grantResult = Except.ok true) (hrv : o.revokeOk = false) :
    withOwnerElevation o owner user (mevs, Except.ok ()) =
      (Ev.grantMember owner user :: mevs ++ [Ev.revokeMember owner user],
        Except.error OpErr.revokeMembershipFailed) := by
  simp only [withOwnerElevation, if_neg how, hg, hrv, if_pos rfl,
    Bool.false_eq_true, if_false, if_true]

theorem withOwnerElevation_not_granted (o : SchemaOracle) (owner user : Str)
    (mevs : List Ev) (how : ¬ owner = [])
    (hg : o.grantResult = Except.ok false) :
    withOwnerElevation o owner user (mevs, Except.ok ()) =
      (Ev.grantMember owner user :: mevs, Except.ok ()) := by
  simp only [withOwnerElevation, if_neg how, hg, Bool.false_eq_true, if_false]

theorem withOwnerElevation_mid_fail (o : SchemaOracle) (owner user : Str)
    (mevs : List Ev) (e : OpErr) (how : ¬ owner = []) (g : Bool)
    (hg : o.grantResult = Except.ok g) :
    withOwnerElevation o owner user (mevs, Except.error e) =
      (Ev.grantMember owner user :: mevs, Except.error e) := by
  simp only [withOwnerElevation, if_neg how, hg]

theorem withOwnerElevation_grant_mem (o : SchemaOracle) (owner user : Str)
    (mid : List Ev × Except OpErr Unit) (how : ¬ owner = []) :
    Ev.grantMember owner user ∈ (withOwnerElevation o owner user mid).1 := by
  unfold withOwnerElevation
  rw [if_neg how]
  rcases o.grantResult with e | g
  · exact List.mem_singleton.mpr rfl
  · rcases mid with ⟨mevs, r⟩
    rcases r with e | u
    · exact List.mem_cons_self _ _
    · obtain ⟨⟩ := u
      cases g with
      | false => exact List.mem_cons_self _ _
      | true =>
        simp only [if_pos rfl]
        by_cases hrv : o.revokeOk
        · rw [if_pos hrv]
          exact List.mem_cons_self _ _
        · rw [if_neg hrv]
          exact List.mem_cons_self _ _

theorem withOwnerElevation_mem_revoke (o : SchemaOracle) (owner user t a : Str)
    (mid : List Ev × Except OpErr Unit)
    (h : Ev.revokeMember t a ∈ (withOwnerElevation o owner user mid).1) :
    Ev.revokeMember t a ∈ mid.1 ∨
      (t = owner ∧ a = user ∧ ¬ owner = [] ∧
        o.grantResult = Except.ok true ∧ mid.2 = Except.ok ()) := by
  by_cases how : owner = []
  · rw [how, withOwnerElevation_no_owner] at h
    exact Or.inl h
  · unfold withOwnerElevation at h
    rw [if_neg how] at h
    rcases hg : o.grantResult with e | g <;> rw [hg] at h
    · rcases List.mem_singleton.mp h with h'
      exact absurd h' (by simp)
    · rcases hmid : mid with ⟨mevs, r⟩
      rw [hmid] at h
      rcases r with e | u
      · rcases List.mem_cons.mp h with h' | h'
        · exact absurd h' (by simp)
        · exact Or.inl h'
      · obtain ⟨⟩ := u
        cases g with
        | false =>
          simp only [Bool.false_eq_true, if_false] at h
          rcases List.mem_cons.mp h with h' | h'
          · exact absurd h' (by simp)
          · exact Or.inl h'
        | true =>
          simp only [if_pos rfl] at h
          by_cases hrv : o.revokeOk
          · rw [if_pos hrv] at h
            rcases List.mem_cons.mp h with h' | h'
            · exact absurd h' (by simp)
            · rcases List.mem_append.mp h' with h'' | h''
              · exact Or.inl h''
              · rcases List.mem_singleton.mp h'' with heq
                refine Or.inr ⟨(Ev.revokeMember.injEq .. ▸ heq).1,
                  (Ev.revokeMember.injEq .. ▸ heq).2, how, rfl, rfl⟩
          · rw [if_neg hrv] at h
            rcases List.mem_cons.mp h with h' | h'
            · exact absurd h' (by simp)
            · rcases List.mem_append.mp h' with h'' | h''
              · exact Or.inl h''
              · rcases List.mem_singleton.mp h'' with heq
                refine Or.inr ⟨(Ev.revokeMember.injEq .. ▸ heq).1,
                  (Ev.revokeMember.injEq .. ▸ heq).2, how, rfl, rfl⟩

theorem withOwnerElevation_ok_revoke_mem (o : SchemaOracle) (owner user : Str)
    (mid : List Ev × Except OpErr Unit) (how : ¬ owner = [])
    (hg : o.grantResult = Except.ok true)
    (hres : (withOwnerElevation o owner user mid).2 = Except.ok ()) :
    Ev.revokeMember owner user ∈ (withOwnerElevation o owner user mid).1 := by
  rcases hmid : mid with ⟨mevs, r⟩
  rw [hmid] at hres
  rcases r with e | u
  · rw [withOwnerElevation_mid_fail o owner user mevs e how true hg] at hres
    simp at hres
  · obtain ⟨⟩ := u
    by_cases hrv : o.revokeOk
    · rw [withOwnerElevation_granted_ok o owner user mevs how hg hrv]
      exact List.mem_cons_of_mem _
        (List.mem_append.mpr (Or.inr (List.mem_singleton.mpr rfl)))
    · rw [withOwnerElevation_revoke_fail o owner user mevs how hg
        (by simpa using hrv)] at hres
      simp at hres

theorem schemaUpdateMid_no_member (inp : SchemaInput) (o : SchemaOracle)
    (ev : Ev) (hev : ev ∈ (schemaUpdateMid inp o).1) :
    evIsMember ev = false := by
  unfold schemaUpdateMid at hev
  rcases h1 : setSchemaNameStep o.execOk inp.hasChangeName inp.oldName
      inp.schemaName with ⟨evs, r⟩
  rw [h1] at hev
  rcases r with e | u
  · exact setSchemaNameStep_no_member _ _ _ _ ev (by rw [h1]; exact hev)
  · obtain ⟨⟩ := u
    rcases h2 : setSchemaOwnerStep o.execOk inp.hasChangeOwner inp.schemaName
        inp.schemaOwner with ⟨evs', r'⟩
    rw [h2] at hev
    rcases r' with e | u'
    · rcases List.mem_append.mp hev with h | h
      · exact setSchemaNameStep_no_member _ _ _ _ ev (by rw [h1]; exact h)
      · exact setSchemaOwnerStep_no_member _ _ _ _ ev (by rw [h2]; exact h)
    · obtain ⟨⟩ := u'
      rcases h3 : setSchemaPolicyStep o.roleCheck o.execOk inp.hasChangePolicy
          inp.schemaName inp.oldPolicies inp.newPolicies with ⟨evs'', r''⟩
      rw [h3] at hev
      rcases List.mem_append.mp hev with h | h
      · rcases List.mem_append.mp h with h' | h'
        · exact setSchemaNameStep_no_member _ _ _ _ ev (by rw [h1]; exact h')
        · exact setSchemaOwnerStep_no_member _ _ _ _ ev (by rw [h2]; exact h')
      · exact setSchemaPolicyStep_no_member _ _ _ _ _ _ ev (by rw [h3]; exact h)

theorem schemaCreateBody_mem_revoke (inp : SchemaInput) (o : SchemaOracle)
    (t a : Str) (h : Ev.revokeMember t a ∈ (schemaCreateBody inp o).1) :
    t = inp.schemaOwner ∧ a = inp.currentUser ∧ ¬ inp.schemaOwner = [] ∧
      o.grantResult = Except.ok true ∧
      Ev.grantMember inp.schemaOwner inp.currentUser ∈
        (schemaCreateBody inp o).1 := by
  rcases hpre : schemaCreatePre inp o with ⟨evs₀, r₀⟩
  have hev₀ : Ev.revokeMember t a ∈ evs₀ → False := by
    intro h'
    have := schemaCreatePre_no_member inp o _ (by rw [hpre]; exact h')
    simp [evIsMember] at this
  rcases r₀ with e | qs₀
  · simp only [schemaCreateBody, hpre] at h
    exact absurd h hev₀
  · rcases hel : withOwnerElevation o inp.schemaOwner inp.currentUser
        (execLoop o.execOk (qs₀ ++ policyGrantQueries inp.schemaName
          (buildPolicyACLMap inp.policies))) with ⟨evs₁, r₁⟩
    have hev₁ : Ev.revokeMember t a ∈ evs₁ →
        t = inp.schemaOwner ∧ a = inp.currentUser ∧
          ¬ inp.schemaOwner = [] ∧ o.grantResult = Except.ok true ∧
          Ev.grantMember inp.schemaOwner inp.currentUser ∈ evs₁ := by
      intro h'
      rcases withOwnerElevation_mem_revoke o _ _ t a _
          (by rw [hel]; exact h') with hl | hr
      · have := execLoop_no_member o.execOk _ _ hl
        simp [evIsMember] at this
      · have hgm : Ev.grantMember inp.schemaOwner inp.currentUser ∈ evs₁ := by
          have := withOwnerElevation_grant_mem o inp.schemaOwner
            inp.currentUser (execLoop o.execOk (qs₀ ++
              policyGrantQueries inp.schemaName
                (buildPolicyACLMap inp.policies))) hr.2.2.1
          rw [hel] at this
          exact this
        exact ⟨hr.1, hr.2.1, hr.2.2.1, hr.2.2.2.1, hgm⟩
    rcases r₁ with e | u
    · simp only [schemaCreateBody, hpre, hel] at h ⊢
      rcases List.mem_append.mp h with h' | h'
      · exact absurd h' hev₀
      · obtain ⟨h1, h2, h3, h4, h5⟩ := hev₁ h'
        exact ⟨h1, h2, h3, h4, List.mem_append.mpr (Or.inr h5)⟩
    · obtain ⟨⟩ := u
      by_cases hc : o.commitOk
      · simp only [schemaCreateBody, hpre, hel, hc, if_true] at h ⊢
        rcases List.mem_append.mp h with h' | h'
        · rcases List.mem_append.mp h' with h'' | h''
          · rcases List.mem_append.mp h'' with h₃ | h₃
            · exact absurd h₃ hev₀
            · obtain ⟨h1, h2, h3, h4, h5⟩ := hev₁ h₃
              exact ⟨h1, h2, h3, h4, List.mem_append.mpr (Or.inl
                (List.mem_append.mpr (Or.inl
                  (List.mem_append.mpr (Or.inr h5)))))⟩
          · rcases List.mem_singleton.mp h'' with heq
            exact absurd heq (by simp)
        · have := schemaReadImplBody_no_member o _ h'
          simp [evIsMember] at this
      · simp only [schemaCreateBody, hpre, hel, hc, Bool.false_eq_true,
          if_false] at h ⊢
        rcases List.mem_append.mp h with h' | h'
        · rcases List.mem_append.mp h' with h'' | h''
          · exact absurd h'' hev₀
          · obtain ⟨h1, h2, h3, h4, h5⟩ := hev₁ h''
            exact ⟨h1, h2, h3, h4, List.mem_append.mpr (Or.inl
              (List.mem_append.mpr (Or.inr h5)))⟩
        · rcases List.mem_singleton.mp h' with heq
          exact absurd heq (by simp)

theorem schemaDeleteBody_mem_revoke (inp : SchemaInput) (o : SchemaOracle)
    (t a : Str) (h : Ev.revokeMember t a ∈ (schemaDeleteBody inp o).1) :
    t = inp.schemaOwner ∧ a = inp.currentUser ∧ ¬ inp.schemaOwner = [] ∧
      o.grantResult = Except.ok true ∧
      Ev.grantMember inp.schemaOwner inp.currentUser ∈
        (schemaDeleteBody inp o).1 := by
  rcases hel : withOwnerElevation o inp.schemaOwner inp.currentUser
      (execLoop o.execOk [dropSchemaSql inp]) with ⟨evs₁, r₁⟩
  have hev₁ : Ev.revokeMember t a ∈ evs₁ →
      t = inp.schemaOwner ∧ a = inp.currentUser ∧
        ¬ inp.schemaOwner = [] ∧ o.grantResult = Except.ok true ∧
        Ev.grantMember inp.schemaOwner inp.currentUser ∈ evs₁ := by
    intro h'
    rcases withOwnerElevation_mem_revoke o _ _ t a _
        (by rw [hel]; exact h') with hl | hr
    · have := execLoop_no_member o.execOk _ _ hl
      simp [evIsMember] at this
    · have hgm : Ev.grantMember inp.schemaOwner inp.currentUser ∈ evs₁ := by
        have := withOwnerElevation_grant_mem o inp.schemaOwner
          inp.currentUser (execLoop o.execOk [dropSchemaSql inp]) hr.2.2.1
        rw [hel] at this
        exact this
      exact ⟨hr.1, hr.2.1, hr.2.2.1, hr.2.2.2.1, hgm⟩
  rcases r₁ with e | u
  · simp only [schemaDeleteBody, hel] at h ⊢
    obtain ⟨h1, h2, h3, h4, h5⟩ := hev₁ h
    exact ⟨h1, h2, h3, h4, h5⟩
  · obtain ⟨⟩ := u
    by_cases hc : o.commitOk
    · simp only [schemaDeleteBody, hel, hc, if_true] at h ⊢
      rcases List.mem_append.mp h with h' | h'
      · obtain ⟨h1, h2, h3, h4, h5⟩ := hev₁ h'
        exact ⟨h1, h2, h3, h4, List.mem_append.mpr (Or.inl h5)⟩
      · rcases List.mem_singleton.mp h' with heq
        exact absurd heq (by simp)
    · simp only [schemaDeleteBody, hel, hc, Bool.false_eq_true, if_false] at h ⊢
      rcases List.mem_append.mp h with h' | h'
      · obtain ⟨h1, h2, h3, h4, h5⟩ := hev₁ h'
        exact ⟨h1, h2, h3, h4, List.mem_append.mpr (Or.inl h5)⟩
      · rcases List.mem_singleton.mp h' with heq
        exact absurd heq (by simp)

theorem schemaUpdateBody_mem_revoke (inp : SchemaInput) (o : SchemaOracle)
    (t a : Str) (h : Ev.revokeMember t a ∈ (schemaUpdateBody inp o).1) :
    t = inp.schemaOwner ∧ a = inp.currentUser ∧ ¬ inp.schemaOwner = [] ∧
      o.grantResult = Except.ok true ∧
      Ev.grantMember inp.schemaOwner inp.currentUser ∈
        (schemaUpdateBody inp o).1 := by
  rcases hel : withOwnerElevation o inp.schemaOwner inp.currentUser
      (schemaUpdateMid inp o) with ⟨evs₁, r₁⟩
  have hev₁ : Ev.revokeMember t a ∈ evs₁ →
      t = inp.schemaOwner ∧ a = inp.currentUser ∧
        ¬ inp.schemaOwner = [] ∧ o.grantResult = Except.ok true ∧
        Ev.grantMember inp.schemaOwner inp.currentUser ∈ evs₁ := by
    intro h'
    rcases withOwnerElevation_mem_revoke o _ _ t a _
        (by rw [hel]; exact h') with hl | hr
    · have := schemaUpdateMid_no_member inp o _ hl
      simp [evIsMember] at this
    · have hgm : Ev.grantMember inp.schemaOwner inp.currentUser ∈ evs₁ := by
        have := withOwnerElevation_grant_mem o inp.schemaOwner
          inp.currentUser (schemaUpdateMid inp o) hr.2.2.1
        rw [hel] at this
        exact this
      exact ⟨hr.1, hr.2.1, hr.2.2.1, hr.2.2.2.1, hgm⟩
  rcases r₁ with e | u
  · simp only [schemaUpdateBody, hel] at h ⊢
    obtain ⟨h1, h2, h3, h4, h5⟩ := hev₁ h
    exact ⟨h1, h2, h3, h4, h5⟩
  · obtain ⟨⟩ := u
    by_cases hc : o.commitOk
    · simp only [schemaUpdateBody, hel, hc, if_true] at h ⊢
      rcases List.mem_append.mp h with h' | h'
      · rcases List.mem_append.mp h' with h'' | h''
        · obtain ⟨h1, h2, h3, h4, h5⟩ := hev₁ h''
          exact ⟨h1, h2, h3, h4, List.mem_append.mpr (Or.inl
            (List.mem_append.mpr (Or.inl h5)))⟩
        · rcases List.mem_singleton.mp h'' with heq
          exact absurd heq (by simp)
      · have := schemaReadImplBody_no_member o _ h'
        simp [evIsMember] at this
    · simp only [schemaUpdateBody, hel, hc, Bool.false_eq_true, if_false] at h ⊢
      rcases List.mem_append.mp h with h' | h'
      · obtain ⟨h1, h2, h3, h4, h5⟩ := hev₁ h'
        exact ⟨h1, h2, h3, h4, List.mem_append.mpr (Or.inl h5)⟩
      · rcases List.mem_singleton.mp h' with heq
        exact absurd heq (by simp)

theorem schemaCreateBody_ok_revoke (inp : SchemaInput) (o : SchemaOracle)
    (how : ¬ inp.schemaOwner = []) (hg : o.grantResult = Except.ok true)
    (hres : (schemaCreateBody inp o).2 = Except.ok ()) :
    Ev.revokeMember inp.schemaOwner inp.currentUser ∈
      (schemaCreateBody inp o).1 := by
  rcases hpre : schemaCreatePre inp o with ⟨evs₀, r₀⟩
  rcases r₀ with e | qs₀
  · simp only [schemaCreateBody, hpre] at hres
    simp at hres
  · rcases hel : withOwnerElevation o inp.schemaOwner inp.currentUser
        (execLoop o.execOk (qs₀ ++ policyGrantQueries inp.schemaName
          (buildPolicyACLMap inp.policies))) with ⟨evs₁, r₁⟩
    rcases r₁ with e | u
    · simp only [schemaCreateBody, hpre, hel] at hres
      simp at hres
    · obtain ⟨⟩ := u
      have hrev : Ev.revokeMember inp.schemaOwner inp.currentUser ∈ evs₁ := by
        have := withOwnerElevation_ok_revoke_mem o inp.schemaOwner
          inp.currentUser (execLoop o.execOk (qs₀ ++
            policyGrantQueries inp.schemaName
              (buildPolicyACLMap inp.policies))) how hg (by rw [hel])
        rw [hel] at this
        exact this
      by_cases hc : o.commitOk
      · simp only [schemaCreateBody, hpre, hel, hc, if_true]
        exact List.mem_append.mpr (Or.inl (List.mem_append.mpr (Or.inl
          (List.mem_append.mpr (Or.inr hrev)))))
      · simp only [schemaCreateBody, hpre, hel, hc, Bool.false_eq_true,
          if_false] at hres
        simp at hres

theorem schemaDeleteBody_ok_revoke (inp : SchemaInput) (o : SchemaOracle)
    (how : ¬ inp.schemaOwner = []) (hg : o.grantResult = Except.ok true)
    (hres : (schemaDeleteBody inp o).2 = Except.ok ()) :
    Ev.revokeMember inp.schemaOwner inp.currentUser ∈
      (schemaDeleteBody inp o).1 := by
  rcases hel : withOwnerElevation o inp.schemaOwner inp.currentUser
      (execLoop o.execOk [dropSchemaSql inp]) with ⟨evs₁, r₁⟩
  rcases r₁ with e | u
  · simp only [schemaDeleteBody, hel] at hres
    simp at hres
  · obtain ⟨⟩ := u
    have hrev : Ev.revokeMember inp.schemaOwner inp.currentUser ∈ evs₁ := by
      have := withOwnerElevation_ok_revoke_mem o inp.schemaOwner
        inp.currentUser (execLoop o.execOk [dropSchemaSql inp]) how hg
        (by rw [hel])
      rw [hel] at this
      exact this
    by_cases hc : o.commitOk
    · simp only [schemaDeleteBody, hel, hc, if_true]
      exact List.mem_append.mpr (Or.inl hrev)
    · simp only [schemaDeleteBody, hel, hc, Bool.false_eq_true,
        if_false] at hres
      simp at hres

theorem schemaUpdateBody_ok_revoke (inp : SchemaInput) (o : SchemaOracle)
    (how : ¬ inp.schemaOwner = []) (hg : o.grantResult = Except.ok true)
    (hres : (schemaUpdateBody inp o).2 = Except.ok ()) :
    Ev.revokeMember inp.schemaOwner inp.currentUser ∈
      (schemaUpdateBody inp o).1 := by
  rcases hel : withOwnerElevation o inp.schemaOwner inp.currentUser
      (schemaUpdateMid inp o) with ⟨evs₁, r₁⟩
  rcases r₁ with e | u
  · simp only [schemaUpdateBody, hel] at hres
    simp at hres
  · obtain ⟨⟩ := u
    have hrev : Ev.revokeMember inp.schemaOwner inp.currentUser ∈ evs₁ := by
      have := withOwnerElevation_ok_revoke_mem o inp.schemaOwner
        inp.currentUser (schemaUpdateMid inp o) how hg (by rw [hel])
      rw [hel] at this
      exact this
    by_cases hc : o.commitOk
    · simp only [schemaUpdateBody, hel, hc, if_true]
      exact List.mem_append.mpr (Or.inl (List.mem_append.mpr (Or.inl hrev)))
    · simp only [schemaUpdateBody, hel, hc, Bool.false_eq_true,
        if_false] at hres
      simp at hres

theorem schemaCreate_trace (inp : SchemaInput) (o : SchemaOracle)
    (htx : o.txnOk = true) :
    (schemaCreate inp o).1 = [Ev.lock true, Ev.beginTxn] ++
        (schemaCreateBody inp o).1 ++ [Ev.rollbackCall, Ev.unlock true] ∧
      (schemaCreate inp o).2 = (schemaCreateBody inp o).2 := by
  simp only [schemaCreate, htx, Bool.not_true, Bool.false_eq_true, if_false]
  exact ⟨trivial, trivial⟩

theorem schemaDelete_trace (inp : SchemaInput) (o : SchemaOracle)
    (htx : o.txnOk = true) :
    (schemaDelete inp o).1 = [Ev.lock true, Ev.beginTxn] ++
        (schemaDeleteBody inp o).1 ++ [Ev.rollbackCall, Ev.unlock true] ∧
      (schemaDelete inp o).2 = (schemaDeleteBody inp o).2 := by
  simp only [schemaDelete, htx, Bool.not_true, Bool.false_eq_true, if_false]
  exact ⟨trivial, trivial⟩

theorem schemaUpdate_trace (inp : SchemaInput) (o : SchemaOracle)
    (htx : o.txnOk = true) :
    (schemaUpdate inp o).1 = [Ev.lock true, Ev.beginTxn] ++
        (schemaUpdateBody inp o).1 ++ [Ev.rollbackCall, Ev.unlock true] ∧
      (schemaUpdate inp o).2 = (schemaUpdateBody inp o).2 := by
  simp only [schemaUpdate, htx, Bool.not_true, Bool.false_eq_true, if_false]
  exact ⟨trivial, trivial⟩

theorem schemaCreate_mem_revoke (inp : SchemaInput) (o : SchemaOracle)
    (t a : Str) (h : Ev.revokeMember t a ∈ (schemaCreate inp o).1) :
    t = inp.schemaOwner ∧ a = inp.currentUser ∧
      o.grantResult = Except.ok true ∧
      Ev.grantMember t a ∈ (schemaCreate inp o).1 := by
  by_cases htx : o.txnOk = true
  · obtain ⟨htr, _⟩ := schemaCreate_trace inp o htx
    rw [htr] at h
    rcases List.mem_append.mp h with h' | h'
    · rcases List.mem_append.mp h' with h'' | h''
      · simp at h''
      · obtain ⟨ht, ha, _, hg, hmem⟩ :=
          schemaCreateBody_mem_revoke inp o t a h''
        refine ⟨ht, ha, hg, ?_⟩
        rw [htr, ht, ha]
        exact List.mem_append.mpr (Or.inl (List.mem_append.mpr (Or.inr hmem)))
    · simp at h'
  · simp only [Bool.not_eq_true] at htx
    simp [schemaCreate, htx] at h

theorem schemaDelete_mem_revoke (inp : SchemaInput) (o : SchemaOracle)
    (t a : Str) (h : Ev.revokeMember t a ∈ (schemaDelete inp o).1) :
    t = inp.schemaOwner ∧ a = inp.currentUser ∧
      o.grantResult = Except.ok true ∧
      Ev.grantMember t a ∈ (schemaDelete inp o).1 := by
  by_cases htx : o.txnOk = true
  · obtain ⟨htr, _⟩ := schemaDelete_trace inp o htx
    rw [htr] at h
    rcases List.mem_append.mp h with h' | h'
    · rcases List.mem_append.mp h' with h'' | h''
      · simp at h''
      · obtain ⟨ht, ha, _, hg, hmem⟩ :=
          schemaDeleteBody_mem_revoke inp o t a h''
        refine ⟨ht, ha, hg, ?_⟩
        rw [htr, ht, ha]
        exact List.mem_append.mpr (Or.inl (List.mem_append.mpr (Or.inr hmem)))
    · simp at h'
  · simp only [Bool.not_eq_true] at htx
    simp [schemaDelete, htx] at h

theorem schemaUpdate_mem_revoke (inp : SchemaInput) (o : SchemaOracle)
    (t a : Str) (h : Ev.revokeMember t a ∈ (schemaUpdate inp o).1) :
    t = inp.schemaOwner ∧ a = inp.currentUser ∧
      o.grantResult = Except.ok true ∧
      Ev.grantMember t a ∈ (schemaUpdate inp o).1 := by
  by_cases htx : o.txnOk = true
  · obtain ⟨htr, _⟩ := schemaUpdate_trace inp o htx
    rw [htr] at h
    rcases List.mem_append.mp h with h' | h'
    · rcases List.mem_append.mp h' with h'' | h''
      · simp at h''
      · obtain ⟨ht, ha, _, hg, hmem⟩ :=
          schemaUpdateBody_mem_revoke inp o t a h''
        refine ⟨ht, ha, hg, ?_⟩
        rw [htr, ht, ha]
        exact List.mem_append.mpr (Or.inl (List.mem_append.mpr (Or.inr hmem)))
    · simp at h'
  · simp only [Bool.not_eq_true] at htx
    simp [schemaUpdate, htx] at h

theorem schemaCreate_ok_revoke (inp : SchemaInput) (o : SchemaOracle)
    (how : ¬ inp.schemaOwner = []) (hg : o.grantResult = Except.ok true)
    (hres : (schemaCreate inp o).2 = Except.ok ()) :
    Ev.revokeMember inp.schemaOwner inp.currentUser ∈
      (schemaCreate inp o).1 := by
  by_cases htx : o.txnOk = true
  · obtain ⟨htr, hr2⟩ := schemaCreate_trace inp o htx
    rw [hr2] at hres
    have hm := schemaCreateBody_ok_revoke inp o how hg hres
    rw [htr]
    exact List.mem_append.mpr (Or.inl (List.mem_append.mpr (Or.inr hm)))
  · simp only [Bool.not_eq_true] at htx
    simp [schemaCreate, htx] at hres

theorem schemaDelete_ok_revoke (inp : SchemaInput) (o : SchemaOracle)
    (how : ¬ inp.schemaOwner = []) (hg : o.grantResult = Except.ok true)
    (hres : (schemaDelete inp o).2 = Except.ok ()) :
    Ev.revokeMember inp.schemaOwner inp.currentUser ∈
      (schemaDelete inp o).1 := by
  by_cases htx : o.txnOk = true
  · obtain ⟨htr, hr2⟩ := schemaDelete_trace inp o htx
    rw [hr2] at hres
    have hm := schemaDeleteBody_ok_revoke inp o how hg hres
    rw [htr]
    exact List.mem_append.mpr (Or.inl (List.mem_append.mpr (Or.inr hm)))
  · simp only [Bool.not_eq_true] at htx
    simp [schemaDelete, htx] at hres

theorem schemaUpdate_ok_revoke (inp : SchemaInput) (o : SchemaOracle)
    (how : ¬ inp.schemaOwner = []) (hg : o.grantResult = Except.ok true)
    (hres : (schemaUpdate inp o).2 = Except.ok ()) :
    Ev.revokeMember inp.schemaOwner inp.currentUser ∈
      (schemaUpdate inp o).1 := by
  by_cases htx : o.txnOk = true
  · obtain ⟨htr, hr2⟩ := schemaUpdate_trace inp o htx
    rw [hr2] at hres
    have hm := schemaUpdateBody_ok_revoke inp o how hg hres
    rw [htr]
    exact List.mem_append.mpr (Or.inl (List.mem_append.mpr (Or.inr hm)))
  · simp only [Bool.not_eq_true] at htx
    simp [schemaUpdate, htx] at hres

/-- Whether an event is an owner-membership revoke. -/
def evIsRevokeMember : Ev → Bool
  | Ev.revokeMember _ _ => true
  | _ => false

/-- A fixed schema resource input used to evaluate the operations on a
concrete run: schema "s" owned by "own", applied by user "usr", with no
pending name/owner/policy changes. -/
def sampleSchemaInput : SchemaInput :=
  { schemaName := str "s", schemaOwner := str "own", ifNotExists := false,
    dropCascade := false, hasChangeName := false, oldName := [],
    hasChangeOwner := false, hasChangePolicy := false, policies := [],
    oldPolicies := [], newPolicies := [], currentUser := str "usr",
    featureIfNotExists := true }

/-- Database responses for a run in which every statement succeeds and the
elevation grant reports that membership was granted by this call. -/
def sampleOracleOk : SchemaOracle :=
  { txnOk := true, schemaPreFound := RowResult.noRows,
    grantResult := Except.ok true, revokeOk := true, execOk := fun _ => true,
    commitOk := true, roleCheck := fun _ => RowResult.found, readOk := true }

/-- Database responses for a run in which the elevation grant reports that
membership was granted by this call but every wrapped statement fails. -/
def sampleOracleExecFail : SchemaOracle :=
  { txnOk := true, schemaPreFound := RowResult.noRows,
    grantResult := Except.ok true, revokeOk := true, execOk := fun _ => false,
    commitOk := true, roleCheck := fun _ => RowResult.found, readOk := true }

/-- C3 counterexample: on a schema delete in which the operation's own grant
step did grant the membership (granted-by-us flag true) but the wrapped DROP
statement fails, the early error return skips the revoke entirely — the
trace contains the elevation grant and no membership revoke at all, refuting
the claimed "if and only if" in its if direction. -/
theorem schemaDelete_granted_without_revoke :
    sampleOracleExecFail.grantResult = Except.ok true ∧
    sampleSchemaInput.schemaOwner ≠ [] ∧
    Ev.grantMember (str "own") (str "usr") ∈
      (schemaDelete sampleSchemaInput sampleOracleExecFail).1 ∧
    (schemaDelete sampleSchemaInput sampleOracleExecFail).1.all
      (fun e => !evIsRevokeMember e) = true := by
  refine ⟨rfl, by decide, by decide, by decide⟩

/-- C3 (amended): a schema create, update or delete operation issues an
owner-membership revoke only for a membership its own grant step granted —
every revoke event in the trace names the configured owner and the acting
user, occurs only when the grant step reported granted-by-us (flag true),
and is accompanied in the trace by the operation's own grant call; and on
every run that returns success with an owner configured and the
granted-by-us flag true, the revoke is issued.  (The unamended "if and only
if" fails on error paths, where the revoke is skipped even with the flag
true.) -/
theorem schemaOps_revoke_iff_self_granted (inp : SchemaInput)
    (o : SchemaOracle) (t a : Str) :
    (Ev.revokeMember t a ∈ (schemaCreate inp o).1 →
        t = inp.schemaOwner ∧ a = inp.currentUser ∧
          o.grantResult = Except.ok true ∧
          Ev.grantMember t a ∈ (schemaCreate inp o).1) ∧
    (Ev.revokeMember t a ∈ (schemaDelete inp o).1 →
        t = inp.schemaOwner ∧ a = inp.currentUser ∧
          o.grantResult = Except.ok true ∧
          Ev.grantMember t a ∈ (schemaDelete inp o).1) ∧
    (Ev.revokeMember t a ∈ (schemaUpdate inp o).1 →
        t = inp.schemaOwner ∧ a = inp.currentUser ∧
          o.grantResult = Except.ok true ∧
          Ev.grantMember t a ∈ (schemaUpdate inp o).1) ∧
    (¬ inp.schemaOwner = [] → o.grantResult = Except.ok true →
        ((schemaCreate inp o).2 = Except.ok () →
            Ev.revokeMember inp.schemaOwner inp.currentUser ∈
              (schemaCreate inp o).1) ∧
        ((schemaDelete inp o).2 = Except.ok () →
            Ev.revokeMember inp.schemaOwner inp.currentUser ∈
              (schemaDelete inp o).1) ∧
        ((schemaUpdate inp o).2 = Except.ok () →
            Ev.revokeMember inp.schemaOwner inp.currentUser ∈
              (schemaUpdate inp o).1)) :=
  ⟨schemaCreate_mem_revoke inp o t a, schemaDelete_mem_revoke inp o t a,
    schemaUpdate_mem_revoke inp o t a, fun how hg =>
      ⟨schemaCreate_ok_revoke inp o how hg,
        schemaDelete_ok_revoke inp o how hg,
        schemaUpdate_ok_revoke inp o how hg⟩⟩

/-- Witness: on the all-success run of the fixed input, each of the three
operations completes and the revoke-iff-granted theorem yields the revoke
events and, from the delete trace's revoke, the operation's own grant. -/
theorem schemaOps_revoke_iff_self_granted_witness :
    Ev.revokeMember (str "own") (str "usr") ∈
      (schemaCreate sampleSchemaInput sampleOracleOk).1 ∧
    Ev.revokeMember (str "own") (str "usr") ∈
      (schemaDelete sampleSchemaInput sampleOracleOk).1 ∧
    Ev.revokeMember (str "own") (str "usr") ∈
      (schemaUpdate sampleSchemaInput sampleOracleOk).1 ∧
    Ev.grantMember (str "own") (str "usr") ∈
      (schemaDelete sampleSchemaInput sampleOracleOk).1 := by
  have h := schemaOps_revoke_iff_self_granted sampleSchemaInput sampleOracleOk
    (str "own") (str "usr")
  obtain ⟨hc, hd, hu⟩ := h.2.2.2 (by decide) rfl
  have hcm := hc rfl
  have hdm := hd rfl
  have hum := hu rfl
  exact ⟨hcm, hdm, hum, (h.2.1 hdm).2.2.2⟩

theorem withOwnerElevation_ok_revokeOk (o : SchemaOracle) (owner user : Str)
    (mid : List Ev × Except OpErr Unit) (how : ¬ owner = [])
    (hg : o.grantResult = Except.ok true)
    (hres : (withOwnerElevation o owner user mid).2 = Except.ok ()) :
    o.revokeOk = true := by
  rcases hmid : mid with ⟨mevs, r⟩
  rw [hmid] at hres
  rcases r with e | u
  · rw [withOwnerElevation_mid_fail o owner user mevs e how true hg] at hres
    simp at hres
  · obtain ⟨⟩ := u
    cases hrv : o.revokeOk with
    | true => rfl
    | false =>
      rw [withOwnerElevation_revoke_fail o owner user mevs how hg hrv] at hres
      simp at hres

theorem schemaCreateBody_ok_revokeOk (inp : SchemaInput) (o : SchemaOracle)
    (how : ¬ inp.schemaOwner = []) (hg : o.grantResult = Except.ok true)
    (hres : (schemaCreateBody inp o).2 = Except.ok ()) :
    o.revokeOk = true := by
  rcases hpre : schemaCreatePre inp o with ⟨evs₀, r₀⟩
  rcases r₀ with e | qs₀
  · simp only [schemaCreateBody, hpre] at hres
    simp at hres
  · rcases hel : withOwnerElevation o inp.schemaOwner inp.currentUser
        (execLoop o.execOk (qs₀ ++ policyGrantQueries inp.schemaName
          (buildPolicyACLMap inp.policies))) with ⟨evs₁, r₁⟩
    rcases r₁ with e | u
    · simp only [schemaCreateBody, hpre, hel] at hres
      simp at hres
    · obtain ⟨⟩ := u
      exact withOwnerElevation_ok_revokeOk o inp.schemaOwner inp.currentUser
        _ how hg (by rw [hel])

theorem schemaDeleteBody_ok_revokeOk (inp : SchemaInput) (o : SchemaOracle)
    (how : ¬ inp.schemaOwner = []) (hg : o.grantResult = Except.ok true)
    (hres : (schemaDeleteBody inp o).2 = Except.ok ()) :
    o.revokeOk = true := by
  rcases hel : withOwnerElevation o inp.schemaOwner inp.currentUser
      (execLoop o.execOk [dropSchemaSql inp]) with ⟨evs₁, r₁⟩
  rcases r₁ with e | u
  · simp only [schemaDeleteBody, hel] at hres
    simp at hres
  · obtain ⟨⟩ := u
    exact withOwnerElevation_ok_revokeOk o inp.schemaOwner inp.currentUser
      _ how hg (by rw [hel])

theorem schemaUpdateBody_ok_revokeOk (inp : SchemaInput) (o : SchemaOracle)
    (how : ¬ inp.schemaOwner = []) (hg : o.grantResult = Except.ok true)
    (hres : (schemaUpdateBody inp o).2 = Except.ok ()) :
    o.revokeOk = true := by
  rcases hel : withOwnerElevation o inp.schemaOwner inp.currentUser
      (schemaUpdateMid inp o) with ⟨evs₁, r₁⟩
  rcases r₁ with e | u
  · simp only [schemaUpdateBody, hel] at hres
    simp at hres
  · obtain ⟨⟩ := u
    exact withOwnerElevation_ok_revokeOk o inp.schemaOwner inp.currentUser
      _ how hg (by rw [hel])

theorem schemaCreateBody_ok_shape (inp : SchemaInput) (o : SchemaOracle)
    (how : ¬ inp.schemaOwner = []) (hg : o.grantResult = Except.ok true)
    (hres : (schemaCreateBody inp o).2 = Except.ok ()) :
    ∃ pre post, (schemaCreateBody inp o).1 =
      pre ++ [Ev.revokeMember inp.schemaOwner inp.currentUser, Ev.commit]
        ++ post := by
  rcases hpre : schemaCreatePre inp o with ⟨evs₀, r₀⟩
  rcases r₀ with e | qs₀
  · simp only [schemaCreateBody, hpre] at hres
    simp at hres
  · rcases hm : execLoop o.execOk (qs₀ ++ policyGrantQueries inp.schemaName
        (buildPolicyACLMap inp.policies)) with ⟨mevs, rm⟩
    rcases rm with e | u
    · have hel := withOwnerElevation_mid_fail o inp.schemaOwner
        inp.currentUser mevs e how true hg
      simp only [schemaCreateBody, hpre, hm, hel] at hres
      simp at hres
    · obtain ⟨⟩ := u
      cases hrv : o.revokeOk with
      | false =>
        have hel := withOwnerElevation_revoke_fail o inp.schemaOwner
          inp.currentUser mevs how hg hrv
        simp only [schemaCreateBody, hpre, hm, hel] at hres
        simp at hres
      | true =>
        have hel := withOwnerElevation_granted_ok o inp.schemaOwner
          inp.currentUser mevs how hg hrv
        cases hc : o.commitOk with
        | false =>
          simp only [schemaCreateBody, hpre, hm, hel, hc,
            Bool.false_eq_true, if_false] at hres
          simp at hres
        | true =>
          refine ⟨evs₀ ++ (Ev.grantMember inp.schemaOwner inp.currentUser ::
            mevs), (schemaReadImplBody o).1, ?_⟩
          simp only [schemaCreateBody, hpre, hm, hel, hc, if_true]
          simp

theorem schemaDeleteBody_ok_shape (inp : SchemaInput) (o : SchemaOracle)
    (how : ¬ inp.schemaOwner = []) (hg : o.grantResult = Except.ok true)
    (hres : (schemaDeleteBody inp o).2 = Except.ok ()) :
    ∃ pre post, (schemaDeleteBody inp o).1 =
      pre ++ [Ev.revokeMember inp.schemaOwner inp.currentUser, Ev.commit]
        ++ post := by
  rcases hm : execLoop o.execOk [dropSchemaSql inp] with ⟨mevs, rm⟩
  rcases rm with e | u
  · have hel := withOwnerElevation_mid_fail o inp.schemaOwner
      inp.currentUser mevs e how true hg
    simp only [schemaDeleteBody, hm, hel] at hres
    simp at hres
  · obtain ⟨⟩ := u
    cases hrv : o.revokeOk with
    | false =>
      have hel := withOwnerElevation_revoke_fail o inp.schemaOwner
        inp.currentUser mevs how hg hrv
      simp only [schemaDeleteBody, hm, hel] at hres
      simp at hres
    | true =>
      have hel := withOwnerElevation_granted_ok o inp.schemaOwner
        inp.currentUser mevs how hg hrv
      cases hc : o.commitOk with
      | false =>
        simp only [schemaDeleteBody, hm, hel, hc, Bool.false_eq_true,
          if_false] at hres
        simp at hres
      | true =>
        refine ⟨Ev.grantMember inp.schemaOwner inp.currentUser :: mevs,
          [], ?_⟩
        simp only [schemaDeleteBody, hm, hel, hc, if_true]
        simp

theorem schemaUpdateBody_ok_shape (inp : SchemaInput) (o : SchemaOracle)
    (how : ¬ inp.schemaOwner = []) (hg : o.grantResult = Except.ok true)
    (hres : (schemaUpdateBody inp o).2 = Except.ok ()) :
    ∃ pre post, (schemaUpdateBody inp o).1 =
      pre ++ [Ev.revokeMember inp.schemaOwner inp.currentUser, Ev.commit]
        ++ post := by
  rcases hm : schemaUpdateMid inp o with ⟨mevs, rm⟩
  rcases rm with e | u
  · have hel := withOwnerElevation_mid_fail o inp.schemaOwner
      inp.currentUser mevs e how true hg
    simp only [schemaUpdateBody, hm, hel] at hres
    simp at hres
  · obtain ⟨⟩ := u
    cases hrv : o.revokeOk with
    | false =>
      have hel := withOwnerElevation_revoke_fail o inp.schemaOwner
        inp.currentUser mevs how hg hrv
      simp only [schemaUpdateBody, hm, hel] at hres
      simp at hres
    | true =>
      have hel := withOwnerElevation_granted_ok o inp.schemaOwner
        inp.currentUser mevs how hg hrv
      cases hc : o.commitOk with
      | false =>
        simp only [schemaUpdateBody, hm, hel, hc, Bool.false_eq_true,
          if_false] at hres
        simp at hres
      | true =>
        refine ⟨Ev.grantMember inp.schemaOwner inp.currentUser :: mevs,
          (schemaReadImplBody o).1, ?_⟩
        simp only [schemaUpdateBody, hm, hel, hc, if_true]
        simp

theorem schemaCreate_ok_shape (inp : SchemaInput) (o : SchemaOracle)
    (how : ¬ inp.schemaOwner = []) (hg : o.grantResult = Except.ok true)
    (hres : (schemaCreate inp o).2 = Except.ok ()) :
    ∃ pre post, (schemaCreate inp o).1 =
      pre ++ [Ev.revokeMember inp.schemaOwner inp.currentUser, Ev.commit]
        ++ post := by
  by_cases htx : o.txnOk = true
  · obtain ⟨htr, hr2⟩ := schemaCreate_trace inp o htx
    rw [hr2] at hres
    obtain ⟨pre, post, hshape⟩ := schemaCreateBody_ok_shape inp o how hg hres
    refine ⟨[Ev.lock true, Ev.beginTxn] ++ pre,
      post ++ [Ev.rollbackCall, Ev.unlock true], ?_⟩
    rw [htr, hshape]
    simp
  · simp only [Bool.not_eq_true] at htx
    simp [schemaCreate, htx] at hres

theorem schemaDelete_ok_shape (inp : SchemaInput) (o : SchemaOracle)
    (how : ¬ inp.schemaOwner = []) (hg : o.grantResult = Except.ok true)
    (hres : (schemaDelete inp o).2 = Except.ok ()) :
    ∃ pre post, (schemaDelete inp o).1 =
      pre ++ [Ev.revokeMember inp.schemaOwner inp.currentUser, Ev.commit]
        ++ post := by
  by_cases htx : o.txnOk = true
  · obtain ⟨htr, hr2⟩ := schemaDelete_trace inp o htx
    rw [hr2] at hres
    obtain ⟨pre, post, hshape⟩ := schemaDeleteBody_ok_shape inp o how hg hres
    refine ⟨[Ev.lock true, Ev.beginTxn] ++ pre,
      post ++ [Ev.rollbackCall, Ev.unlock true], ?_⟩
    rw [htr, hshape]
    simp
  · simp only [Bool.not_eq_true] at htx
    simp [schemaDelete, htx] at hres

theorem schemaUpdate_ok_shape (inp : SchemaInput) (o : SchemaOracle)
    (how : ¬ inp.schemaOwner = []) (hg : o.grantResult = Except.ok true)
    (hres : (schemaUpdate inp o).2 = Except.ok ()) :
    ∃ pre post, (schemaUpdate inp o).1 =
      pre ++ [Ev.revokeMember inp.schemaOwner inp.currentUser, Ev.commit]
        ++ post := by
  by_cases htx : o.txnOk = true
  · obtain ⟨htr, hr2⟩ := schemaUpdate_trace inp o htx
    rw [hr2] at hres
    obtain ⟨pre, post, hshape⟩ := schemaUpdateBody_ok_shape inp o how hg hres
    refine ⟨[Ev.lock true, Ev.beginTxn] ++ pre,
      post ++ [Ev.rollbackCall, Ev.unlock true], ?_⟩
    rw [htr, hshape]
    simp
  · simp only [Bool.not_eq_true] at htx
    simp [schemaUpdate, htx] at hres

theorem schemaCreate_ok_revokeOk (inp : SchemaInput) (o : SchemaOracle)
    (how : ¬ inp.schemaOwner = []) (hg : o.grantResult = Except.ok true)
    (hres : (schemaCreate inp o).2 = Except.ok ()) : o.revokeOk = true := by
  by_cases htx : o.txnOk = true
  · obtain ⟨_, hr2⟩ := schemaCreate_trace inp o htx
    rw [hr2] at hres
    exact schemaCreateBody_ok_revokeOk inp o how hg hres
  · simp only [Bool.not_eq_true] at htx
    simp [schemaCreate, htx] at hres

theorem schemaDelete_ok_revokeOk (inp : SchemaInput) (o : SchemaOracle)
    (how : ¬ inp.schemaOwner = []) (hg : o.grantResult = Except.ok true)
    (hres : (schemaDelete inp o).2 = Except.ok ()) : o.revokeOk = true := by
  by_cases htx : o.txnOk = true
  · obtain ⟨_, hr2⟩ := schemaDelete_trace inp o htx
    rw [hr2] at hres
    exact schemaDeleteBody_ok_revokeOk inp o how hg hres
  · simp only [Bool.not_eq_true] at htx
    simp [schemaDelete, htx] at hres

theorem schemaUpdate_ok_revokeOk (inp : SchemaInput) (o : SchemaOracle)
    (how : ¬ inp.schemaOwner = []) (hg : o.grantResult = Except.ok true)
    (hres : (schemaUpdate inp o).2 = Except.ok ()) : o.revokeOk = true := by
  by_cases htx : o.txnOk = true
  · obtain ⟨_, hr2⟩ := schemaUpdate_trace inp o htx
    rw [hr2] at hres
    exact schemaUpdateBody_ok_revokeOk inp o how hg hres
  · simp only [Bool.not_eq_true] at htx
    simp [schemaUpdate, htx] at hres

/-- Database responses for a run in which everything succeeds except the
elevation revoke itself. -/
def sampleOracleRevokeFail : SchemaOracle :=
  { txnOk := true, schemaPreFound := RowResult.noRows,
    grantResult := Except.ok true, revokeOk := false, execOk := fun _ => true,
    commitOk := true, roleCheck := fun _ => RowResult.found, readOk := true }

/-- C2 counterexample: on a schema create in which the operation's own grant
step granted the membership but the wrapped CREATE SCHEMA statement fails,
the operation returns the statement error without ever issuing the revoke —
the trace has no membership revoke at all, refuting "the matching membership
revoke is issued ... on every exit path, including when the wrapped
statements fail". -/
theorem schemaCreate_skips_revoke_on_error :
    sampleOracleExecFail.grantResult = Except.ok true ∧
    sampleSchemaInput.schemaOwner ≠ [] ∧
    (schemaCreate sampleSchemaInput sampleOracleExecFail).2 =
      Except.error (OpErr.execFailed (createSchemaSql sampleSchemaInput)) ∧
    (schemaCreate sampleSchemaInput sampleOracleExecFail).1.all
      (fun e => !evIsRevokeMember e) = true :=
  ⟨rfl, by decide, rfl, by decide⟩

/-- C2 (amended): for a schema create, update or delete whose own grant step
granted the owner membership, every run that returns success has issued the
matching revoke inside the transaction, immediately before the commit; and a
failure of the revoke itself is never silently dropped — with the revoke
failing, no run can return success.  (When the wrapped statements fail the
operation returns early without issuing the revoke — see the
counterexample.) -/
theorem schemaOps_revoke_before_commit (inp : SchemaInput) (o : SchemaOracle)
    (how : ¬ inp.schemaOwner = []) (hg : o.grantResult = Except.ok true) :
    (((schemaCreate inp o).2 = Except.ok () →
        ∃ pre post, (schemaCreate inp o).1 =
          pre ++ [Ev.revokeMember inp.schemaOwner inp.currentUser, Ev.commit]
            ++ post) ∧
      (o.revokeOk = false → ¬ (schemaCreate inp o).2 = Except.ok ())) ∧
    (((schemaDelete inp o).2 = Except.ok () →
        ∃ pre post, (schemaDelete inp o).1 =
          pre ++ [Ev.revokeMember inp.schemaOwner inp.currentUser, Ev.commit]
            ++ post) ∧
      (o.revokeOk = false → ¬ (schemaDelete inp o).2 = Except.ok ())) ∧
    (((schemaUpdate inp o).2 = Except.ok () →
        ∃ pre post, (schemaUpdate inp o).1 =
          pre ++ [Ev.revokeMember inp.schemaOwner inp.currentUser, Ev.commit]
            ++ post) ∧
      (o.revokeOk = false → ¬ (schemaUpdate inp o).2 = Except.ok ())) := by
  refine ⟨⟨schemaCreate_ok_shape inp o how hg, fun hrv hok => ?_⟩,
    ⟨schemaDelete_ok_shape inp o how hg, fun hrv hok => ?_⟩,
    ⟨schemaUpdate_ok_shape inp o how hg, fun hrv hok => ?_⟩⟩
  · have h := schemaCreate_ok_revokeOk inp o how hg hok
    rw [hrv] at h
    exact Bool.false_ne_true h
  · have h := schemaDelete_ok_revokeOk inp o how hg hok
    rw [hrv] at h
    exact Bool.false_ne_true h
  · have h := schemaUpdate_ok_revokeOk inp o how hg hok
    rw [hrv] at h
    exact Bool.false_ne_true h

/-- Witness: on the all-success run the create trace ends its transaction
with the revoke immediately before the commit, and on the run whose revoke
fails the delete cannot return success. -/
theorem schemaOps_revoke_before_commit_witness :
    (∃ pre post, (schemaCreate sampleSchemaInput sampleOracleOk).1 =
      pre ++ [Ev.revokeMember (str "own") (str "usr"), Ev.commit] ++ post) ∧
    ¬ (schemaDelete sampleSchemaInput sampleOracleRevokeFail).2 =
      Except.ok () := by
  constructor
  · exact (schemaOps_revoke_before_commit sampleSchemaInput sampleOracleOk
      (by decide) rfl).1.1 rfl
  · exact (schemaOps_revoke_before_commit sampleSchemaInput
      sampleOracleRevokeFail (by decide) rfl).2.1.2 rfl

/- ===================== grant resource (create path) ===================== -/

/-- Go `strings.ToUpper` (restricted to the ASCII case mapping). -/
def strToUpper (s : Str) : Str := s.map Char.toUpper

/-- Go `strings.Join(parts, ",")`. -/
def commaJoin (parts : List Str) : Str := List.intercalate [','] parts

/-- `createGrantQuery` (resource_postgresql_grant.go lines 447-478): the
GRANT statement for the declared privileges, dispatching on the upper-cased
object type, with the `WITH GRANT OPTION` suffix when requested. -/
def createGrantQuery (inp : GrantInput) : Str :=
  let base :=
    if strToUpper inp.objectType = str "DATABASE" then
      str "GRANT " ++ commaJoin inp.privileges ++ str " ON DATABASE " ++
        quoteIdentifier inp.database ++ str " TO " ++ quoteIdentifier inp.role
    else if strToUpper inp.objectType = str "TABLE" ∨
        strToUpper inp.objectType = str "SEQUENCE" ∨
        strToUpper inp.objectType = str "FUNCTION" then
      if inp.tables ≠ [] then
        str "GRANT " ++ commaJoin inp.privileges ++ str " ON TABLE " ++
          commaJoin inp.tables ++ str " TO " ++ quoteIdentifier inp.role
      else
        str "GRANT " ++ commaJoin inp.privileges ++ str " ON ALL " ++
          strToUpper inp.objectType ++ str "S IN SCHEMA " ++
          quoteIdentifier inp.schemaName ++ str " TO " ++
          quoteIdentifier inp.role
    else []
  if inp.withGrantOption then base ++ str " WITH GRANT OPTION" else base

/-- `createRevokeQuery` (resource_postgresql_grant.go lines 480-512): the
REVOKE ALL PRIVILEGES statement for the role, dispatching on the
upper-cased object type. -/
def createRevokeQuery (inp : GrantInput) : Str :=
  if strToUpper inp.objectType = str "DATABASE" then
    str "REVOKE ALL PRIVILEGES ON DATABASE " ++ quoteIdentifier inp.database
      ++ str " FROM " ++ quoteIdentifier inp.role
  else if strToUpper inp.objectType = str "TABLE" ∨
      strToUpper inp.objectType = str "SEQUENCE" ∨
      strToUpper inp.objectType = str "FUNCTION" then
    if inp.tables ≠ [] then
      str "REVOKE ALL PRIVILEGES ON TABLE " ++ commaJoin inp.tables ++
        str " FROM " ++ quoteIdentifier inp.role
    else
      str "REVOKE ALL PRIVILEGES ON ALL " ++ strToUpper inp.objectType ++
        str "S IN SCHEMA " ++ quoteIdentifier inp.schemaName ++
        str " FROM " ++ quoteIdentifier inp.role
  else []

/-- Database responses consumed by one grant-resource operation.  The
`startTransaction`, `validatePrivileges`, `getRolesToGrantForSchema` and
`withRolesGranted` helpers are not under the repository sources; their
outcomes (and the elevation actor and granted-by-us marks) are oracles. -/
structure GrantOracle where
  featureOk : Bool
  validateOk : Bool
  txnOk : Bool
  actor : Str
  ownersResult : Except Unit (List Str)
  grantedByUs : Str → Bool
  revokeMemberOk : Bool
  execOk : Stmt → Bool
  commitOk : Bool
  txn2Ok : Bool
  readOk : Bool
  checkExists : Except Unit Bool

/-- Modelled from the spec: `withRolesGranted` applies the elevation
protocol of the spec to each role of the list — attempt the membership
grant for every role, run the wrapped unit of work, then on every exit
path revoke exactly the memberships granted by this call, merging a
failure of the revoke itself into the returned error. -/
def withRolesGranted (o : GrantOracle) (roles : List Str)
    (fn : List Ev × Except OpErr Unit) : List Ev × Except OpErr Unit :=
  let gevs := roles.map fun r => Ev.grantMember r o.actor
  let revs := (roles.filter o.grantedByUs).map
    fun r => Ev.revokeMember r o.actor
  match fn with
  | (fevs, Except.error e) => (gevs ++ fevs ++ revs, Except.error e)
  | (fevs, Except.ok ()) =>
    if o.revokeMemberOk then (gevs ++ fevs ++ revs, Except.ok ())
    else (gevs ++ fevs ++ revs, Except.error OpErr.revokeMembershipFailed)

/-- The unit of work wrapped by `resourcePostgreSQLGrantCreate`
(lines 161-171): `revokeRolePrivileges` first — REVOKE ALL in the same
transaction so the role keeps its privileges between the statements — then
`grantRolePrivileges`, aborting on the first failure. -/
def grantCreateFn (inp : GrantInput) (o : GrantOracle) :
    List Ev × Except OpErr Unit :=
  let rq := Stmt.raw (createRevokeQuery inp)
  let gq := Stmt.raw (createGrantQuery inp)
  if o.execOk rq then
    if o.execOk gq then ([Ev.exec rq, Ev.exec gq], Except.ok ())
    else ([Ev.exec rq, Ev.exec gq], Except.error (OpErr.execFailed gq))
  else ([Ev.exec rq], Except.error (OpErr.execFailed rq))

/-- The post-commit re-read of the created grant (`readRolePrivileges` in a
fresh transaction, lines 181-188), compressed to its transaction, catalog
query and outcome. -/
def grantReadTail (o : GrantOracle) : List Ev × Except OpErr Unit :=
  if !o.txn2Ok then ([], Except.error OpErr.txnFailed)
  else
    ([Ev.beginTxn,
      Ev.query (str "SELECT privilege_type, grantable FROM information_schema ... WHERE grantee = $1"),
      Ev.rollbackCall],
     if o.readOk then Except.ok () else Except.error OpErr.readFailed)

/-- Body of `resourcePostgreSQLGrantCreate` (lines 147-188), after the
write lock is held and the transaction open: fetch the schema owners
(skipped for object type "database"), run the revoke-then-grant unit of
work under `withRolesGranted`, commit, then re-read. -/
def grantCreateBody (inp : GrantInput) (o : GrantOracle) :
    List Ev × Except OpErr Unit :=
  match (if inp.objectType = str "database" then Except.ok ([] : List Str)
         else o.ownersResult) with
  | Except.error _ => ([], Except.error OpErr.ownersFailed)
  | Except.ok owners =>
    match withRolesGranted o owners (grantCreateFn inp o) with
    | (wevs, Except.error e) => (wevs, Except.error e)
    | (wevs, Except.ok ()) =>
      if o.commitOk then
        let rd := grantReadTail o
        (wevs ++ [Ev.commit] ++ rd.1, rd.2)
      else (wevs ++ [Ev.commit], Except.error OpErr.commitFailed)

/-- `resourcePostgreSQLGrantCreate` (lines 127-189): feature and privilege
validation, then the write lock and transaction around the body (deferred
rollback and unlock on every return). -/
def grantCreate (inp : GrantInput) (o : GrantOracle) :
    List Ev × Except OpErr Unit :=
  if !o.featureOk then ([], Except.error OpErr.featureUnsupported)
  else if !o.validateOk then ([], Except.error OpErr.validateFailed)
  else if !o.txnOk then
    ([Ev.lock true, Ev.unlock true], Except.error OpErr.txnFailed)
  else
    let b := grantCreateBody inp o
    ([Ev.lock true, Ev.beginTxn] ++ b.1 ++ [Ev.rollbackCall, Ev.unlock true],
      b.2)

theorem withRolesGranted_ok (o : GrantOracle) (roles : List Str)
    (fn : List Ev × Except OpErr Unit)
    (h : (withRolesGranted o roles fn).2 = Except.ok ()) :
    (withRolesGranted o roles fn).1 =
      (roles.map fun r => Ev.grantMember r o.actor) ++ fn.1 ++
        ((roles.filter o.grantedByUs).map
          fun r => Ev.revokeMember r o.actor) ∧
      fn.2 = Except.ok () := by
  rcases hfn : fn with ⟨fevs, rf⟩
  rcases rf with e | u
  · simp only [withRolesGranted, hfn] at h
    simp at h
  · obtain ⟨⟩ := u
    cases hrv : o.revokeMemberOk with
    | false =>
      simp only [withRolesGranted, hfn, hrv, Bool.false_eq_true,
        if_false] at h
      simp at h
    | true =>
      constructor
      · simp only [withRolesGranted, hfn, hrv, if_true]
      · rfl

theorem grantCreateFn_ok (inp : GrantInput) (o : GrantOracle)
    (h : (grantCreateFn inp o).2 = Except.ok ()) :
    (grantCreateFn inp o).1 =
      [Ev.exec (Stmt.raw (createRevokeQuery inp)),
       Ev.exec (Stmt.raw (createGrantQuery inp))] := by
  cases h1 : o.execOk (Stmt.raw (createRevokeQuery inp)) with
  | false =>
    simp only [grantCreateFn, h1, Bool.false_eq_true, if_false] at h
    simp at h
  | true =>
    cases h2 : o.execOk (Stmt.raw (createGrantQuery inp)) with
    | false =>
      simp only [grantCreateFn, h1, h2, Bool.false_eq_true, if_true,
        if_false] at h
      simp at h
    | true =>
      simp only [grantCreateFn, h1, h2, if_true]

theorem grantCreateBody_ok_order (inp : GrantInput) (o : GrantOracle)
    (hres : (grantCreateBody inp o).2 = Except.ok ()) :
    ∃ owners,
      (inp.objectType = str "database" → owners = []) ∧
      (¬ inp.objectType = str "database" →
        o.ownersResult = Except.ok owners) ∧
      (grantCreateBody inp o).1 =
        (owners.map fun r => Ev.grantMember r o.actor) ++
        [Ev.exec (Stmt.raw (createRevokeQuery inp)),
         Ev.exec (Stmt.raw (createGrantQuery inp))] ++
        ((owners.filter o.grantedByUs).map
          fun r => Ev.revokeMember r o.actor) ++
        [Ev.commit] ++ (grantReadTail o).1 := by
  by_cases hdb : inp.objectType = str "database"
  · refine ⟨[], fun _ => rfl, fun hn => absurd hdb hn, ?_⟩
    rcases hw : withRolesGranted o [] (grantCreateFn inp o) with ⟨wevs, rwr⟩
    rcases rwr with e | u
    · simp only [grantCreateBody, hdb, eq_self_iff_true, if_true, hw]
        at hres
      simp at hres
    · obtain ⟨⟩ := u
      cases hc : o.commitOk with
      | false =>
        simp only [grantCreateBody, hdb, eq_self_iff_true, if_true, hw, hc,
          Bool.false_eq_true, if_false] at hres
        simp at hres
      | true =>
        obtain ⟨htr, hfn2⟩ := withRolesGranted_ok o [] (grantCreateFn inp o)
          (by rw [hw])
        rw [hw] at htr
        have htr' : wevs = ([] : List Str).map (fun r =>
            Ev.grantMember r o.actor) ++ (grantCreateFn inp o).1 ++
            (([] : List Str).filter o.grantedByUs).map
              (fun r => Ev.revokeMember r o.actor) := htr
        have hfn1 := grantCreateFn_ok inp o hfn2
        simp only [grantCreateBody, hdb, eq_self_iff_true, if_true, hw, hc]
        rw [htr', hfn1]
  · refine ?_
    rcases how : o.ownersResult with e | owners
    · simp only [grantCreateBody, if_neg hdb, how] at hres
      simp at hres
    · refine ⟨owners, fun hy => absurd hy hdb, fun _ => rfl, ?_⟩
      rcases hw : withRolesGranted o owners (grantCreateFn inp o)
        with ⟨wevs, rwr⟩
      rcases rwr with e | u
      · simp only [grantCreateBody, if_neg hdb, how, hw] at hres
        simp at hres
      · obtain ⟨⟩ := u
        cases hc : o.commitOk with
        | false =>
          simp only [grantCreateBody, if_neg hdb, how, hw, hc,
            Bool.false_eq_true, if_false] at hres
          simp at hres
        | true =>
          obtain ⟨htr, hfn2⟩ := withRolesGranted_ok o owners
            (grantCreateFn inp o) (by rw [hw])
          rw [hw] at htr
          have htr' : wevs = owners.map (fun r =>
              Ev.grantMember r o.actor) ++ (grantCreateFn inp o).1 ++
              (owners.filter o.grantedByUs).map
                (fun r => Ev.revokeMember r o.actor) := htr
          have hfn1 := grantCreateFn_ok inp o hfn2
          simp only [grantCreateBody, if_neg hdb, how, hw, hc]
          rw [htr', hfn1]
          simp

/-- C4: on every successful grant create/update run the statements execute
strictly in the order elevation grants, then the REVOKE ALL PRIVILEGES
statement for the role, then the GRANT statement for the declared
privileges, then the elevation revokes, then the commit — in particular the
revoke statement always precedes the grant statement for the role inside
the same transaction. -/
theorem grantCreate_statement_order (inp : GrantInput) (o : GrantOracle)
    (hres : (grantCreate inp o).2 = Except.ok ()) :
    ∃ owners,
      (inp.objectType = str "database" → owners = []) ∧
      (¬ inp.objectType = str "database" →
        o.ownersResult = Except.ok owners) ∧
      (grantCreate inp o).1 =
        [Ev.lock true, Ev.beginTxn] ++
        (owners.map fun r => Ev.grantMember r o.actor) ++
        [Ev.exec (Stmt.raw (createRevokeQuery inp)),
         Ev.exec (Stmt.raw (createGrantQuery inp))] ++
        ((owners.filter o.grantedByUs).map
          fun r => Ev.revokeMember r o.actor) ++
        [Ev.commit] ++ (grantReadTail o).1 ++
        [Ev.rollbackCall, Ev.unlock true] := by
  cases hfeat : o.featureOk with
  | false => simp [grantCreate, hfeat] at hres
  | true =>
  cases hval : o.validateOk with
  | false => simp [grantCreate, hfeat, hval] at hres
  | true =>
  cases htx : o.txnOk with
  | false => simp [grantCreate, hfeat, hval, htx] at hres
  | true =>
  have hb2 : (grantCreate inp o).2 = (grantCreateBody inp o).2 := by
    simp [grantCreate, hfeat, hval, htx]
  have hb1 : (grantCreate inp o).1 = [Ev.lock true, Ev.beginTxn] ++
      (grantCreateBody inp o).1 ++ [Ev.rollbackCall, Ev.unlock true] := by
    simp [grantCreate, hfeat, hval, htx]
  rw [hb2] at hres
  obtain ⟨owners, h1, h2, h3⟩ := grantCreateBody_ok_order inp o hres
  refine ⟨owners, h1, h2, ?_⟩
  rw [hb1, h3]
  simp

/-- A fixed grant-resource input: SELECT on all tables of schema "s" for
role "app". -/
def sampleGrantInput : GrantInput :=
  { role := str "app", database := str "db", schemaName := str "s",
    objectType := str "table", tables := [], privileges := [str "SELECT"],
    withGrantOption := false }

/-- Grant-resource database responses for a run in which every step
succeeds; the schema has one table owner, borrowed by the elevation. -/
def sampleGrantOracleOk : GrantOracle :=
  { featureOk := true, validateOk := true, txnOk := true, actor := str "usr",
    ownersResult := Except.ok [str "own1"], grantedByUs := fun _ => true,
    revokeMemberOk := true, execOk := fun _ => true, commitOk := true,
    txn2Ok := true, readOk := true, checkExists := Except.ok true }

/-- Witness: the all-success grant create run on the fixed input yields the
claimed statement order. -/
theorem grantCreate_statement_order_witness :
    ∃ owners,
      (sampleGrantInput.objectType = str "database" → owners = []) ∧
      (¬ sampleGrantInput.objectType = str "database" →
        sampleGrantOracleOk.ownersResult = Except.ok owners) ∧
      (grantCreate sampleGrantInput sampleGrantOracleOk).1 =
        [Ev.lock true, Ev.beginTxn] ++
        (owners.map fun r => Ev.grantMember r sampleGrantOracleOk.actor) ++
        [Ev.exec (Stmt.raw (createRevokeQuery sampleGrantInput)),
         Ev.exec (Stmt.raw (createGrantQuery sampleGrantInput))] ++
        ((owners.filter sampleGrantOracleOk.grantedByUs).map
          fun r => Ev.revokeMember r sampleGrantOracleOk.actor) ++
        [Ev.commit] ++ (grantReadTail sampleGrantOracleOk).1 ++
        [Ev.rollbackCall, Ev.unlock true] :=
  grantCreate_statement_order sampleGrantInput sampleGrantOracleOk rfl

/- ===================== extension resource ===================== -/

/-- Declared state of one `postgresql_extension` resource. -/
structure ExtInput where
  extName : Str
  extSchema : Option Str
  extVersion : Option Str
  hasChangeSchema : Bool
  newSchema : Str
  hasChangeVersion : Bool
  newVersion : Str
deriving DecidableEq, Repr

/-- Database responses consumed by one extension operation. -/
structure ExtOracle where
  featureOk : Bool
  txnOk : Bool
  extRow : RowResult
  execOk : Stmt → Bool
  commitOk : Bool

/-- The `CREATE EXTENSION` statement built by the create path
(resource_postgresql_extension.go lines 77-86). -/
def createExtensionSql (inp : ExtInput) : Str :=
  str "CREATE EXTENSION IF NOT EXISTS " ++ quoteIdentifier inp.extName ++
    (match inp.extSchema with
     | some s => str " SCHEMA " ++ quoteIdentifier s
     | none => []) ++
    (match inp.extVersion with
     | some v => str " VERSION " ++ quoteIdentifier v
     | none => [])

/-- The catalog query of `resourcePostgreSQLExtensionReadImpl`
(lines 166-168). -/
def extReadSql : Str :=
  str "SELECT e.extname, n.nspname, e.extversion FROM pg_catalog.pg_extension e, pg_catalog.pg_namespace n WHERE n.oid = e.extnamespace AND e.extname = $1"

/-- `resourcePostgreSQLExtensionReadImpl` (lines 160-190): transaction,
catalog query and outcome; takes no lock of its own. -/
def extensionReadImplBody (o : ExtOracle) : List Ev × Except OpErr Unit :=
  if !o.txnOk then ([], Except.error OpErr.txnFailed)
  else
    ([Ev.beginTxn, Ev.query extReadSql, Ev.rollbackCall],
     match o.extRow with
     | RowResult.dbError => Except.error OpErr.readFailed
     | _ => Except.ok ())

/-- `resourcePostgreSQLExtensionRead` (lines 144-158): read lock around
the read implementation. -/
def extensionRead (o : ExtOracle) : List Ev × Except OpErr Unit :=
  if !o.featureOk then ([], Except.error OpErr.featureUnsupported)
  else
    let b := extensionReadImplBody o
    ([Ev.lock false] ++ b.1 ++ [Ev.unlock false], b.2)

/-- `resourcePostgreSQLExtensionCreate` (lines 62-108): write lock,
transaction, CREATE EXTENSION, commit, then the read implementation under
the same lock. -/
def extensionCreate (inp : ExtInput) (o : ExtOracle) :
    List Ev × Except OpErr Unit :=
  if !o.featureOk then ([], Except.error OpErr.featureUnsupported)
  else if !o.txnOk then
    ([Ev.lock true, Ev.unlock true], Except.error OpErr.txnFailed)
  else
    let s := Stmt.raw (createExtensionSql inp)
    if !(o.execOk s) then
      ([Ev.lock true, Ev.beginTxn, Ev.exec s, Ev.rollbackCall,
        Ev.unlock true], Except.error (OpErr.execFailed s))
    else if !o.commitOk then
      ([Ev.lock true, Ev.beginTxn, Ev.exec s, Ev.commit, Ev.rollbackCall,
        Ev.unlock true], Except.error OpErr.commitFailed)
    else
      let rd := extensionReadImplBody o
      ([Ev.lock true, Ev.beginTxn, Ev.exec s, Ev.commit] ++ rd.1 ++
        [Ev.rollbackCall, Ev.unlock true], rd.2)

/-- The existence query of `resourcePostgreSQLExtensionExists`
(line 131). -/
def extExistsSql : Str :=
  str "SELECT extname FROM pg_catalog.pg_extension WHERE extname = $1"

/-- `resourcePostgreSQLExtensionExists` (lines 110-141): despite being a
read-only existence probe, it acquires the catalog lock in WRITE mode
(`c.catalogLock.Lock()`, line 120). -/
def extensionExists (o : ExtOracle) : List Ev × Except OpErr Bool :=
  if !o.featureOk then ([], Except.error OpErr.featureUnsupported)
  else if !o.txnOk then
    ([Ev.lock true, Ev.unlock true], Except.error OpErr.txnFailed)
  else
    ([Ev.lock true, Ev.beginTxn, Ev.query extExistsSql, Ev.rollbackCall,
      Ev.unlock true],
     match o.extRow with
     | RowResult.noRows => Except.ok false
     | RowResult.dbError => Except.error OpErr.readFailed
     | RowResult.found => Except.ok true)

/-- The `DROP EXTENSION` statement of the delete path (line 210). -/
def dropExtensionSql (inp : ExtInput) : Str :=
  str "DROP EXTENSION " ++ quoteIdentifier inp.extName

/-- `resourcePostgreSQLExtensionDelete` (lines 192-226). -/
def extensionDelete (inp : ExtInput) (o : ExtOracle) :
    List Ev × Except OpErr Unit :=
  if !o.featureOk then ([], Except.error OpErr.featureUnsupported)
  else if !o.txnOk then
    ([Ev.lock true, Ev.unlock true], Except.error OpErr.txnFailed)
  else
    let s := Stmt.raw (dropExtensionSql inp)
    if !(o.execOk s) then
      ([Ev.lock true, Ev.beginTxn, Ev.exec s, Ev.rollbackCall,
        Ev.unlock true], Except.error (OpErr.execFailed s))
    else if !o.commitOk then
      ([Ev.lock true, Ev.beginTxn, Ev.exec s, Ev.commit, Ev.rollbackCall,
        Ev.unlock true], Except.error OpErr.commitFailed)
    else
      ([Ev.lock true, Ev.beginTxn, Ev.exec s, Ev.commit, Ev.rollbackCall,
        Ev.unlock true], Except.ok ())

/-- `setExtSchema` (lines 265-284). -/
def setExtSchemaStep (execOk : Stmt → Bool) (inp : ExtInput) :
    List Ev × Except OpErr Unit :=
  if !inp.hasChangeSchema then ([], Except.ok ())
  else if inp.newSchema = [] then ([], Except.error OpErr.emptyName)
  else
    let s := Stmt.raw (str "ALTER EXTENSION " ++
      quoteIdentifier inp.extName ++ str " SET SCHEMA " ++
      quoteIdentifier inp.newSchema)
    if execOk s then ([Ev.exec s], Except.ok ())
    else ([Ev.exec s], Except.error (OpErr.execFailed s))

/-- `setExtVersion` (lines 286-308). -/
def setExtVersionStep (execOk : Stmt → Bool) (inp : ExtInput) :
    List Ev × Except OpErr Unit :=
  if !inp.hasChangeVersion then ([], Except.ok ())
  else
    let s := Stmt.raw (str "ALTER EXTENSION " ++
      quoteIdentifier inp.extName ++ str " UPDATE" ++
      (if inp.newVersion ≠ [] then
        str " TO " ++ quoteIdentifier inp.newVersion else []))
    if execOk s then ([Ev.exec s], Except.ok ())
    else ([Ev.exec s], Except.error (OpErr.execFailed s))

/-- Body of `resourcePostgreSQLExtensionUpdate` (lines 248-262):
`setExtSchema`, then `setExtVersion`, then commit and re-read. -/
def extensionUpdateBody (inp : ExtInput) (o : ExtOracle) :
    List Ev × Except OpErr Unit :=
  match setExtSchemaStep o.execOk inp with
  | (evs, Except.error e) => (evs, Except.error e)
  | (evs, Except.ok ()) =>
    match setExtVersionStep o.execOk inp with
    | (evs', Except.error e) => (evs ++ evs', Except.error e)
    | (evs', Except.ok ()) =>
      if !o.commitOk then
        (evs ++ evs' ++ [Ev.commit], Except.error OpErr.commitFailed)
      else
        let rd := extensionReadImplBody o
        (evs ++ evs' ++ [Ev.commit] ++ rd.1, rd.2)

/-- `resourcePostgreSQLExtensionUpdate` (lines 228-263): write lock and
transaction around the body. -/
def extensionUpdate (inp : ExtInput) (o : ExtOracle) :
    List Ev × Except OpErr Unit :=
  if !o.featureOk then ([], Except.error OpErr.featureUnsupported)
  else if !o.txnOk then
    ([Ev.lock true, Ev.unlock true], Except.error OpErr.txnFailed)
  else
    let b := extensionUpdateBody inp o
    ([Ev.lock true, Ev.beginTxn] ++ b.1 ++ [Ev.rollbackCall,
      Ev.unlock true], b.2)

/- ===================== grant read and delete ===================== -/

/-- The existence probes of `checkRoleDBSchemaExists`
(resource_postgresql_grant.go lines 535-585), compressed to one marker
query in their own transaction. -/
def checkRoleDBSchemaSql : Str :=
  str "SELECT 1 FROM pg_roles, pg_database, pg_namespace (role, database and schema existence)"

/-- Body of `resourcePostgreSQLGrantRead` (lines 92-125): existence check
in its own transaction; when the triple exists, a fresh transaction
re-reads the privileges. -/
def grantReadBody (o : GrantOracle) : List Ev × Except OpErr Unit :=
  if !o.txnOk then ([], Except.error OpErr.txnFailed)
  else
    let c := [Ev.beginTxn, Ev.query checkRoleDBSchemaSql, Ev.rollbackCall]
    match o.checkExists with
    | Except.error _ => (c, Except.error OpErr.readFailed)
    | Except.ok false => (c, Except.ok ())
    | Except.ok true =>
      let rd := grantReadTail o
      (c ++ rd.1, rd.2)

/-- `resourcePostgreSQLGrantRead` (lines 92-125): read lock around the
body. -/
def grantRead (o : GrantOracle) : List Ev × Except OpErr Unit :=
  if !o.featureOk then ([], Except.error OpErr.featureUnsupported)
  else
    let b := grantReadBody o
    ([Ev.lock false] ++ b.1 ++ [Ev.unlock false], b.2)

/-- The unit of work wrapped by `resourcePostgreSQLGrantDelete`
(lines 215-217): `revokeRolePrivileges` alone. -/
def grantDeleteFn (inp : GrantInput) (o : GrantOracle) :
    List Ev × Except OpErr Unit :=
  let rq := Stmt.raw (createRevokeQuery inp)
  if o.execOk rq then ([Ev.exec rq], Except.ok ())
  else ([Ev.exec rq], Except.error (OpErr.execFailed rq))

/-- Body of `resourcePostgreSQLGrantDelete` (lines 203-225). -/
def grantDeleteBody (inp : GrantInput) (o : GrantOracle) :
    List Ev × Except OpErr Unit :=
  match (if inp.objectType = str "database" then Except.ok ([] : List Str)
         else o.ownersResult) with
  | Except.error _ => ([], Except.error OpErr.ownersFailed)
  | Except.ok owners =>
    match withRolesGranted o owners (grantDeleteFn inp o) with
    | (wevs, Except.error e) => (wevs, Except.error e)
    | (wevs, Except.ok ()) =>
      if o.commitOk then (wevs ++ [Ev.commit], Except.ok ())
      else (wevs ++ [Ev.commit], Except.error OpErr.commitFailed)

/-- `resourcePostgreSQLGrantDelete` (lines 191-226): write lock and
transaction around the body. -/
def grantDelete (inp : GrantInput) (o : GrantOracle) :
    List Ev × Except OpErr Unit :=
  if !o.featureOk then ([], Except.error OpErr.featureUnsupported)
  else if !o.txnOk then
    ([Ev.lock true, Ev.unlock true], Except.error OpErr.txnFailed)
  else
    let b := grantDeleteBody inp o
    ([Ev.lock true, Ev.beginTxn] ++ b.1 ++ [Ev.rollbackCall,
      Ev.unlock true], b.2)

/-- Whether an event is a catalog-lock acquisition or release. -/
def evIsLock : Ev → Bool
  | Ev.lock _ => true
  | Ev.unlock _ => true
  | _ => false

theorem no_lock_append {l₁ l₂ : List Ev}
    (h₁ : ∀ ev ∈ l₁, evIsLock ev = false)
    (h₂ : ∀ ev ∈ l₂, evIsLock ev = false) :
    ∀ ev ∈ l₁ ++ l₂, evIsLock ev = false := by
  intro ev hev
  rcases List.mem_append.mp hev with h | h
  · exact h₁ ev h
  · exact h₂ ev h

theorem filter_lock_nil {l : List Ev}
    (h : ∀ ev ∈ l, evIsLock ev = false) : l.filter evIsLock = [] := by
  rw [List.filter_eq_nil_iff]
  intro a ha
  simp [h a ha]

theorem execLoop_no_lock (execOk : Stmt → Bool) :
    ∀ (qs : List Stmt) (ev : Ev), ev ∈ (execLoop execOk qs).1 →
      evIsLock ev = false := by
  intro qs
  induction qs with
  | nil => intro ev hev; simp [execLoop] at hev
  | cons s rest ih =>
    intro ev hev
    simp only [execLoop] at hev
    by_cases hx : execOk s
    · rw [if_pos hx] at hev
      rcases List.mem_cons.mp hev with rfl | hev'
      · rfl
      · exact ih ev hev'
    · rw [if_neg hx] at hev
      rcases List.mem_singleton.mp hev with rfl
      rfl

theorem droppedStep_no_lock (roleCheck : Str → RowResult)
    (schemaName : Str) :
    ∀ (d : Keyed SchemaPolicyMap) (ev : Ev),
      ev ∈ (droppedStep roleCheck schemaName d).1 → evIsLock ev = false := by
  intro d
  induction d with
  | nil => intro ev hev; simp [droppedStep] at hev
  | cons kp rest ih =>
    obtain ⟨k₀, p₀⟩ := kp
    intro ev hev
    simp only [droppedStep] at hev
    by_cases hr : (schemaPolicyToACL p₀).role = []
    · rw [if_pos hr] at hev
      exact ih ev hev
    · rw [if_neg hr] at hev
      rcases hc : roleCheck (schemaPolicyToACL p₀).role with _ | _ | _ <;>
        rw [hc] at hev
      · rcases List.mem_cons.mp hev with rfl | hev'
        · rfl
        · exact ih ev hev'
      · rcases List.mem_cons.mp hev with rfl | hev'
        · rfl
        · exact ih ev hev'
      · rcases List.mem_singleton.mp hev with rfl
        rfl

theorem setSchemaPolicyStep_no_lock (roleCheck : Str → RowResult)
    (execOk : Stmt → Bool) (hasChange : Bool) (schemaName : Str)
    (oldL newL : List SchemaPolicyMap) (ev : Ev)
    (hev : ev ∈ (setSchemaPolicyStep roleCheck execOk hasChange schemaName
      oldL newL).1) : evIsLock ev = false := by
  unfold setSchemaPolicyStep at hev
  by_cases hc : hasChange
  · rw [if_neg (by simp [hc])] at hev
    unfold schemaPolicyQueriesBuild at hev
    rcases hd : droppedStep roleCheck schemaName
        (schemaChangedPolicies oldL newL).1 with ⟨evs, r⟩
    rw [hd] at hev
    rcases r with e | qd
    · exact droppedStep_no_lock roleCheck schemaName _ ev
        (by rw [hd]; exact hev)
    · rcases List.mem_append.mp hev with h | h
      · exact droppedStep_no_lock roleCheck schemaName _ ev
          (by rw [hd]; exact h)
      · exact execLoop_no_lock execOk _ ev h
  · rw [if_pos (by simp [hc])] at hev
    simp at hev

theorem setSchemaOwnerStep_no_lock (execOk : Stmt → Bool)
    (hasChange : Bool) (schemaName schemaOwner : Str) (ev : Ev)
    (hev : ev ∈ (setSchemaOwnerStep execOk hasChange schemaName
      schemaOwner).1) : evIsLock ev = false := by
  unfold setSchemaOwnerStep at hev
  by_cases hc : hasChange
  · rw [if_neg (by simp [hc])] at hev
    by_cases ho : schemaOwner = []
    · rw [if_pos ho] at hev; simp at hev
    · rw [if_neg ho] at hev
      by_cases hx : execOk (Stmt.raw (str "ALTER SCHEMA " ++
          quoteIdentifier schemaName ++ str " OWNER TO " ++
          quoteIdentifier schemaOwner))
      · rw [if_pos hx] at hev
        rcases List.mem_singleton.mp hev with rfl
        rfl
      · rw [if_neg hx] at hev
        rcases List.mem_singleton.mp hev with rfl
        rfl
  · rw [if_pos (by simp [hc])] at hev
    simp at hev

theorem setSchemaNameStep_no_lock (execOk : Stmt → Bool)
    (hasChange : Bool) (oldName newName : Str) (ev : Ev)
    (hev : ev ∈ (setSchemaNameStep execOk hasChange oldName newName).1) :
    evIsLock ev = false := by
  unfold setSchemaNameStep at hev
  by_cases hc : hasChange
  · rw [if_neg (by simp [hc])] at hev
    by_cases ho : newName = []
    · rw [if_pos ho] at hev; simp at hev
    · rw [if_neg ho] at hev
      by_cases hx : execOk (Stmt.raw (str "ALTER SCHEMA " ++
          quoteIdentifier oldName ++ str " RENAME TO " ++
          quoteIdentifier newName))
      · rw [if_pos hx] at hev
        rcases List.mem_singleton.mp hev with rfl
        rfl
      · rw [if_neg hx] at hev
        rcases List.mem_singleton.mp hev with rfl
        rfl
  · rw [if_pos (by simp [hc])] at hev
    simp at hev

theorem schemaReadImplBody_no_lock (o : SchemaOracle) (ev : Ev)
    (hev : ev ∈ (schemaReadImplBody o).1) : evIsLock ev = false := by
  unfold schemaReadImplBody at hev
  rcases List.mem_cons.mp hev with rfl | hev'
  · rfl
  rcases List.mem_cons.mp hev' with rfl | hev''
  · rfl
  rcases List.mem_singleton.mp hev'' with rfl
  rfl

theorem schemaCreatePre_no_lock (inp : SchemaInput) (o : SchemaOracle)
    (ev : Ev) (hev : ev ∈ (schemaCreatePre inp o).1) :
    evIsLock ev = false := by
  unfold schemaCreatePre at hev
  rcases hp : o.schemaPreFound with _ | _ | _ <;> rw [hp] at hev
  · rcases List.mem_singleton.mp hev with rfl
    rfl
  all_goals {
    rcases hs : setSchemaOwnerStep o.execOk inp.hasChangeOwner inp.schemaName
        inp.schemaOwner with ⟨evs, r⟩
    rw [hs] at hev
    rcases r with e | u
    · rcases List.mem_cons.mp hev with rfl | hev'
      · rfl
      · exact setSchemaOwnerStep_no_lock _ _ _ _ ev (by rw [hs]; exact hev')
    · rcases List.mem_cons.mp hev with rfl | hev'
      · rfl
      · exact setSchemaOwnerStep_no_lock _ _ _ _ ev (by rw [hs]; exact hev') }

theorem schemaUpdateMid_no_lock (inp : SchemaInput) (o : SchemaOracle)
    (ev : Ev) (hev : ev ∈ (schemaUpdateMid inp o).1) :
    evIsLock ev = false := by
  unfold schemaUpdateMid at hev
  rcases hn : setSchemaNameStep o.execOk inp.hasChangeName inp.oldName
      inp.schemaName with ⟨evs, r⟩
  rw [hn] at hev
  rcases r with e | u
  · exact setSchemaNameStep_no_lock _ _ _ _ ev (by rw [hn]; exact hev)
  · obtain ⟨⟩ := u
    rcases ho : setSchemaOwnerStep o.execOk inp.hasChangeOwner inp.schemaName
        inp.schemaOwner with ⟨evs', r'⟩
    rw [ho] at hev
    rcases r' with e | u'
    · rcases List.mem_append.mp hev with h | h
      · exact setSchemaNameStep_no_lock _ _ _ _ ev (by rw [hn]; exact h)
      · exact setSchemaOwnerStep_no_lock _ _ _ _ ev (by rw [ho]; exact h)
    · obtain ⟨⟩ := u'
      rcases hpol : setSchemaPolicyStep o.roleCheck o.execOk
          inp.hasChangePolicy inp.schemaName inp.oldPolicies
          inp.newPolicies with ⟨evs'', r''⟩
      rw [hpol] at hev
      rcases List.mem_append.mp hev with h | h
      · rcases List.mem_append.mp h with h' | h'
        · exact setSchemaNameStep_no_lock _ _ _ _ ev (by rw [hn]; exact h')
        · exact setSchemaOwnerStep_no_lock _ _ _ _ ev (by rw [ho]; exact h')
      · exact setSchemaPolicyStep_no_lock _ _ _ _ _ _ ev
          (by rw [hpol]; exact h)

theorem withOwnerElevation_no_lock (o : SchemaOracle) (owner user : Str)
    (mid : List Ev × Except OpErr Unit)
    (hmid : ∀ ev ∈ mid.1, evIsLock ev = false) :
    ∀ ev ∈ (withOwnerElevation o owner user mid).1, evIsLock ev = false := by
  intro ev hev
  by_cases how : owner = []
  · rw [how, withOwnerElevation_no_owner] at hev
    exact hmid ev hev
  · unfold withOwnerElevation at hev
    rw [if_neg how] at hev
    rcases hg : o.grantResult with e | g <;> rw [hg] at hev
    · rcases List.mem_singleton.mp hev with rfl
      rfl
    · rcases hmd : mid with ⟨mevs, r⟩
      rw [hmd] at hev
      rw [hmd] at hmid
      rcases r with e | u
      · rcases List.mem_cons.mp hev with rfl | hev'
        · rfl
        · exact hmid ev hev'
      · obtain ⟨⟩ := u
        cases g with
        | false =>
          simp only [Bool.false_eq_true, if_false] at hev
          rcases List.mem_cons.mp hev with rfl | hev'
          · rfl
          · exact hmid ev hev'
        | true =>
          simp only [if_pos rfl] at hev
          by_cases hrv : o.revokeOk
          · rw [if_pos hrv] at hev
            rcases List.mem_cons.mp hev with rfl | hev'
            · rfl
            · rcases List.mem_append.mp hev' with h | h
              · exact hmid ev h
              · rcases List.mem_singleton.mp h with rfl
                rfl
          · rw [if_neg hrv] at hev
            rcases List.mem_cons.mp hev with rfl | hev'
            · rfl
            · rcases List.mem_append.mp hev' with h | h
              · exact hmid ev h
              · rcases List.mem_singleton.mp h with rfl
                rfl

theorem schemaCreateBody_no_lock (inp : SchemaInput) (o : SchemaOracle) :
    ∀ ev ∈ (schemaCreateBody inp o).1, evIsLock ev = false := by
  intro ev hev
  rcases hpre : schemaCreatePre inp o with ⟨evs₀, r₀⟩
  have hpre' : ∀ e ∈ evs₀, evIsLock e = false := fun e he =>
    schemaCreatePre_no_lock inp o e (by rw [hpre]; exact he)
  rcases r₀ with e₀ | qs₀
  · simp only [schemaCreateBody, hpre] at hev
    exact hpre' ev hev
  · rcases hel : withOwnerElevation o inp.schemaOwner inp.currentUser
        (execLoop o.execOk (qs₀ ++ policyGrantQueries inp.schemaName
          (buildPolicyACLMap inp.policies))) with ⟨evs₁, r₁⟩
    have hel' : ∀ e ∈ evs₁, evIsLock e = false := fun e he =>
      withOwnerElevation_no_lock o inp.schemaOwner inp.currentUser _
        (fun x hx => execLoop_no_lock o.execOk _ x hx) e
        (by rw [hel]; exact he)
    rcases r₁ with e₁ | u
    · simp only [schemaCreateBody, hpre, hel] at hev
      rcases List.mem_append.mp hev with h | h
      · exact hpre' ev h
      · exact hel' ev h
    · obtain ⟨⟩ := u
      cases hc : o.commitOk with
      | false =>
        simp only [schemaCreateBody, hpre, hel, hc, Bool.false_eq_true,
          if_false] at hev
        rcases List.mem_append.mp hev with h | h
        · rcases List.mem_append.mp h with h' | h'
          · exact hpre' ev h'
          · exact hel' ev h'
        · rcases List.mem_singleton.mp h with rfl
          rfl
      | true =>
        simp only [schemaCreateBody, hpre, hel, hc, if_true] at hev
        rcases List.mem_append.mp hev with h | h
        · rcases List.mem_append.mp h with h' | h'
          · rcases List.mem_append.mp h' with h'' | h''
            · exact hpre' ev h''
            · exact hel' ev h''
          · rcases List.mem_singleton.mp h' with rfl
            rfl
        · exact schemaReadImplBody_no_lock o ev h

theorem schemaDeleteBody_no_lock (inp : SchemaInput) (o : SchemaOracle) :
    ∀ ev ∈ (schemaDeleteBody inp o).1, evIsLock ev = false := by
  intro ev hev
  rcases hel : withOwnerElevation o inp.schemaOwner inp.currentUser
      (execLoop o.execOk [dropSchemaSql inp]) with ⟨evs₁, r₁⟩
  have hel' : ∀ e ∈ evs₁, evIsLock e = false := fun e he =>
    withOwnerElevation_no_lock o inp.schemaOwner inp.currentUser _
      (fun x hx => execLoop_no_lock o.execOk _ x hx) e
      (by rw [hel]; exact he)
  rcases r₁ with e₁ | u
  · simp only [schemaDeleteBody, hel] at hev
    exact hel' ev hev
  · obtain ⟨⟩ := u
    cases hc : o.commitOk with
    | false =>
      simp only [schemaDeleteBody, hel, hc, Bool.false_eq_true,
        if_false] at hev
      rcases List.mem_append.mp hev with h | h
      · exact hel' ev h
      · rcases List.mem_singleton.mp h with rfl
        rfl
    | true =>
      simp only [schemaDeleteBody, hel, hc, if_true] at hev
      rcases List.mem_append.mp hev with h | h
      · exact hel' ev h
      · rcases List.mem_singleton.mp h with rfl
        rfl

theorem schemaUpdateBody_no_lock (inp : SchemaInput) (o : SchemaOracle) :
    ∀ ev ∈ (schemaUpdateBody inp o).1, evIsLock ev = false := by
  intro ev hev
  rcases hel : withOwnerElevation o inp.schemaOwner inp.currentUser
      (schemaUpdateMid inp o) with ⟨evs₁, r₁⟩
  have hel' : ∀ e ∈ evs₁, evIsLock e = false := fun e he =>
    withOwnerElevation_no_lock o inp.schemaOwner inp.currentUser _
      (fun x hx => schemaUpdateMid_no_lock inp o x hx) e
      (by rw [hel]; exact he)
  rcases r₁ with e₁ | u
  · simp only [schemaUpdateBody, hel] at hev
    exact hel' ev hev
  · obtain ⟨⟩ := u
    cases hc : o.commitOk with
    | false =>
      simp only [schemaUpdateBody, hel, hc, Bool.false_eq_true,
        if_false] at hev
      rcases List.mem_append.mp hev with h | h
      · exact hel' ev h
      · rcases List.mem_singleton.mp h with rfl
        rfl
    | true =>
      simp only [schemaUpdateBody, hel, hc, if_true] at hev
      rcases List.mem_append.mp hev with h | h
      · rcases List.mem_append.mp h with h' | h'
        · exact hel' ev h'
        · rcases List.mem_singleton.mp h' with rfl
          rfl
      · exact schemaReadImplBody_no_lock o ev h

theorem withRolesGranted_no_lock (o : GrantOracle) (roles : List Str)
    (fn : List Ev × Except OpErr Unit)
    (hfn : ∀ ev ∈ fn.1, evIsLock ev = false) :
    ∀ ev ∈ (withRolesGranted o roles fn).1, evIsLock ev = false := by
  intro ev hev
  have hg : ∀ ev ∈ roles.map (fun r => Ev.grantMember r o.actor),
      evIsLock ev = false := by
    intro e he
    obtain ⟨r, _, rfl⟩ := List.mem_map.mp he
    rfl
  have hr : ∀ ev ∈ (roles.filter o.grantedByUs).map
      (fun r => Ev.revokeMember r o.actor), evIsLock ev = false := by
    intro e he
    obtain ⟨r, _, rfl⟩ := List.mem_map.mp he
    rfl
  rcases hf : fn with ⟨fevs, rf⟩
  rw [hf] at hfn
  rcases rf with e | u
  · simp only [withRolesGranted, hf] at hev
    exact no_lock_append (no_lock_append hg hfn) hr ev hev
  · obtain ⟨⟩ := u
    cases hrv : o.revokeMemberOk with
    | false =>
      simp only [withRolesGranted, hf, hrv, Bool.false_eq_true,
        if_false] at hev
      exact no_lock_append (no_lock_append hg hfn) hr ev hev
    | true =>
      simp only [withRolesGranted, hf, hrv, if_true] at hev
      exact no_lock_append (no_lock_append hg hfn) hr ev hev

theorem grantCreateFn_no_lock (inp : GrantInput) (o : GrantOracle) :
    ∀ ev ∈ (grantCreateFn inp o).1, evIsLock ev = false := by
  intro ev hev
  unfold grantCreateFn at hev
  by_cases h1 : o.execOk (Stmt.raw (createRevokeQuery inp))
  · rw [if_pos h1] at hev
    by_cases h2 : o.execOk (Stmt.raw (createGrantQuery inp))
    · rw [if_pos h2] at hev
      rcases List.mem_cons.mp hev with rfl | hev'
      · rfl
      · rcases List.mem_singleton.mp hev' with rfl
        rfl
    · rw [if_neg h2] at hev
      rcases List.mem_cons.mp hev with rfl | hev'
      · rfl
      · rcases List.mem_singleton.mp hev' with rfl
        rfl
  · rw [if_neg h1] at hev
    rcases List.mem_singleton.mp hev with rfl
    rfl

theorem grantDeleteFn_no_lock (inp : GrantInput) (o : GrantOracle) :
    ∀ ev ∈ (grantDeleteFn inp o).1, evIsLock ev = false := by
  intro ev hev
  unfold grantDeleteFn at hev
  by_cases h1 : o.execOk (Stmt.raw (createRevokeQuery inp))
  · rw [if_pos h1] at hev
    rcases List.mem_singleton.mp hev with rfl
    rfl
  · rw [if_neg h1] at hev
    rcases List.mem_singleton.mp hev with rfl
    rfl

theorem grantReadTail_no_lock (o : GrantOracle) :
    ∀ ev ∈ (grantReadTail o).1, evIsLock ev = false := by
  intro ev hev
  unfold grantReadTail at hev
  cases ht : o.txn2Ok with
  | false => simp [ht] at hev
  | true =>
    simp only [ht, Bool.not_true, Bool.false_eq_true, if_false] at hev
    rcases List.mem_cons.mp hev with rfl | hev'
    · rfl
    rcases List.mem_cons.mp hev' with rfl | hev''
    · rfl
    rcases List.mem_singleton.mp hev'' with rfl
    rfl

theorem grantCreateBody_no_lock (inp : GrantInput) (o : GrantOracle) :
    ∀ ev ∈ (grantCreateBody inp o).1, evIsLock ev = false := by
  intro ev hev
  by_cases hdb : inp.objectType = str "database"
  · rcases hw : withRolesGranted o [] (grantCreateFn inp o) with ⟨wevs, rwr⟩
    have hwl : ∀ e ∈ wevs, evIsLock e = false := fun e he =>
      withRolesGranted_no_lock o [] (grantCreateFn inp o)
        (grantCreateFn_no_lock inp o) e (by rw [hw]; exact he)
    rcases rwr with err | u
    · simp only [grantCreateBody, hdb, eq_self_iff_true, if_true, hw] at hev
      exact hwl ev hev
    · obtain ⟨⟩ := u
      cases hc : o.commitOk with
      | false =>
        simp only [grantCreateBody, hdb, eq_self_iff_true, if_true, hw, hc,
          Bool.false_eq_true, if_false] at hev
        rcases List.mem_append.mp hev with h | h
        · exact hwl ev h
        · rcases List.mem_singleton.mp h with rfl
          rfl
      | true =>
        simp only [grantCreateBody, hdb, eq_self_iff_true, if_true, hw,
          hc] at hev
        rcases List.mem_append.mp hev with h | h
        · rcases List.mem_append.mp h with h' | h'
          · exact hwl ev h'
          · rcases List.mem_singleton.mp h' with rfl
            rfl
        · exact grantReadTail_no_lock o ev h
  · rcases how : o.ownersResult with e | owners
    · simp only [grantCreateBody, if_neg hdb, how] at hev
      simp at hev
    · rcases hw : withRolesGranted o owners (grantCreateFn inp o)
        with ⟨wevs, rwr⟩
      have hwl : ∀ e ∈ wevs, evIsLock e = false := fun e he =>
        withRolesGranted_no_lock o owners (grantCreateFn inp o)
          (grantCreateFn_no_lock inp o) e (by rw [hw]; exact he)
      rcases rwr with err | u
      · simp only [grantCreateBody, if_neg hdb, how, hw] at hev
        exact hwl ev hev
      · obtain ⟨⟩ := u
        cases hc : o.commitOk with
        | false =>
          simp only [grantCreateBody, if_neg hdb, how, hw, hc,
            Bool.false_eq_true, if_false] at hev
          rcases List.mem_append.mp hev with h | h
          · exact hwl ev h
          · rcases List.mem_singleton.mp h with rfl
            rfl
        | true =>
          simp only [grantCreateBody, if_neg hdb, how, hw, hc] at hev
          rcases List.mem_append.mp hev with h | h
          · rcases List.mem_append.mp h with h' | h'
            · exact hwl ev h'
            · rcases List.mem_singleton.mp h' with rfl
              rfl
          · exact grantReadTail_no_lock o ev h

theorem grantDeleteBody_no_lock (inp : GrantInput) (o : GrantOracle) :
    ∀ ev ∈ (grantDeleteBody inp o).1, evIsLock ev = false := by
  intro ev hev
  by_cases hdb : inp.objectType = str "database"
  · rcases hw : withRolesGranted o [] (grantDeleteFn inp o) with ⟨wevs, rwr⟩
    have hwl : ∀ e ∈ wevs, evIsLock e = false := fun e he =>
      withRolesGranted_no_lock o [] (grantDeleteFn inp o)
        (grantDeleteFn_no_lock inp o) e (by rw [hw]; exact he)
    rcases rwr with err | u
    · simp only [grantDeleteBody, hdb, eq_self_iff_true, if_true, hw] at hev
      exact hwl ev hev
    · obtain ⟨⟩ := u
      cases hc : o.commitOk with
      | false =>
        simp only [grantDeleteBody, hdb, eq_self_iff_true, if_true, hw, hc,
          Bool.false_eq_true, if_false] at hev
        rcases List.mem_append.mp hev with h | h
        · exact hwl ev h
        · rcases List.mem_singleton.mp h with rfl
          rfl
      | true =>
        simp only [grantDeleteBody, hdb, eq_self_iff_true, if_true, hw, hc,
          if_true] at hev
        rcases List.mem_append.mp hev with h | h
        · exact hwl ev h
        · rcases List.mem_singleton.mp h with rfl
          rfl
  · rcases how : o.ownersResult with e | owners
    · simp only [grantDeleteBody, if_neg hdb, how] at hev
      simp at hev
    · rcases hw : withRolesGranted o owners (grantDeleteFn inp o)
        with ⟨wevs, rwr⟩
      have hwl : ∀ e ∈ wevs, evIsLock e = false := fun e he =>
        withRolesGranted_no_lock o owners (grantDeleteFn inp o)
          (grantDeleteFn_no_lock inp o) e (by rw [hw]; exact he)
      rcases rwr with err | u
      · simp only [grantDeleteBody, if_neg hdb, how, hw] at hev
        exact hwl ev hev
      · obtain ⟨⟩ := u
        cases hc : o.commitOk with
        | false =>
          simp only [grantDeleteBody, if_neg hdb, how, hw, hc,
            Bool.false_eq_true, if_false] at hev
          rcases List.mem_append.mp hev with h | h
          · exact hwl ev h
          · rcases List.mem_singleton.mp h with rfl
            rfl
        | true =>
          simp only [grantDeleteBody, if_neg hdb, how, hw, hc,
            if_true] at hev
          rcases List.mem_append.mp hev with h | h
          · exact hwl ev h
          · rcases List.mem_singleton.mp h with rfl
            rfl

theorem grantReadBody_no_lock (o : GrantOracle) :
    ∀ ev ∈ (grantReadBody o).1, evIsLock ev = false := by
  intro ev hev
  unfold grantReadBody at hev
  cases ht : o.txnOk with
  | false => simp [ht] at hev
  | true =>
    simp only [ht, Bool.not_true, Bool.false_eq_true, if_false] at hev
    have hc : ∀ e ∈ [Ev.beginTxn, Ev.query checkRoleDBSchemaSql,
        Ev.rollbackCall], evIsLock e = false := by
      intro e he
      rcases List.mem_cons.mp he with rfl | he'
      · rfl
      rcases List.mem_cons.mp he' with rfl | he''
      · rfl
      rcases List.mem_singleton.mp he'' with rfl
      rfl
    rcases hck : o.checkExists with e | b <;> rw [hck] at hev
    · exact hc ev hev
    · cases b with
      | false => exact hc ev hev
      | true =>
        rcases List.mem_append.mp hev with h | h
        · exact hc ev h
        · exact grantReadTail_no_lock o ev h

theorem extensionReadImplBody_no_lock (o : ExtOracle) :
    ∀ ev ∈ (extensionReadImplBody o).1, evIsLock ev = false := by
  intro ev hev
  unfold extensionReadImplBody at hev
  cases ht : o.txnOk with
  | false => simp [ht] at hev
  | true =>
    simp only [ht, Bool.not_true, Bool.false_eq_true, if_false] at hev
    rcases List.mem_cons.mp hev with rfl | hev'
    · rfl
    rcases List.mem_cons.mp hev' with rfl | hev''
    · rfl
    rcases List.mem_singleton.mp hev'' with rfl
    rfl

theorem setExtSchemaStep_no_lock (execOk : Stmt → Bool) (inp : ExtInput) :
    ∀ ev ∈ (setExtSchemaStep execOk inp).1, evIsLock ev = false := by
  intro ev hev
  unfold setExtSchemaStep at hev
  by_cases hc : inp.hasChangeSchema
  · rw [if_neg (by simp [hc])] at hev
    by_cases hn : inp.newSchema = []
    · rw [if_pos hn] at hev
      simp at hev
    · rw [if_neg hn] at hev
      by_cases hx : execOk (Stmt.raw (str "ALTER EXTENSION " ++
          quoteIdentifier inp.extName ++ str " SET SCHEMA " ++
          quoteIdentifier inp.newSchema))
      · rw [if_pos hx] at hev
        rcases List.mem_singleton.mp hev with rfl
        rfl
      · rw [if_neg hx] at hev
        rcases List.mem_singleton.mp hev with rfl
        rfl
  · rw [if_pos (by simp [hc])] at hev
    simp at hev

theorem setExtVersionStep_no_lock (execOk : Stmt → Bool) (inp : ExtInput) :
    ∀ ev ∈ (setExtVersionStep execOk inp).1, evIsLock ev = false := by
  intro ev hev
  unfold setExtVersionStep at hev
  by_cases hc : inp.hasChangeVersion
  · rw [if_neg (by simp [hc])] at hev
    by_cases hx : execOk (Stmt.raw (str "ALTER EXTENSION " ++
        quoteIdentifier inp.extName ++ str " UPDATE" ++
        (if inp.newVersion ≠ [] then
          str " TO " ++ quoteIdentifier inp.newVersion else [])))
    · rw [if_pos hx] at hev
      rcases List.mem_singleton.mp hev with rfl
      rfl
    · rw [if_neg hx] at hev
      rcases List.mem_singleton.mp hev with rfl
      rfl
  · rw [if_pos (by simp [hc])] at hev
    simp at hev

theorem extensionUpdateBody_no_lock (inp : ExtInput) (o : ExtOracle) :
    ∀ ev ∈ (extensionUpdateBody inp o).1, evIsLock ev = false := by
  intro ev hev
  unfold extensionUpdateBody at hev
  rcases hs : setExtSchemaStep o.execOk inp with ⟨evs, r⟩
  rw [hs] at hev
  have hs' : ∀ e ∈ evs, evIsLock e = false := fun e he =>
    setExtSchemaStep_no_lock o.execOk inp e (by rw [hs]; exact he)
  rcases r with e | u
  · exact hs' ev hev
  · obtain ⟨⟩ := u
    rcases hv : setExtVersionStep o.execOk inp with ⟨evs', r'⟩
    rw [hv] at hev
    have hv' : ∀ e ∈ evs', evIsLock e = false := fun e he =>
      setExtVersionStep_no_lock o.execOk inp e (by rw [hv]; exact he)
    rcases r' with e | u'
    · exact no_lock_append hs' hv' ev hev
    · obtain ⟨⟩ := u'
      cases hcm : o.commitOk with
      | false =>
        rw [hcm] at hev
        simp only [Bool.not_false, if_true] at hev
        rcases List.mem_append.mp hev with h | h
        · exact no_lock_append hs' hv' ev h
        · rcases List.mem_singleton.mp h with rfl
          rfl
      | true =>
        rw [hcm] at hev
        simp only [Bool.not_true, Bool.false_eq_true, if_false] at hev
        rcases List.mem_append.mp hev with h | h
        · rcases List.mem_append.mp h with h' | h'
          · exact no_lock_append hs' hv' ev h'
          · rcases List.mem_singleton.mp h' with rfl
            rfl
        · exact extensionReadImplBody_no_lock o ev h

theorem schemaCreate_lock_envelope (inp : SchemaInput) (o : SchemaOracle) :
    (schemaCreate inp o).1.filter evIsLock =
      [Ev.lock true, Ev.unlock true] := by
  by_cases htx : o.txnOk = true
  · obtain ⟨htr, _⟩ := schemaCreate_trace inp o htx
    rw [htr, List.filter_append, List.filter_append,
      filter_lock_nil (schemaCreateBody_no_lock inp o)]
    rfl
  · simp only [Bool.not_eq_true] at htx
    simp only [schemaCreate, htx, Bool.not_false, if_true]
    rfl

theorem schemaDelete_lock_envelope (inp : SchemaInput) (o : SchemaOracle) :
    (schemaDelete inp o).1.filter evIsLock =
      [Ev.lock true, Ev.unlock true] := by
  by_cases htx : o.txnOk = true
  · obtain ⟨htr, _⟩ := schemaDelete_trace inp o htx
    rw [htr, List.filter_append, List.filter_append,
      filter_lock_nil (schemaDeleteBody_no_lock inp o)]
    rfl
  · simp only [Bool.not_eq_true] at htx
    simp only [schemaDelete, htx, Bool.not_false, if_true]
    rfl

theorem schemaUpdate_lock_envelope (inp : SchemaInput) (o : SchemaOracle) :
    (schemaUpdate inp o).1.filter evIsLock =
      [Ev.lock true, Ev.unlock true] := by
  by_cases htx : o.txnOk = true
  · obtain ⟨htr, _⟩ := schemaUpdate_trace inp o htx
    rw [htr, List.filter_append, List.filter_append,
      filter_lock_nil (schemaUpdateBody_no_lock inp o)]
    rfl
  · simp only [Bool.not_eq_true] at htx
    simp only [schemaUpdate, htx, Bool.not_false, if_true]
    rfl

theorem schemaRead_lock_envelope (o : SchemaOracle) :
    (schemaRead o).1.filter evIsLock =
      [Ev.lock false, Ev.unlock false] := by
  show (([Ev.lock false] ++ (schemaReadImplBody o).1 ++
    [Ev.unlock false]).filter evIsLock) = _
  rw [List.filter_append, List.filter_append,
    filter_lock_nil (fun ev hev => schemaReadImplBody_no_lock o ev hev)]
  rfl

theorem schemaExists_lock_envelope (inp : SchemaInput) (o : SchemaOracle) :
    (schemaExists inp o).1.filter evIsLock =
      [Ev.lock false, Ev.unlock false] := rfl

theorem grantCreate_lock_envelope (inp : GrantInput) (o : GrantOracle)
    (hf : o.featureOk = true) (hv : o.validateOk = true) :
    (grantCreate inp o).1.filter evIsLock =
      [Ev.lock true, Ev.unlock true] := by
  cases htx : o.txnOk with
  | false =>
    simp only [grantCreate, hf, hv, htx, Bool.not_true, Bool.not_false,
      Bool.false_eq_true, if_false, if_true]
    rfl
  | true =>
    simp only [grantCreate, hf, hv, htx, Bool.not_true, Bool.false_eq_true,
      if_false]
    rw [List.filter_append, List.filter_append,
      filter_lock_nil (grantCreateBody_no_lock inp o)]
    rfl

theorem grantDelete_lock_envelope (inp : GrantInput) (o : GrantOracle)
    (hf : o.featureOk = true) :
    (grantDelete inp o).1.filter evIsLock =
      [Ev.lock true, Ev.unlock true] := by
  cases htx : o.txnOk with
  | false =>
    simp only [grantDelete, hf, htx, Bool.not_true, Bool.not_false,
      Bool.false_eq_true, if_false, if_true]
    rfl
  | true =>
    simp only [grantDelete, hf, htx, Bool.not_true, Bool.false_eq_true,
      if_false]
    rw [List.filter_append, List.filter_append,
      filter_lock_nil (grantDeleteBody_no_lock inp o)]
    rfl

theorem grantRead_lock_envelope (o : GrantOracle)
    (hf : o.featureOk = true) :
    (grantRead o).1.filter evIsLock =
      [Ev.lock false, Ev.unlock false] := by
  simp only [grantRead, hf, Bool.not_true, Bool.false_eq_true, if_false]
  rw [List.filter_append, List.filter_append,
    filter_lock_nil (grantReadBody_no_lock o)]
  rfl

theorem extensionRead_lock_envelope (o : ExtOracle)
    (hf : o.featureOk = true) :
    (extensionRead o).1.filter evIsLock =
      [Ev.lock false, Ev.unlock false] := by
  simp only [extensionRead, hf, Bool.not_true, Bool.false_eq_true, if_false]
  rw [List.filter_append, List.filter_append,
    filter_lock_nil (extensionReadImplBody_no_lock o)]
  rfl

theorem extensionCreate_lock_envelope (inp : ExtInput) (o : ExtOracle)
    (hf : o.featureOk = true) :
    (extensionCreate inp o).1.filter evIsLock =
      [Ev.lock true, Ev.unlock true] := by
  cases htx : o.txnOk with
  | false =>
    simp only [extensionCreate, hf, htx, Bool.not_true, Bool.not_false,
      Bool.false_eq_true, if_false, if_true]
    rfl
  | true =>
    simp only [extensionCreate, hf, htx, Bool.not_true, Bool.false_eq_true,
      if_false]
    cases hx : o.execOk (Stmt.raw (createExtensionSql inp)) with
    | false =>
      simp only [hx, Bool.not_false, if_true]
      rfl
    | true =>
      simp only [hx, Bool.not_true, Bool.false_eq_true, if_false]
      cases hcm : o.commitOk with
      | false =>
        simp only [hcm, Bool.not_false, if_true]
        rfl
      | true =>
        simp only [hcm, Bool.not_true, Bool.false_eq_true, if_false]
        rw [List.filter_append, List.filter_append,
          filter_lock_nil (extensionReadImplBody_no_lock o)]
        rfl

theorem extensionDelete_lock_envelope (inp : ExtInput) (o : ExtOracle)
    (hf : o.featureOk = true) :
    (extensionDelete inp o).1.filter evIsLock =
      [Ev.lock true, Ev.unlock true] := by
  cases htx : o.txnOk with
  | false =>
    simp only [extensionDelete, hf, htx, Bool.not_true, Bool.not_false,
      Bool.false_eq_true, if_false, if_true]
    rfl
  | true =>
    simp only [extensionDelete, hf, htx, Bool.not_true, Bool.false_eq_true,
      if_false]
    cases hx : o.execOk (Stmt.raw (dropExtensionSql inp)) with
    | false =>
      simp only [hx, Bool.not_false, if_true]
      rfl
    | true =>
      simp only [hx, Bool.not_true, Bool.false_eq_true, if_false]
      cases hcm : o.commitOk with
      | false =>
        simp only [hcm, Bool.not_false, if_true]
        rfl
      | true =>
        simp only [hcm, Bool.not_true, Bool.false_eq_true, if_false]
        rfl

theorem extensionUpdate_lock_envelope (inp : ExtInput) (o : ExtOracle)
    (hf : o.featureOk = true) :
    (extensionUpdate inp o).1.filter evIsLock =
      [Ev.lock true, Ev.unlock true] := by
  cases htx : o.txnOk with
  | false =>
    simp only [extensionUpdate, hf, htx, Bool.not_true, Bool.not_false,
      Bool.false_eq_true, if_false, if_true]
    rfl
  | true =>
    simp only [extensionUpdate, hf, htx, Bool.not_true, Bool.false_eq_true,
      if_false]
    rw [List.filter_append, List.filter_append,
      filter_lock_nil (extensionUpdateBody_no_lock inp o)]
    rfl

theorem extensionExists_lock_envelope (o : ExtOracle)
    (hf : o.featureOk = true) :
    (extensionExists o).1.filter evIsLock =
      [Ev.lock true, Ev.unlock true] := by
  cases htx : o.txnOk with
  | false =>
    simp only [extensionExists, hf, htx, Bool.not_true, Bool.not_false,
      Bool.false_eq_true, if_false, if_true]
    rfl
  | true =>
    simp only [extensionExists, hf, htx, Bool.not_true, Bool.false_eq_true,
      if_false]
    rfl

/-- A fixed extension-resource input: extension "hstore", no pending
changes. -/
def sampleExtInput : ExtInput :=
  { extName := str "hstore", extSchema := none, extVersion := none,
    hasChangeSchema := false, newSchema := [], hasChangeVersion := false,
    newVersion := [] }

/-- Extension-resource database responses for a run in which every step
succeeds and the extension exists. -/
def sampleExtOracle : ExtOracle :=
  { featureOk := true, txnOk := true, extRow := RowResult.found,
    execOk := fun _ => true, commitOk := true }

/-- C5 counterexample: the extension existence probe is read-only — it
succeeds with a plain catalog query — yet it acquires the catalog lock in
WRITE mode and never takes the read lock, refuting "every read-only
operation (read, exists) acquires the catalog lock in shared mode". -/
theorem extensionExists_readonly_write_lock :
    (extensionExists sampleExtOracle).2 = Except.ok true ∧
    (extensionExists sampleExtOracle).1.filter evIsLock =
      [Ev.lock true, Ev.unlock true] ∧
    Ev.lock false ∉ (extensionExists sampleExtOracle).1 :=
  ⟨rfl, rfl, by decide⟩

/-- C5 (amended): every operation that creates, alters or drops a
schema-level object (schema create/update/delete, grant create/delete,
extension create/update/delete) brackets its whole trace in exactly one
write acquisition and release of the catalog lock with no other lock
event, and the read-only passes (schema read and exists, extension read,
grant read) bracket theirs in exactly one read acquisition and release —
except the extension existence probe, which, although read-only, takes
the lock in write mode. -/
theorem catalogLock_envelopes (si : SchemaInput) (so : SchemaOracle)
    (gi : GrantInput) (go : GrantOracle) (ei : ExtInput) (eo : ExtOracle)
    (hgf : go.featureOk = true) (hgv : go.validateOk = true)
    (hef : eo.featureOk = true) :
    (schemaCreate si so).1.filter evIsLock =
      [Ev.lock true, Ev.unlock true] ∧
    (schemaDelete si so).1.filter evIsLock =
      [Ev.lock true, Ev.unlock true] ∧
    (schemaUpdate si so).1.filter evIsLock =
      [Ev.lock true, Ev.unlock true] ∧
    (grantCreate gi go).1.filter evIsLock =
      [Ev.lock true, Ev.unlock true] ∧
    (grantDelete gi go).1.filter evIsLock =
      [Ev.lock true, Ev.unlock true] ∧
    (extensionCreate ei eo).1.filter evIsLock =
      [Ev.lock true, Ev.unlock true] ∧
    (extensionUpdate ei eo).1.filter evIsLock =
      [Ev.lock true, Ev.unlock true] ∧
    (extensionDelete ei eo).1.filter evIsLock =
      [Ev.lock true, Ev.unlock true] ∧
    (schemaRead so).1.filter evIsLock =
      [Ev.lock false, Ev.unlock false] ∧
    (schemaExists si so).1.filter evIsLock =
      [Ev.lock false, Ev.unlock false] ∧
    (extensionRead eo).1.filter evIsLock =
      [Ev.lock false, Ev.unlock false] ∧
    (grantRead go).1.filter evIsLock =
      [Ev.lock false, Ev.unlock false] ∧
    (extensionExists eo).1.filter evIsLock =
      [Ev.lock true, Ev.unlock true] :=
  ⟨schemaCreate_lock_envelope si so,
    schemaDelete_lock_envelope si so,
    schemaUpdate_lock_envelope si so,
    grantCreate_lock_envelope gi go hgf hgv,
    grantDelete_lock_envelope gi go hgf,
    extensionCreate_lock_envelope ei eo hef,
    extensionUpdate_lock_envelope ei eo hef,
    extensionDelete_lock_envelope ei eo hef,
    schemaRead_lock_envelope so,
    schemaExists_lock_envelope si so,
    extensionRead_lock_envelope eo hef,
    grantRead_lock_envelope go hgf,
    extensionExists_lock_envelope eo hef⟩

/-- Witness: the lock envelopes on the fixed all-success inputs — write
envelope for the grant create, read envelopes for the grant and extension
reads, and the write envelope of the read-only extension existence
probe. -/
theorem catalogLock_envelopes_witness :
    (grantCreate sampleGrantInput sampleGrantOracleOk).1.filter evIsLock =
      [Ev.lock true, Ev.unlock true] ∧
    (grantRead sampleGrantOracleOk).1.filter evIsLock =
      [Ev.lock false, Ev.unlock false] ∧
    (extensionRead sampleExtOracle).1.filter evIsLock =
      [Ev.lock false, Ev.unlock false] ∧
    (extensionExists sampleExtOracle).1.filter evIsLock =
      [Ev.lock true, Ev.unlock true] := by
  have h := catalogLock_envelopes sampleSchemaInput sampleOracleOk
    sampleGrantInput sampleGrantOracleOk sampleExtInput sampleExtOracle
    rfl rfl rfl
  exact ⟨h.2.2.2.1, h.2.2.2.2.2.2.2.2.2.2.2.1,
    h.2.2.2.2.2.2.2.2.2.2.1, h.2.2.2.2.2.2.2.2.2.2.2.2⟩
